import Mathlib

/-! # hextech-file-hosting: path confinement and upload validation

A shallow embedding of `security/path.go`, `security/upload.go` and the
handlers of `handlers/files.go` that compose them.

Conventions of the embedding.

* A Go `string` is a `List Char`: the sequence of its runes.  Inputs are taken
  to be valid UTF-8, so byte-wise and rune-wise scanning for the ASCII bytes
  `/`, `.` and space agree.
* `path/filepath` is the Unix implementation (separator `/`, no volume names).
* The operating system (working directory, file tree) and the Unicode case
  tables of the Go runtime are explicit parameters, as are the library
  functions whose result the program only passes on: the extension table of
  `mime`, the content sniffer of `net/http`, SHA-256, and `sort.Slice`, which
  is taken by its contract.
-/

set_option autoImplicit false

namespace Hextech

/-- A Go string, as the list of its runes. -/
abbrev GoString := List Char

/-! ## `strings` -/

/-- `strings.HasPrefix`. -/
def HasPrefix (s pre : GoString) : Bool := pre.isPrefixOf s

/-- `strings.Contains`: `substr` occurs in `s` at some offset. -/
def Contains : GoString → GoString → Bool
  | [], substr => substr.isEmpty
  | c :: cs, substr => substr.isPrefixOf (c :: cs) || Contains cs substr

/-- `strings.TrimPrefix`. -/
def TrimPrefix (s pre : GoString) : GoString :=
  if HasPrefix s pre then s.drop pre.length else s

/-- `strings.ReplaceAll` for a one-rune pattern and a one-rune replacement,
the only form the program uses (`" "` by `"-"`). -/
def ReplaceAll (s : GoString) (old new : Char) : GoString :=
  s.map fun c => if c = old then new else c

/-- `strings.Split` for a one-rune separator: the fields between the
occurrences of `sep` (one more field than there are separators). -/
def Split : GoString → Char → List GoString
  | [], _ => [[]]
  | c :: cs, sep =>
    if c = sep then [] :: Split cs sep
    else match Split cs sep with
      | [] => [[c]]
      | e :: es => (c :: e) :: es

/-- `unicode.IsSpace`. -/
def IsSpace (r : Char) : Bool :=
  let n := r.toNat
  if n ≤ 0xFF then
    n = 0x09 ∨ n = 0x0A ∨ n = 0x0B ∨ n = 0x0C ∨ n = 0x0D ∨ n = 0x20 ∨ n = 0x85 ∨ n = 0xA0
  else
    n = 0x1680 ∨ (0x2000 ≤ n ∧ n ≤ 0x200A) ∨ n = 0x2028 ∨ n = 0x2029 ∨ n = 0x202F ∨
      n = 0x205F ∨ n = 0x3000

/-- `strings.TrimSpace`. -/
def TrimSpace (s : GoString) : GoString :=
  ((s.dropWhile IsSpace).reverse.dropWhile IsSpace).reverse

/-- The tables of Go's `unicode` package that the program consults through
`strings.ToLower` and `strings.EqualFold`, for runes above `MaxASCII`.

* `lower r` is `unicode.To(unicode.LowerCase, r)`.
* `foldReach lo hi` tells whether iterating `unicode.SimpleFold` from `lo`
  arrives at `hi` (used by `EqualFold` with `lo < hi` and `hi` not ASCII).

The recorded facts are the ASCII-valued entries of the lower-case table:
U+0130 (delta -199) and U+212A (delta -8383) are the only runes above
`MaxASCII` whose lower-case form is ASCII. -/
structure CaseTables where
  lower : Char → Char
  foldReach : Char → Char → Bool
  lower_0130 : lower (Char.ofNat 0x130) = 'i'
  lower_212A : lower (Char.ofNat 0x212A) = 'k'
  lower_ascii : ∀ c : Char, 128 ≤ c.toNat → (lower c).toNat < 128 →
    (c = Char.ofNat 0x130 ∨ c = Char.ofNat 0x212A)

/-- `unicode.ToLower`: ASCII is handled in the code, the rest by the table. -/
def unicodeToLower (T : CaseTables) (r : Char) : Char :=
  if r.toNat ≤ 127 then
    (if 'A'.toNat ≤ r.toNat ∧ r.toNat ≤ 'Z'.toNat then Char.ofNat (r.toNat + 32) else r)
  else T.lower r

/-- `strings.ToLower`: every rune mapped by `unicode.ToLower` (the ASCII fast
path of the library computes the same string). -/
def ToLower (T : CaseTables) (s : GoString) : GoString := s.map (unicodeToLower T)

/-- One rune comparison of `strings.EqualFold`: equal runes, or an ASCII
upper/lower pair, or (when the larger rune is not ASCII) runes on one
`SimpleFold` orbit. -/
def foldEqRune (T : CaseTables) (sr tr : Char) : Bool :=
  if tr = sr then true
  else
    let lo := if tr.toNat < sr.toNat then tr else sr
    let hi := if tr.toNat < sr.toNat then sr else tr
    if hi.toNat < 128 then
      decide ('A'.toNat ≤ lo.toNat ∧ lo.toNat ≤ 'Z'.toNat ∧ hi.toNat = lo.toNat + 32)
    else T.foldReach lo hi

/-- `strings.EqualFold`: rune by rune, both strings exhausted together. -/
def EqualFold (T : CaseTables) : GoString → GoString → Bool
  | [], [] => true
  | sr :: s, tr :: t => foldEqRune T sr tr && EqualFold T s t
  | _, _ => false

/-! ## `path/filepath` (Unix) -/

/-- `filepath.IsAbs`. -/
def IsAbs (path : GoString) : Bool := HasPrefix path ['/']

/-- The elements of a path: the text between separators (possibly empty). -/
def splitSep (path : GoString) : List GoString := Split path '/'

/-- `strings.Join(elems, "/")`. -/
def joinSep : List GoString → GoString
  | [] => []
  | [e] => e
  | e :: es => e ++ '/' :: joinSep es

/-- One element processed by the loop of `filepath.Clean`.  `stack` holds the
elements written so far, last one first.  Empty and `.` elements are dropped;
`..` removes the last element when there is one that is not `..`, is dropped
at the top of a rooted path and is kept otherwise; any other element is
appended. -/
def cleanStep (rooted : Bool) (stack : List GoString) (e : GoString) : List GoString :=
  if e = [] ∨ e = ['.'] then stack
  else if e = ['.', '.'] then
    match stack with
    | [] => if rooted then [] else [e]
    | t :: rest => if t = ['.', '.'] then (if rooted then stack else e :: stack) else rest
  else e :: stack

/-- `filepath.Clean`. -/
def Clean (path : GoString) : GoString :=
  if path = [] then ['.']
  else
    let rooted := IsAbs path
    let out := joinSep ((splitSep path).foldl (cleanStep rooted) []).reverse
    if rooted then '/' :: out
    else if out = [] then ['.'] else out

/-- `filepath.Join` of two elements: empty elements are ignored, the rest is
joined by the separator and cleaned. -/
def Join (a b : GoString) : GoString :=
  if a ≠ [] then Clean (a ++ '/' :: b)
  else if b ≠ [] then Clean b
  else []

/-- Strip the trailing separators (first loop of `filepath.Base`). -/
def stripTrailingSep (path : GoString) : GoString :=
  (path.reverse.dropWhile (· = '/')).reverse

/-- The text after the last separator (the whole text when there is none). -/
def afterLastSep (path : GoString) : GoString :=
  (path.reverse.takeWhile (· ≠ '/')).reverse

/-- `filepath.Base`. -/
def Base (path : GoString) : GoString :=
  if path = [] then ['.']
  else
    let p := afterLastSep (stripTrailingSep path)
    if p = [] then ['/'] else p

/-- `filepath.Dir`: everything up to and including the last separator, cleaned. -/
def Dir (path : GoString) : GoString :=
  Clean (path.reverse.dropWhile (· ≠ '/')).reverse

/-- `filepath.Ext`: scanning backwards, stop at a separator; the suffix from
the first dot met, or the empty string. -/
def extScan : GoString → GoString → GoString
  | [], _ => []
  | c :: revRest, acc =>
    if c = '/' then []
    else if c = '.' then c :: acc
    else extScan revRest (c :: acc)

/-- `filepath.Ext`. -/
def Ext (path : GoString) : GoString := extScan path.reverse []

/-! ## Operating system: working directory and file tree -/

/-- Error numbers of the system calls the program issues. -/
inductive Errno
  | ENOENT | ENOTDIR | ELOOP | EISDIR | EEXIST | ENOTEMPTY | EINVAL | EBUSY
  deriving DecidableEq, Repr

/-- Equality of results is decidable. -/
instance instDecidableEqExcept {ε α : Type} [DecidableEq ε] [DecidableEq α] :
    DecidableEq (Except ε α)
  | .ok a, .ok b =>
    if h : a = b then isTrue (by rw [h]) else isFalse (fun h1 => h (by cases h1; rfl))
  | .error a, .error b =>
    if h : a = b then isTrue (by rw [h]) else isFalse (fun h1 => h (by cases h1; rfl))
  | .ok _, .error _ => isFalse (fun h1 => by cases h1)
  | .error _, .ok _ => isFalse (fun h1 => by cases h1)

/-- `os.IsNotExist`. -/
def IsNotExist (e : Errno) : Bool := e = Errno.ENOENT

/-- The error values of package `security`, and system errors passed through. -/
inductive GoError
  | ErrPathTraversal | ErrSymlinkDetected | ErrOutsideBaseDir | ErrInvalidPath
  | ErrBlockedExtension | ErrFileTooLarge | ErrInvalidFilename | ErrMIMEMismatch
  | sys (op path : GoString) (e : Errno)
  deriving DecidableEq, Repr

/-- The text of an error number (`syscall.Errno.Error`). -/
def Errno.Error : Errno → GoString
  | Errno.ENOENT => "no such file or directory".toList
  | Errno.ENOTDIR => "not a directory".toList
  | Errno.ELOOP => "too many levels of symbolic links".toList
  | Errno.EISDIR => "is a directory".toList
  | Errno.EEXIST => "file exists".toList
  | Errno.ENOTEMPTY => "directory not empty".toList
  | Errno.EINVAL => "invalid argument".toList
  | Errno.EBUSY => "device or resource busy".toList

/-- The method `Error()`: the texts given to `errors.New`, and the text of an
`*fs.PathError`. -/
def GoError.Error : GoError → GoString
  | GoError.ErrPathTraversal => "path traversal attempt detected".toList
  | GoError.ErrSymlinkDetected => "symlinks are not allowed".toList
  | GoError.ErrOutsideBaseDir => "path is outside base directory".toList
  | GoError.ErrInvalidPath => "invalid path".toList
  | GoError.ErrBlockedExtension => "file extension is blocked".toList
  | GoError.ErrFileTooLarge => "file exceeds maximum size".toList
  | GoError.ErrInvalidFilename => "invalid filename".toList
  | GoError.ErrMIMEMismatch => "MIME type does not match extension".toList
  | GoError.sys op path e => op ++ ' ' :: path ++ ": ".toList ++ e.Error

/-- The process environment: `os.Getwd` either fails or returns a rooted
path name of the current directory. -/
structure Env where
  getwd : Option GoString
  getwd_rooted : ∀ wd, getwd = some wd → IsAbs wd = true

/-- `filepath.Abs` (Unix): an absolute path is cleaned, a relative one is
joined to the working directory; fails when `os.Getwd` fails. -/
def Abs (E : Env) (path : GoString) : Except Errno GoString :=
  if IsAbs path then .ok (Clean path)
  else match E.getwd with
    | none => .error Errno.ENOENT
    | some wd => .ok (Join wd path)

/-- A node of the file tree. -/
inductive Node
  | file (content : List Nat)
  | dir
  | symlink (target : GoString)
  deriving DecidableEq, Repr

/-- The file tree: the node at each location, a location being the list of
element names leading to it from `/`.  The root `[]` is a directory. -/
structure FS where
  entries : List (List GoString × Node)
  deriving DecidableEq

/-- The node stored at a location. -/
def FS.node (fs : FS) (loc : List GoString) : Option Node := fs.entries.lookup loc

/-- Outcome of resolving a path name. -/
inductive Resolved
  | found (loc : List GoString) (n : Node)
  | absent (parent : List GoString) (name : GoString)
  deriving DecidableEq, Repr

/-- Path name resolution.  `cur` is the directory reached, `todo` the elements
left.  Links met before the last element are followed, the last one only when
`followLast`.  `links` is the number of links that may still be followed: the
system reports `ELOOP` when one more is met.  `fuel` bounds the number of
steps. -/
def walk (fs : FS) (followLast : Bool) :
    Nat → Nat → List GoString → List GoString → Except Errno Resolved
  | 0, _, _, _ => .error Errno.ELOOP
  | _ + 1, _, cur, [] => .ok (Resolved.found cur Node.dir)
  | fuel + 1, links, cur, e :: rest =>
    if e = [] ∨ e = ['.'] then walk fs followLast fuel links cur rest
    else if e = ['.', '.'] then walk fs followLast fuel links cur.dropLast rest
    else match fs.node (cur ++ [e]) with
      | none => if rest = [] then .ok (Resolved.absent cur e) else .error Errno.ENOENT
      | some Node.dir => walk fs followLast fuel links (cur ++ [e]) rest
      | some (Node.file c) =>
        if rest = [] then .ok (Resolved.found (cur ++ [e]) (Node.file c))
        else .error Errno.ENOTDIR
      | some (Node.symlink t) =>
        if rest = [] ∧ followLast = false then
          .ok (Resolved.found (cur ++ [e]) (Node.symlink t))
        else if links = 0 then .error Errno.ELOOP
        else walk fs followLast fuel (links - 1) (if IsAbs t then [] else cur)
          (splitSep t ++ rest)

/-- The number of links one resolution follows (`MAXSYMLINKS` of Linux): the
forty-first is refused with `ELOOP`. -/
def maxSymlinks : Nat := 40

/-- Bound on the steps of one resolution, one step for each element.  A path
name and a link target are shorter than `PATH_MAX` = 4096 bytes, so each has
at most 4096 elements, and a resolution walks the working directory, the name
and at most `maxSymlinks` targets. -/
def resolveFuel : Nat := 42 * 4096 + 1

/-- Resolve a path name given to a system call; a relative name starts at
the working directory. -/
def resolve (E : Env) (fs : FS) (followLast : Bool) (path : GoString) :
    Except Errno Resolved :=
  if path = [] then .error Errno.ENOENT
  else if IsAbs path then walk fs followLast resolveFuel maxSymlinks [] (splitSep path)
  else match E.getwd with
    | none => .error Errno.ENOENT
    | some wd => walk fs followLast resolveFuel maxSymlinks [] (splitSep wd ++ splitSep path)

/-- The part of `os.FileInfo` the program reads. -/
structure FileInfo where
  name : GoString
  isDir : Bool
  isSymlink : Bool
  size : Nat
  deriving DecidableEq, Repr

/-- The `os.FileInfo` of a node reached under the path name `path`. -/
def fileInfo (path : GoString) : Node → FileInfo
  | Node.file c => { name := Base path, isDir := false, isSymlink := false, size := c.length }
  | Node.dir => { name := Base path, isDir := true, isSymlink := false, size := 0 }
  | Node.symlink t => { name := Base path, isDir := false, isSymlink := true, size := t.length }

/-- `os.Lstat`: the last element is not followed when it is a link. -/
def Lstat (E : Env) (fs : FS) (path : GoString) : Except Errno FileInfo :=
  match resolve E fs false path with
  | .error e => .error e
  | .ok (Resolved.absent _ _) => .error Errno.ENOENT
  | .ok (Resolved.found _ n) => .ok (fileInfo path n)

/-- `os.Stat`: links are followed throughout. -/
def Stat (E : Env) (fs : FS) (path : GoString) : Except Errno FileInfo :=
  match resolve E fs true path with
  | .error e => .error e
  | .ok (Resolved.absent _ _) => .error Errno.ENOENT
  | .ok (Resolved.found _ n) => .ok (fileInfo path n)

/-- Replace the node at a location. -/
def FS.set (fs : FS) (loc : List GoString) (n : Node) : FS :=
  ⟨(loc, n) :: fs.entries.filter fun p => p.1 ≠ loc⟩

/-- `os.WriteFile`: open with `O_WRONLY|O_CREATE|O_TRUNC` (links followed) and
write the whole content. -/
def WriteFile (E : Env) (fs : FS) (name : GoString) (data : List Nat) : Except Errno FS :=
  match resolve E fs true name with
  | .error e => .error e
  | .ok (Resolved.absent parent last) => .ok (fs.set (parent ++ [last]) (Node.file data))
  | .ok (Resolved.found loc (Node.file _)) => .ok (fs.set loc (Node.file data))
  | .ok (Resolved.found _ Node.dir) => .error Errno.EISDIR
  | .ok (Resolved.found _ (Node.symlink _)) => .error Errno.ELOOP

/-- Move the subtree at `src` to `dst`, replacing what was at `dst`. -/
def FS.move (fs : FS) (src dst : List GoString) : FS :=
  ⟨fs.entries.filterMap fun p =>
    if src.isPrefixOf p.1 then some (dst ++ p.1.drop src.length, p.2)
    else if dst.isPrefixOf p.1 then none
    else some p⟩

/-- `os.Rename`: neither name is followed when it is a link; an existing
directory at the new name is refused by the library (`EEXIST`), the root
cannot be moved and a directory cannot be moved below itself. -/
def Rename (E : Env) (fs : FS) (oldpath newpath : GoString) : Except Errno FS :=
  match resolve E fs false newpath, resolve E fs false oldpath with
  | _, .error e => .error e
  | _, .ok (Resolved.absent _ _) => .error Errno.ENOENT
  | .error e, .ok (Resolved.found _ _) => .error e
  | .ok (Resolved.found dst Node.dir), .ok (Resolved.found src _) =>
    if src = dst ∧ oldpath ≠ newpath then .ok fs else .error Errno.EEXIST
  | .ok (Resolved.found dst _), .ok (Resolved.found src n) =>
    if src = dst then .ok fs
    else if n = Node.dir then .error Errno.ENOTDIR
    else .ok (fs.move src dst)
  | .ok (Resolved.absent parent last), .ok (Resolved.found src _) =>
    if src = [] then .error Errno.EBUSY
    else if src.isPrefixOf (parent ++ [last]) then .error Errno.EINVAL
    else .ok (fs.move src (parent ++ [last]))

/-- The elements of a cleaned path, without the empty element a leading
separator gives. -/
def relElems (p : GoString) : List GoString :=
  (splitSep p).filter fun e => e ≠ []

/-- Drop the common leading elements of two element lists (`filepath.Rel`
positions both paths at the first differing elements). -/
def dropCommon : List GoString → List GoString → List GoString × List GoString
  | b :: bs, t :: ts => if b = t then dropCommon bs ts else (b :: bs, t :: ts)
  | bs, ts => (bs, ts)

/-- `filepath.Rel` (Unix): `none` when the target cannot be made relative to
the base. -/
def Rel (basepath targpath : GoString) : Option GoString :=
  let base := Clean basepath
  let targ := Clean targpath
  if targ = base then some ['.']
  else
    let base := if base = ['.'] then [] else base
    if IsAbs base ≠ IsAbs targ then none
    else
      match dropCommon (relElems base) (relElems targ) with
      | ([], ts) => some (joinSep ts)
      | (b :: bs, ts) =>
        if b = ['.', '.'] then none
        else some (joinSep ((b :: bs).map (fun _ => ['.', '.']) ++ ts))

/-! ## `security/path.go` -/

/-- `security.ValidatePath`: the canonical path with `none`, or the empty
path with the error. -/
def ValidatePath (E : Env) (basePath requestedPath : GoString) : GoString × Option GoError :=
  let requestedPath := if requestedPath = [] then ['/'] else requestedPath
  match Abs E basePath with
  | .error _ => ([], some GoError.ErrInvalidPath)
  | .ok absBase =>
    let absBase := Clean absBase
    if Contains requestedPath ['.', '.'] then ([], some GoError.ErrPathTraversal)
    else
      let fullPath := Clean (Join absBase requestedPath)
      if !HasPrefix fullPath absBase then ([], some GoError.ErrOutsideBaseDir)
      else (fullPath, none)

/-- `security.ValidatePathExists`. -/
def ValidatePathExists (E : Env) (fs : FS) (basePath requestedPath : GoString) :
    GoString × Option GoError :=
  match ValidatePath E basePath requestedPath with
  | (_, some err) => ([], some err)
  | (fullPath, none) =>
    match Lstat E fs fullPath with
    | .error err =>
      if IsNotExist err then ([], some GoError.ErrInvalidPath)
      else ([], some (GoError.sys "lstat".toList fullPath err))
    | .ok info =>
      if info.isSymlink then ([], some GoError.ErrSymlinkDetected)
      else (fullPath, none)

/-- `security.GetRelativePath`. -/
def GetRelativePath (basePath fullPath : GoString) : GoString :=
  match Rel basePath fullPath with
  | none => fullPath
  | some rel => '/' :: ReplaceAll rel '\\' '/'

/-- `security.ValidateParentExists`. -/
def ValidateParentExists (E : Env) (fs : FS) (basePath requestedPath : GoString) :
    GoString × Option GoError :=
  match ValidatePath E basePath requestedPath with
  | (_, some err) => ([], some err)
  | (fullPath, none) =>
    match Stat E fs (Dir fullPath) with
    | .error _ => ([], some GoError.ErrInvalidPath)
    | .ok info =>
      if !info.isDir then ([], some GoError.ErrInvalidPath)
      else (fullPath, none)

/-! ## `security/upload.go` -/

/-- The library functions `security/upload.go` relies on besides `strings`
and `filepath`: the extension table of package `mime`, the content sniffer of
`net/http` and the SHA-256 digest in hexadecimal. -/
structure Lib where
  typeByExtension : GoString → GoString
  detectContentType : List Nat → GoString
  sha256Hex : List Nat → GoString

/-- `security.DefaultBlockedExtensions`. -/
def DefaultBlockedExtensions : List GoString :=
  ["php", "phtml", "phar", "cgi", "pl", "py", "sh",
   "exe", "dll", "so", "bin", "bat", "cmd", "ps1",
   "asp", "aspx", "jsp", "jspx", "cfm", "htaccess"].map String.toList

/-- The class `[a-zA-Z0-9]`. -/
def isAlnum (c : Char) : Bool :=
  ('a'.toNat ≤ c.toNat ∧ c.toNat ≤ 'z'.toNat) ∨ ('A'.toNat ≤ c.toNat ∧ c.toNat ≤ 'Z'.toNat) ∨
    ('0'.toNat ≤ c.toNat ∧ c.toNat ≤ '9'.toNat)

/-- The class `[a-zA-Z0-9._-]`. -/
def isNameChar (c : Char) : Bool := isAlnum c || c = '.' || c = '_' || c = '-'

/-- `filenameRegex.MatchString` for the pattern `^[a-zA-Z0-9][a-zA-Z0-9._-]*$`. -/
def filenameRegex : GoString → Bool
  | [] => false
  | c :: cs => isAlnum c && cs.all isNameChar

/-- `security.ValidateFilename`: the normalized name with `none`, or the
empty name with the error. -/
def ValidateFilename (T : CaseTables) (filename : GoString) : GoString × Option GoError :=
  let filename := Base filename
  if filename = [] ∨ filename = ['.'] ∨ filename = ['.', '.'] then
    ([], some GoError.ErrInvalidFilename)
  else
    let normalized := ToLower T filename
    let normalized := ReplaceAll normalized ' ' '-'
    if !filenameRegex normalized then ([], some GoError.ErrInvalidFilename)
    else (normalized, none)

/-- The loop of `security.ValidateExtension` over the blocked extensions. -/
def blockedLoop (T : CaseTables) (ext : GoString) : List GoString → Option GoError
  | [] => none
  | blocked :: rest =>
    if EqualFold T ext blocked then some GoError.ErrBlockedExtension
    else blockedLoop T ext rest

/-- `security.ValidateExtension`. -/
def ValidateExtension (T : CaseTables) (filename : GoString) (blockedExtensions : List GoString) :
    Option GoError :=
  let ext := TrimPrefix (Ext filename) ['.']
  let ext := ToLower T ext
  blockedLoop T ext blockedExtensions

/-- `security.isAllowedMIMEMismatch`. -/
def isAllowedMIMEMismatch (expected detected : GoString) : Bool :=
  if HasPrefix expected "text/".toList ∧ detected = "application/octet-stream".toList then true
  else if expected = "image/svg+xml".toList ∧
      (detected = "text/xml".toList ∨ detected = "text/plain".toList ∨
        detected = "text/html".toList ∨ detected = "application/xml".toList) then true
  else if (expected = "application/javascript".toList ∨ expected = "text/javascript".toList) ∧
      detected = "text/plain".toList then true
  else if expected = "text/css".toList ∧ detected = "text/plain".toList then true
  else if expected = "application/json".toList ∧ detected = "text/plain".toList then true
  else false

/-- `security.ValidateMIME`; `strings.Split(m, ";")[0]` is the first field. -/
def ValidateMIME (L : Lib) (filename : GoString) (content : List Nat) : Option GoError :=
  let ext := Ext filename
  let expectedMIME := L.typeByExtension ext
  let detectedMIME := L.detectContentType content
  if expectedMIME ≠ [] then
    let expectedBase := (Split expectedMIME ';').headD []
    let detectedBase := (Split detectedMIME ';').headD []
    if detectedBase ≠ expectedBase ∧ detectedBase ≠ "application/octet-stream".toList then
      if !isAllowedMIMEMismatch expectedBase detectedBase then some GoError.ErrMIMEMismatch
      else none
    else none
  else none

/-- `security.ComputeSHA256Bytes`. -/
def ComputeSHA256Bytes (L : Lib) (data : List Nat) : GoString := L.sha256Hex data

/-- The loop of `security.ParseBlockedExtensions` over the fields. -/
def parseLoop (T : CaseTables) : List GoString → List GoString
  | [] => []
  | p :: rest =>
    let p := TrimSpace p
    if p ≠ [] then ToLower T p :: parseLoop T rest else parseLoop T rest

/-- `security.ParseBlockedExtensions`. -/
def ParseBlockedExtensions (T : CaseTables) (s : GoString) : List GoString :=
  if s = [] then DefaultBlockedExtensions
  else parseLoop T (Split s ',')

/-! ## `db/db.go` and `config/config.go` -/

/-- The database: the tables `settings`, `file_metadata` (path, sha256) and
`activity_log` (action, file_path, source_ip; oldest row first). -/
structure DB where
  settings : List (GoString × GoString)
  file_metadata : List (GoString × GoString)
  activity_log : List (GoString × GoString × GoString)
  deriving DecidableEq

/-- `db.GetSetting`: `none` is the error of a query without rows. -/
def GetSetting (db : DB) (key : GoString) : Option GoString := db.settings.lookup key

/-- `db.SaveFileHash` (`INSERT OR REPLACE`). -/
def SaveFileHash (db : DB) (path hash : GoString) : DB :=
  { db with file_metadata := (path, hash) :: db.file_metadata.filter fun p => p.1 ≠ path }

/-- `db.GetFileHash`. -/
def GetFileHash (db : DB) (path : GoString) : Option GoString := db.file_metadata.lookup path

/-- `db.DeleteFileHash`. -/
def DeleteFileHash (db : DB) (path : GoString) : DB :=
  { db with file_metadata := db.file_metadata.filter fun p => p.1 ≠ path }

/-- `db.LogActivity`. -/
def LogActivity (db : DB) (action filePath sourceIP : GoString) : DB :=
  { db with activity_log := db.activity_log ++ [(action, filePath, sourceIP)] }

/-- The variables of package `config` the handlers read. -/
structure Config where
  CDNPath : GoString
  PublicHostname : GoString

/-! ## `handlers/files.go` -/

/-- The state the handlers act on. -/
structure World where
  fs : FS
  db : DB
  deriving DecidableEq

/-- An HTTP answer: the status and the fields of the JSON object written. -/
structure Response where
  status : Nat
  body : List (GoString × GoString)
  deriving DecidableEq, Repr

/-- `handlers.writeError`. -/
def writeError (status : Nat) (message : GoString) : Response :=
  { status := status, body := [("error".toList, message)] }

/-- The request headers and peer address `getClientIP` reads. -/
structure Peer where
  cfConnectingIP : GoString
  xForwardedFor : GoString
  remoteAddr : GoString

/-- `handlers.getClientIP`. -/
def getClientIP (r : Peer) : GoString :=
  if r.cfConnectingIP ≠ [] then r.cfConnectingIP
  else if r.xForwardedFor ≠ [] then (Split r.xForwardedFor ',').headD []
  else (Split r.remoteAddr ':').headD []

/-- Value of a run of decimal digits, `none` on any other rune. -/
def parseDigits : GoString → Nat → Option Nat
  | [], acc => some acc
  | c :: cs, acc =>
    if '0'.toNat ≤ c.toNat ∧ c.toNat ≤ '9'.toNat then parseDigits cs (acc * 10 + (c.toNat - '0'.toNat))
    else none

/-- `strconv.ParseInt(s, 10, 64)` with the error dropped: `0` on a syntax
error, the nearest bound on a range error. -/
def ParseInt (s : GoString) : Int :=
  let (neg, digits) := match s with
    | '+' :: ds => (false, ds)
    | '-' :: ds => (true, ds)
    | ds => (false, ds)
  if digits = [] then 0
  else match parseDigits digits 0 with
    | none => 0
    | some n =>
      if neg then (if n > 2 ^ 63 then -(2 ^ 63 : Int) else -(n : Int))
      else (if n ≥ 2 ^ 63 then (2 ^ 63 - 1 : Int) else (n : Int))

/-- What `handlers.getSettings` returns. -/
structure Settings where
  basePath : GoString
  maxUploadSize : Int
  blockedExts : List GoString
  publicHost : GoString
  err : Bool

/-- `handlers.getSettings`.  The named result `err` keeps the outcome of the
first query (`base_directory`). -/
def getSettings (T : CaseTables) (cfg : Config) (db : DB) : Settings :=
  let base := GetSetting db "base_directory".toList
  let basePath := if base.isNone ∨ base.getD [] = [] then cfg.CDNPath else base.getD []
  let maxSizeStr := (GetSetting db "max_upload_size".toList).getD []
  let maxUploadSize := ParseInt maxSizeStr
  let maxUploadSize := if maxUploadSize = 0 then 100 * 1024 * 1024 else maxUploadSize
  let blockedStr := (GetSetting db "blocked_extensions".toList).getD []
  let blockedExts := ParseBlockedExtensions T blockedStr
  let publicHost := (GetSetting db "public_hostname".toList).getD []
  let publicHost := if publicHost = [] then cfg.PublicHostname else publicHost
  { basePath := basePath, maxUploadSize := maxUploadSize, blockedExts := blockedExts,
    publicHost := publicHost, err := base.isNone }

/-- The fields of a parsed multipart form an upload reads. -/
structure UploadForm where
  directory : GoString
  overwrite : GoString
  file : Option (GoString × List Nat)

/-- An upload request.  `parseForm maxSize` is the outcome of
`r.ParseMultipartForm` on the body capped by `http.MaxBytesReader` at
`maxSize`: the form, or the text of the error. -/
structure UploadRequest where
  peer : Peer
  parseForm : Int → Except GoString UploadForm

/-- What `handlers.UploadFile` holds when it comes to validate the file name. -/
structure UploadTarget where
  blockedExts : List GoString
  targetDir : GoString
  overwrite : Bool
  targetPath : GoString
  headerFilename : GoString
  body : List Nat
  deriving DecidableEq

/-- The first steps of `handlers.UploadFile`, up to the form file: settings,
form, target directory; the error answer when one of them fails. -/
def uploadTarget (E : Env) (T : CaseTables) (cfg : Config) (w : World) (r : UploadRequest) :
    Except Response UploadTarget :=
  let st := getSettings T cfg w.db
  if st.err then .error (writeError 500 "Failed to load settings".toList)
  else match r.parseForm st.maxUploadSize with
    | .error e => .error (writeError 400 ("Failed to parse form: ".toList ++ e))
    | .ok form =>
      let targetDir := if form.directory = [] then ['/'] else form.directory
      let overwrite : Bool := form.overwrite = "true".toList
      match ValidatePathExists E w.fs st.basePath targetDir with
      | (_, some err) =>
        .error (writeError 400 ("Invalid target directory: ".toList ++ err.Error))
      | (targetPath, none) =>
        match Stat E w.fs targetPath with
        | .error _ => .error (writeError 400 "Target is not a directory".toList)
        | .ok dirInfo =>
          if !dirInfo.isDir then .error (writeError 400 "Target is not a directory".toList)
          else match form.file with
            | none => .error (writeError 400 "No file provided".toList)
            | some (headerFilename, body) =>
              .ok { blockedExts := st.blockedExts, targetDir := targetDir,
                    overwrite := overwrite, targetPath := targetPath,
                    headerFilename := headerFilename, body := body }

/-- `handlers.UploadFile`. -/
def UploadFile (E : Env) (L : Lib) (T : CaseTables) (cfg : Config) (w : World)
    (r : UploadRequest) : World × Response :=
  match uploadTarget E T cfg w r with
  | .error resp => (w, resp)
  | .ok u =>
    match ValidateFilename T u.headerFilename with
    | (_, some err) => (w, writeError 400 ("Invalid filename: ".toList ++ err.Error))
    | (filename, none) =>
      match ValidateExtension T filename u.blockedExts with
      | some err => (w, writeError 400 ("File type not allowed: ".toList ++ err.Error))
      | none =>
        let content := u.body
        match ValidateMIME L filename content with
        | some err => (w, writeError 400 ("MIME type mismatch: ".toList ++ err.Error))
        | none =>
          let hash := ComputeSHA256Bytes L content
          let filePath := Join u.targetPath filename
          let relativePath := Join u.targetDir filename
          if (Stat E w.fs filePath).toBool ∧ !u.overwrite then
            (w, writeError 409 "File already exists".toList)
          else match WriteFile E w.fs filePath content with
            | .error _ => (w, writeError 500 "Failed to write file".toList)
            | .ok fs1 =>
              let db1 := SaveFileHash w.db relativePath hash
              let db2 := LogActivity db1 "upload".toList relativePath (getClientIP r.peer)
              ({ fs := fs1, db := db2 },
                { status := 201,
                  body := [("message".toList, "File uploaded successfully".toList),
                    ("path".toList, relativePath), ("sha256".toList, hash)] })

/-- A rename request: the decoded JSON body (`none` when decoding fails). -/
structure RenameRequest where
  peer : Peer
  body : Option (GoString × GoString)

/-- The checks of `handlers.RenameFile` before the call of `os.Rename`: the
base directory and the two arguments of that call, or the error answer. -/
def renameArgs (E : Env) (T : CaseTables) (cfg : Config) (w : World) (r : RenameRequest) :
    Except Response (GoString × GoString × GoString) :=
  let st := getSettings T cfg w.db
  if st.err then .error (writeError 500 "Failed to load settings".toList)
  else match r.body with
    | none => .error (writeError 400 "Invalid request body".toList)
    | some (path, newNameRaw) =>
      match ValidatePathExists E w.fs st.basePath path with
      | (_, some err) => .error (writeError 400 ("Invalid source path: ".toList ++ err.Error))
      | (srcPath, none) =>
        match ValidateFilename T newNameRaw with
        | (_, some err) =>
          .error (writeError 400 ("Invalid new filename: ".toList ++ err.Error))
        | (newName, none) =>
          match ValidateExtension T newName st.blockedExts with
          | some err => .error (writeError 400 ("File type not allowed: ".toList ++ err.Error))
          | none =>
            let dstPath := Join (Dir srcPath) newName
            if (Stat E w.fs dstPath).toBool then
              .error (writeError 409 "A file with this name already exists".toList)
            else .ok (st.basePath, srcPath, dstPath)

/-- `handlers.RenameFile`. -/
def RenameFile (E : Env) (T : CaseTables) (cfg : Config) (w : World) (r : RenameRequest) :
    World × Response :=
  match renameArgs E T cfg w r with
  | .error resp => (w, resp)
  | .ok (basePath, srcPath, dstPath) =>
    match Rename E w.fs srcPath dstPath with
    | .error _ => (w, writeError 500 "Failed to rename file".toList)
    | .ok fs1 =>
      let reqPath := (r.body.getD ([], [])).1
      let newRelPath := GetRelativePath basePath dstPath
      let db1 := DeleteFileHash w.db reqPath
      let db2 := LogActivity db1 "rename".toList (reqPath ++ " -> ".toList ++ newRelPath)
        (getClientIP r.peer)
      ({ fs := fs1, db := db2 },
        { status := 200,
          body := [("message".toList, "File renamed successfully".toList),
            ("old_path".toList, reqPath), ("new_path".toList, newRelPath)] })

/-! ## More of the operating system -/

/-- Remove the entry at a location and everything below it. -/
def FS.erase (fs : FS) (loc : List GoString) : FS :=
  ⟨fs.entries.filter fun p => !loc.isPrefixOf p.1⟩

/-- Whether a location has entries below it. -/
def FS.hasChildren (fs : FS) (loc : List GoString) : Bool :=
  fs.entries.any fun p => loc.isPrefixOf p.1 && decide (p.1 ≠ loc)

/-- `os.Remove`: unlink a file or a link, remove an empty directory. -/
def Remove (E : Env) (fs : FS) (name : GoString) : Except Errno FS :=
  match resolve E fs false name with
  | .error e => .error e
  | .ok (Resolved.absent _ _) => .error Errno.ENOENT
  | .ok (Resolved.found loc Node.dir) =>
    if loc = [] then .error Errno.EBUSY
    else if fs.hasChildren loc then .error Errno.ENOTEMPTY
    else .ok (fs.erase loc)
  | .ok (Resolved.found loc _) => .ok (fs.erase loc)

/-- `os.RemoveAll`: remove the path and all it contains; a missing path is no
error; the root itself cannot be removed, what it contains is.  Gives the
tree left and the error, if any. -/
def RemoveAll (E : Env) (fs : FS) (path : GoString) : FS × Option Errno :=
  match resolve E fs false path with
  | .error e => if IsNotExist e then (fs, none) else (fs, some e)
  | .ok (Resolved.absent _ _) => (fs, none)
  | .ok (Resolved.found loc _) =>
    if loc = [] then (fs.erase loc, some Errno.EBUSY) else (fs.erase loc, none)

/-- `os.Open` for reading: the node the name leads to, links followed. -/
def Open (E : Env) (fs : FS) (name : GoString) : Except Errno Node :=
  match resolve E fs true name with
  | .error e => .error e
  | .ok (Resolved.absent _ _) => .error Errno.ENOENT
  | .ok (Resolved.found _ n) => .ok n

/-- Reading an open file to its end (`io.Copy` from it): the content of a
regular file, an error on a directory. -/
def readAll : Node → Except Errno (List Nat)
  | Node.file c => .ok c
  | Node.dir => .error Errno.EISDIR
  | Node.symlink _ => .error Errno.ELOOP

/-- The operator `<` on strings: lexicographic on the runes, which for valid
UTF-8 is the order of the bytes. -/
def strLess : GoString → GoString → Bool
  | [], [] => false
  | [], _ :: _ => true
  | _ :: _, [] => false
  | a :: as, b :: bs =>
    if a.toNat < b.toNat then true
    else if b.toNat < a.toNat then false
    else strLess as bs

/-- Insert a directory entry into a list sorted by name. -/
def insertByName (e : GoString × Node) : List (GoString × Node) → List (GoString × Node)
  | [] => [e]
  | x :: xs => if strLess x.1 e.1 then x :: insertByName e xs else e :: x :: xs

/-- `os.ReadDir`: the entries of a directory (name and node), sorted by name. -/
def ReadDir (E : Env) (fs : FS) (name : GoString) : Except Errno (List (GoString × Node)) :=
  match resolve E fs true name with
  | .error e => .error e
  | .ok (Resolved.absent _ _) => .error Errno.ENOENT
  | .ok (Resolved.found loc Node.dir) =>
    .ok ((fs.entries.filterMap fun p =>
      if p.1.dropLast = loc ∧ p.1 ≠ [] then some (p.1.getLastD [], p.2) else none).foldr
        insertByName [])
  | .ok (Resolved.found _ _) => .error Errno.ENOTDIR

/-- `sort.Slice` on a slice of `FileInfo`, by its contract: the result is a
rearrangement of the slice, and when `less` is a transitive ordering (both
`less` and its negation are transitive) no entry stands before one that must
sort before it and not the other way round. -/
structure SortLib (α : Type) where
  sortSlice : (α → α → Bool) → List α → List α
  perm : ∀ less xs, (sortSlice less xs).Perm xs
  sorted : ∀ less xs,
    (∀ a b c, less a b = true → less b c = true → less a c = true) →
    (∀ a b c, less a b = false → less b c = false → less a c = false) →
    (sortSlice less xs).Pairwise fun a b => less a b = true ∨ less b a = false

/-! ## `handlers/files.go`: listing, metadata, move, replace, delete -/

/-- `handlers.FileInfo`. -/
structure Handlers.FileInfo where
  Name : GoString
  Path : GoString
  IsDir : Bool
  Size : Int
  Modified : Int
  MIMEType : GoString
  deriving DecidableEq, Repr

/-- `handlers.FileMetadata`. -/
structure FileMetadata where
  Name : GoString
  Path : GoString
  FullPath : GoString
  Size : Int
  MIMEType : GoString
  SHA256 : GoString
  Created : Int
  Modified : Int
  PublicURL : GoString
  deriving DecidableEq, Repr

/-- `handlers.ListResponse`. -/
structure ListResponse where
  Path : GoString
  Files : List Handlers.FileInfo
  deriving DecidableEq, Repr

/-- The comparison `sortFiles` hands to `sort.Slice`. -/
def sortLess (T : CaseTables) (sortBy : GoString) (desc : Bool) (a b : Handlers.FileInfo) :
    Bool :=
  if a.IsDir ≠ b.IsDir then a.IsDir
  else
    let less : Bool :=
      if sortBy = "size".toList then decide (a.Size < b.Size)
      else if sortBy = "modified".toList then decide (a.Modified < b.Modified)
      else strLess (ToLower T a.Name) (ToLower T b.Name)
    if desc then !less else less

/-- `handlers.sortFiles`. -/
def sortFiles (S : SortLib Handlers.FileInfo) (T : CaseTables) (files : List Handlers.FileInfo)
    (sortBy : GoString) (desc : Bool) : List Handlers.FileInfo :=
  S.sortSlice (sortLess T sortBy desc) files

/-- `handlers.getMIMEType`. -/
def getMIMEType (T : CaseTables) (ext : GoString) : GoString :=
  let types : List (GoString × GoString) :=
    [(".html".toList, "text/html".toList), (".css".toList, "text/css".toList),
     (".js".toList, "application/javascript".toList),
     (".json".toList, "application/json".toList), (".png".toList, "image/png".toList),
     (".jpg".toList, "image/jpeg".toList), (".jpeg".toList, "image/jpeg".toList),
     (".gif".toList, "image/gif".toList), (".svg".toList, "image/svg+xml".toList),
     (".pdf".toList, "application/pdf".toList), (".zip".toList, "application/zip".toList),
     (".txt".toList, "text/plain".toList), (".md".toList, "text/markdown".toList)]
  match types.lookup (ToLower T ext) with
  | some t => t
  | none => "application/octet-stream".toList

/-- A listing request: the query parameters `path`, `sort` and `dir`. -/
structure ListRequest where
  path : GoString
  sort : GoString
  dir : GoString

/-- The loop of `handlers.ListFiles` over the directory entries.  What
`entry.Info()` reports for the path name of an entry comes from the system:
`infoFails` tells whether the call fails (the entry went away after the
directory was read), `modTime` gives the modification time and `dirSize` the
size reported for a directory; the size of a file is the length of its
content. -/
def listEntries (T : CaseTables) (modTime dirSize : GoString → Int)
    (infoFails : GoString → Bool) (fullPath requestedPath : GoString) :
    List (GoString × Node) → List Handlers.FileInfo
  | [] => []
  | (_, Node.symlink _) :: rest =>
    listEntries T modTime dirSize infoFails fullPath requestedPath rest
  | (name, Node.dir) :: rest =>
    if infoFails (Join fullPath name) then
      listEntries T modTime dirSize infoFails fullPath requestedPath rest
    else
      { Name := name, Path := Join requestedPath name, IsDir := true,
        Size := dirSize (Join fullPath name), Modified := modTime (Join fullPath name),
        MIMEType := [] } ::
        listEntries T modTime dirSize infoFails fullPath requestedPath rest
  | (name, Node.file c) :: rest =>
    if infoFails (Join fullPath name) then
      listEntries T modTime dirSize infoFails fullPath requestedPath rest
    else
      { Name := name, Path := Join requestedPath name, IsDir := false, Size := c.length,
        Modified := modTime (Join fullPath name), MIMEType := getMIMEType T (Ext name) } ::
        listEntries T modTime dirSize infoFails fullPath requestedPath rest

/-- `handlers.ListFiles`: the listing (status 200), or the error answer.  The
state is only read. -/
def ListFiles (E : Env) (S : SortLib Handlers.FileInfo) (T : CaseTables)
    (modTime dirSize : GoString → Int) (infoFails : GoString → Bool) (cfg : Config) (w : World)
    (r : ListRequest) : Except Response ListResponse :=
  let st := getSettings T cfg w.db
  if st.err then .error (writeError 500 "Failed to load settings".toList)
  else
    let requestedPath := if r.path = [] then ['/'] else r.path
    match ValidatePathExists E w.fs st.basePath requestedPath with
    | (_, some err) => .error (writeError 400 err.Error)
    | (fullPath, none) =>
      match Stat E w.fs fullPath with
      | .error _ => .error (writeError 404 "Path not found".toList)
      | .ok info =>
        if !info.isDir then .error (writeError 400 "Path is not a directory".toList)
        else match ReadDir E w.fs fullPath with
          | .error _ => .error (writeError 500 "Failed to read directory".toList)
          | .ok entries =>
            let files :=
              listEntries T modTime dirSize infoFails fullPath requestedPath entries
            .ok { Path := requestedPath,
                  Files := sortFiles S T files r.sort (r.dir = "desc".toList) }

/-- `handlers.GetMetadata` for the query parameter `path`: the metadata
(status 200) or the error answer, and the state with the hash cache filled on
a miss. -/
def GetMetadata (E : Env) (L : Lib) (T : CaseTables) (modTime : GoString → Int) (cfg : Config)
    (w : World) (requestedPath : GoString) : World × Except Response FileMetadata :=
  let st := getSettings T cfg w.db
  if st.err then (w, .error (writeError 500 "Failed to load settings".toList))
  else if requestedPath = [] then (w, .error (writeError 400 "Path is required".toList))
  else match ValidatePathExists E w.fs st.basePath requestedPath with
    | (_, some err) => (w, .error (writeError 400 err.Error))
    | (fullPath, none) =>
      match Stat E w.fs fullPath with
      | .error _ => (w, .error (writeError 404 "File not found".toList))
      | .ok info =>
        if info.isDir then (w, .error (writeError 400 "Path is a directory".toList))
        else
          let meta (hash : GoString) : FileMetadata :=
            { Name := info.name, Path := requestedPath, FullPath := fullPath,
              Size := info.size, MIMEType := getMIMEType T (Ext info.name), SHA256 := hash,
              Created := modTime fullPath, Modified := modTime fullPath,
              PublicURL := "https://".toList ++ st.publicHost ++ '/' ::
                TrimPrefix requestedPath ['/'] }
          match GetFileHash w.db requestedPath with
          | some hash => (w, .ok (meta hash))
          | none =>
            match Open E w.fs fullPath with
            | .error _ => (w, .error (writeError 500 "Failed to read file".toList))
            | .ok f =>
              match readAll f with
              | .error _ => (w, .error (writeError 500 "Failed to compute hash".toList))
              | .ok data =>
                let hash := L.sha256Hex data
                ({ w with db := SaveFileHash w.db requestedPath hash }, .ok (meta hash))

/-- A move request: the decoded JSON body with `path` and `destination`
(`none` when decoding fails). -/
structure MoveRequest where
  peer : Peer
  body : Option (GoString × GoString)

/-- The checks of `handlers.MoveFile` before the call of `os.Rename`: the
base directory and the two arguments of that call, or the error answer. -/
def moveArgs (E : Env) (T : CaseTables) (cfg : Config) (w : World) (r : MoveRequest) :
    Except Response (GoString × GoString × GoString) :=
  let st := getSettings T cfg w.db
  if st.err then .error (writeError 500 "Failed to load settings".toList)
  else match r.body with
    | none => .error (writeError 400 "Invalid request body".toList)
    | some (path, destination) =>
      match ValidatePathExists E w.fs st.basePath path with
      | (_, some err) => .error (writeError 400 ("Invalid source path: ".toList ++ err.Error))
      | (srcPath, none) =>
        match ValidatePathExists E w.fs st.basePath destination with
        | (_, some err) =>
          .error (writeError 400 ("Invalid destination: ".toList ++ err.Error))
        | (dstDir, none) =>
          match Stat E w.fs dstDir with
          | .error _ => .error (writeError 400 "Destination is not a directory".toList)
          | .ok dstInfo =>
            if !dstInfo.isDir then
              .error (writeError 400 "Destination is not a directory".toList)
            else
              let filename := Base srcPath
              let dstPath := Join dstDir filename
              if (Stat E w.fs dstPath).toBool then
                .error (writeError 409 "File already exists at destination".toList)
              else .ok (st.basePath, srcPath, dstPath)

/-- `handlers.MoveFile`. -/
def MoveFile (E : Env) (T : CaseTables) (cfg : Config) (w : World) (r : MoveRequest) :
    World × Response :=
  match moveArgs E T cfg w r with
  | .error resp => (w, resp)
  | .ok (basePath, srcPath, dstPath) =>
    match Rename E w.fs srcPath dstPath with
    | .error _ => (w, writeError 500 "Failed to move file".toList)
    | .ok fs1 =>
      let reqPath := (r.body.getD ([], [])).1
      let newRelPath := GetRelativePath basePath dstPath
      let db1 := DeleteFileHash w.db reqPath
      let db2 := LogActivity db1 "move".toList (reqPath ++ " -> ".toList ++ newRelPath)
        (getClientIP r.peer)
      ({ fs := fs1, db := db2 },
        { status := 200,
          body := [("message".toList, "File moved successfully".toList),
            ("old_path".toList, reqPath), ("new_path".toList, newRelPath)] })

/-- The fields of a parsed multipart form a replacement reads. -/
structure ReplaceForm where
  path : GoString
  file : Option (GoString × List Nat)

/-- A replace request; `parseForm maxSize` is the outcome of
`r.ParseMultipartForm` on the body capped at `maxSize`. -/
structure ReplaceRequest where
  peer : Peer
  parseForm : Int → Except GoString ReplaceForm

/-- `handlers.ReplaceFile`. -/
def ReplaceFile (E : Env) (L : Lib) (T : CaseTables) (cfg : Config) (w : World)
    (r : ReplaceRequest) : World × Response :=
  let st := getSettings T cfg w.db
  if st.err then (w, writeError 500 "Failed to load settings".toList)
  else match r.parseForm st.maxUploadSize with
    | .error _ => (w, writeError 400 "Failed to parse form".toList)
    | .ok form =>
      let targetPath := form.path
      if targetPath = [] then (w, writeError 400 "Path is required".toList)
      else match ValidatePathExists E w.fs st.basePath targetPath with
        | (_, some err) => (w, writeError 400 ("Invalid path: ".toList ++ err.Error))
        | (fullPath, none) =>
          match Stat E w.fs fullPath with
          | .error _ => (w, writeError 404 "File not found".toList)
          | .ok info =>
            if info.isDir then (w, writeError 400 "Cannot replace a directory".toList)
            else match form.file with
              | none => (w, writeError 400 "No file provided".toList)
              | some (_, content) =>
                match ValidateMIME L (Base fullPath) content with
                | some _ => (w, writeError 400 "MIME type mismatch".toList)
                | none =>
                  match ValidateExtension T (Base fullPath) st.blockedExts with
                  | some _ => (w, writeError 400 "File type not allowed".toList)
                  | none =>
                    let hash := ComputeSHA256Bytes L content
                    match WriteFile E w.fs fullPath content with
                    | .error _ => (w, writeError 500 "Failed to write file".toList)
                    | .ok fs1 =>
                      let db1 := SaveFileHash w.db targetPath hash
                      let db2 := LogActivity db1 "replace".toList targetPath
                        (getClientIP r.peer)
                      ({ fs := fs1, db := db2 },
                        { status := 200,
                          body := [("message".toList, "File replaced successfully".toList),
                            ("path".toList, targetPath), ("sha256".toList, hash)] })

/-- A delete request: the decoded JSON body with `path` and
`confirm_filename` (`none` when decoding fails; an absent field is the empty
string). -/
structure DeleteRequest where
  peer : Peer
  body : Option (GoString × GoString)

/-- The checks of `handlers.DeleteFile` before the removal: the validated
path and the file information of the target, or the error answer. -/
def deleteTarget (E : Env) (T : CaseTables) (cfg : Config) (w : World) (r : DeleteRequest) :
    Except Response (GoString × FileInfo) :=
  let st := getSettings T cfg w.db
  if st.err then .error (writeError 500 "Failed to load settings".toList)
  else match r.body with
    | none => .error (writeError 400 "Invalid request body".toList)
    | some (path, confirmFilename) =>
      match ValidatePathExists E w.fs st.basePath path with
      | (_, some err) => .error (writeError 400 ("Invalid path: ".toList ++ err.Error))
      | (fullPath, none) =>
        match Stat E w.fs fullPath with
        | .error _ => .error (writeError 404 "File not found".toList)
        | .ok info =>
          if confirmFilename ≠ info.name then
            .error (writeError 400 "Filename confirmation does not match".toList)
          else .ok (fullPath, info)

/-- `handlers.DeleteFile`. -/
def DeleteFile (E : Env) (T : CaseTables) (cfg : Config) (w : World) (r : DeleteRequest) :
    World × Response :=
  match deleteTarget E T cfg w r with
  | .error resp => (w, resp)
  | .ok (fullPath, info) =>
    let reqPath := (r.body.getD ([], [])).1
    let done (fs1 : FS) : World × Response :=
      let db1 := DeleteFileHash w.db reqPath
      let db2 := LogActivity db1 "delete".toList reqPath (getClientIP r.peer)
      ({ fs := fs1, db := db2 },
        { status := 200,
          body := [("message".toList, "File deleted successfully".toList),
            ("path".toList, reqPath)] })
    if info.isDir then
      match RemoveAll E w.fs fullPath with
      | (fs1, some _) => ({ w with fs := fs1 }, writeError 500 "Failed to delete directory".toList)
      | (fs1, none) => done fs1
    else
      match Remove E w.fs fullPath with
      | .error _ => (w, writeError 500 "Failed to delete file".toList)
      | .ok fs1 => done fs1

/-! ## Notions used in the statements -/

/-- A path element that `filepath.Clean` keeps as it is. -/
def NormalElem (e : GoString) : Prop := e ≠ [] ∧ e ≠ ['.'] ∧ e ≠ ['.', '.'] ∧ '/' ∉ e

/-- The elements `filepath.Clean` writes for a rooted path, last one first. -/
def rootedStack (p : GoString) : List GoString := (splitSep p).foldl (cleanStep true) []

/-- A root with the separator that precedes what lies below it: the root
itself when it is `/`, the one cleaned path that ends with a separator. -/
def dirPrefix (root : GoString) : GoString :=
  if root = ['/'] then root else root ++ ['/']

/-- The final path element `filepath.Base` extracts: the text after the last
separator once trailing separators are stripped. -/
def finalElem (raw : GoString) : GoString := afterLastSep (stripTrailingSep raw)

/-- Lower-case ASCII letter or digit. -/
def isLowerDigit (c : Char) : Bool :=
  ('a'.toNat ≤ c.toNat ∧ c.toNat ≤ 'z'.toNat) ∨ ('0'.toNat ≤ c.toNat ∧ c.toNat ≤ '9'.toNat)

/-- One rune normalized by `ValidateFilename`: lower-cased, a space replaced
by a dash. -/
def normRune (T : CaseTables) (c : Char) : Char :=
  if unicodeToLower T c = ' ' then '-' else unicodeToLower T c

/-- The extension of a name in the words of the specification: the text
after the last dot of the final path element (the text after the last
separator), without the dot; empty when that element has no dot. -/
def extensionOf (name : GoString) : GoString :=
  let elem := afterLastSep name
  if '.' ∈ elem then (elem.reverse.takeWhile (· ≠ '.')).reverse else []

/-- Lower-case form of an ASCII letter; other runes unchanged. -/
def asciiLower (c : Char) : Char :=
  if 'A'.toNat ≤ c.toNat ∧ c.toNat ≤ 'Z'.toNat then Char.ofNat (c.toNat + 32) else c

/-- Library functions that know no extension and sniff plain text. -/
def plainLib : Lib :=
  ⟨fun _ => [], fun _ => "text/plain; charset=utf-8".toList, fun _ => []⟩

/-- An upload of the empty content under the name `Shell.PHP` into the root. -/
def shellUpload (peer : Peer) : UploadRequest :=
  ⟨peer, fun _ => .ok ⟨[], [], some ("Shell.PHP".toList, [])⟩⟩

/-- The first field of a MIME type: the base type without parameters
(`strings.Split(m, ";")[0]`). -/
def baseType (m : GoString) : GoString := (Split m ';').headD []

/-- The pairs of the compatibility table in the words of the specification,
apart from the generic-binary fallback: SVG sniffed as an XML, plain-text or
HTML type; a JavaScript, CSS or JSON type sniffed as plain text. -/
def inCompatTable (e d : GoString) : Prop :=
  (e = "image/svg+xml".toList ∧
      (d = "text/xml".toList ∨ d = "application/xml".toList ∨ d = "text/plain".toList ∨
        d = "text/html".toList)) ∨
    ((e = "application/javascript".toList ∨ e = "text/javascript".toList ∨
        e = "text/css".toList ∨ e = "application/json".toList) ∧ d = "text/plain".toList)

/-- Library functions that map every extension to `image/png` and sniff a
given type. -/
def pngLib (sniffed : GoString) : Lib :=
  ⟨fun _ => "image/png".toList, fun _ => sniffed, fun _ => []⟩

/-- Library functions that map every extension to `text/css; charset=utf-8`
and sniff plain text. -/
def cssLib : Lib :=
  ⟨fun _ => "text/css; charset=utf-8".toList, fun _ => "text/plain; charset=utf-8".toList,
    fun _ => []⟩

/-- A sorting function that meets the contract of `sort.Slice`: insertion
sort for the order in which `a` may stand before `b`. -/
def insertionSortLib (α : Type) : SortLib α where
  sortSlice less xs := xs.insertionSort fun a b => less a b = true ∨ less b a = false
  perm less xs := List.perm_insertionSort _ xs
  sorted less xs ht hn := by
    haveI : IsTotal α (fun a b => less a b = true ∨ less b a = false) :=
      ⟨fun a b => by
        cases h1 : less a b <;> cases h2 : less b a <;> simp⟩
    haveI : IsTrans α (fun a b => less a b = true ∨ less b a = false) :=
      ⟨fun a b c hab hbc => by
        cases hac : less a c
        · right
          cases hca : less c a
          · rfl
          · exfalso
            rcases hab with hab | hba <;> rcases hbc with hbc | hcb
            · rw [ht a b c hab hbc] at hac; cases hac
            · rw [ht c a b hca hab] at hcb; cases hcb
            · rw [ht b c a hbc hca] at hba; cases hba
            · rw [hn c b a hcb hba] at hca; cases hca
        · left; rfl⟩
    exact List.sorted_insertionSort _ xs

/-- A tree with the root directory `/srv/cdn` holding the directory `docs`
and the files `a.txt` and `b.php`. -/
def docsTree : FS :=
  ⟨[(["srv".toList], Node.dir),
    (["srv".toList, "cdn".toList], Node.dir),
    (["srv".toList, "cdn".toList, "docs".toList], Node.dir),
    (["srv".toList, "cdn".toList, "a.txt".toList], Node.file [104, 105]),
    (["srv".toList, "cdn".toList, "b.php".toList], Node.file [60, 63])]⟩

/-- A tree with the root directory `/srv/cdn` holding the directory `docs`,
the files `B.txt`, `a.txt` and `c.txt` and the link `link` to `/etc`. -/
def namesTree : FS :=
  ⟨[(["srv".toList], Node.dir),
    (["srv".toList, "cdn".toList], Node.dir),
    (["srv".toList, "cdn".toList, "link".toList], Node.symlink "/etc".toList),
    (["srv".toList, "cdn".toList, "c.txt".toList], Node.file []),
    (["srv".toList, "cdn".toList, "docs".toList], Node.dir),
    (["srv".toList, "cdn".toList, "B.txt".toList], Node.file [1, 2, 3]),
    (["srv".toList, "cdn".toList, "a.txt".toList], Node.file [104, 105])]⟩

/-- Library functions that know no extension, sniff plain text and take the
bytes themselves, spelled as letters, for their digest. -/
def tagLib : Lib :=
  ⟨fun _ => [], fun _ => "text/plain; charset=utf-8".toList,
    fun data => data.map fun n => Char.ofNat (97 + n % 26)⟩

/-- A database with the setting `base_directory = /srv/cdn` and a cached
hash under the key `/docs/a.txt`. -/
def staleDB : DB :=
  ⟨[("base_directory".toList, "/srv/cdn".toList)], [("/docs/a.txt".toList, "stale".toList)], []⟩

/-- The key comparison of `sortFiles` within one kind of entry. -/
def keyLess (T : CaseTables) (sortBy : GoString) (a b : Handlers.FileInfo) : Bool :=
  if sortBy = "size".toList then decide (a.Size < b.Size)
  else if sortBy = "modified".toList then decide (a.Modified < b.Modified)
  else strLess (ToLower T a.Name) (ToLower T b.Name)

/-- Three entries for trying `sortFiles`: a file, a directory, a file. -/
def sampleEntries : List Handlers.FileInfo :=
  [{ Name := "b.txt".toList, Path := "/b.txt".toList, IsDir := false, Size := 7, Modified := 3,
     MIMEType := "text/plain".toList },
   { Name := "Docs".toList, Path := "/Docs".toList, IsDir := true, Size := 0, Modified := 9,
     MIMEType := [] },
   { Name := "a.txt".toList, Path := "/a.txt".toList, IsDir := false, Size := 7, Modified := 1,
     MIMEType := "text/plain".toList }]

/-- Non-decreasing order of the sort keys of two entries: `Size` for the key
`size`, `Modified` for `modified`, the lower-cased `Name` (compared as
strings) for every other key. -/
def keyLe (T : CaseTables) (sortBy : GoString) (a b : Handlers.FileInfo) : Prop :=
  if sortBy = "size".toList then a.Size ≤ b.Size
  else if sortBy = "modified".toList then a.Modified ≤ b.Modified
  else strLess (ToLower T a.Name) (ToLower T b.Name) = true ∨
    ToLower T a.Name = ToLower T b.Name

/-- The list a non-empty setting stands for, in the words of the
specification: the comma-separated fields in input order, surrounding
whitespace trimmed, empty fields dropped, lower-cased. -/
def parsedFields (T : CaseTables) (s : GoString) : List GoString :=
  (((Split s ',').map TrimSpace).filter fun p => p ≠ []).map (ToLower T)

/-- An environment in which `os.Getwd` fails. -/
def noCwdEnv : Env := ⟨none, by simp⟩

/-- An environment whose working directory is `/srv`. -/
def srvEnv : Env := ⟨some "/srv".toList, by
  intro wd h
  simp only [Option.some.injEq] at h
  subst h
  decide⟩

/-- A tree in which `/srv/cdn/link` is a link to the directory `/etc`, which
holds the file `passwd`, and `/srv/cdn/dangling` is a link to nothing. -/
def linkedTree : FS :=
  ⟨[(["srv".toList], Node.dir),
    (["srv".toList, "cdn".toList], Node.dir),
    (["srv".toList, "cdn".toList, "link".toList], Node.symlink "/etc".toList),
    (["srv".toList, "cdn".toList, "dangling".toList], Node.symlink "/nowhere".toList),
    (["etc".toList], Node.dir),
    (["etc".toList, "passwd".toList], Node.file [114, 111, 111, 116])]⟩

/-- A tree with the root directory `/srv/cdn` holding the file `a.txt`. -/
def cdnTree : FS :=
  ⟨[(["srv".toList], Node.dir),
    (["srv".toList, "cdn".toList], Node.dir),
    (["srv".toList, "cdn".toList, "a.txt".toList], Node.file [104, 105])]⟩

/-- A tree with the root directory `/srv/cdn` holding the file `a.txt` and
the link `old`, whose target `/nowhere` does not exist. -/
def staleLinkTree : FS :=
  ⟨[(["srv".toList], Node.dir),
    (["srv".toList, "cdn".toList], Node.dir),
    (["srv".toList, "cdn".toList, "a.txt".toList], Node.file [104, 105]),
    (["srv".toList, "cdn".toList, "old".toList], Node.symlink "/nowhere".toList)]⟩

/-- A database whose only setting is `base_directory = /srv/cdn`. -/
def cdnDB : DB := ⟨[("base_directory".toList, "/srv/cdn".toList)], [], []⟩

/-- The configuration defaults of `config.Init`. -/
def defaultConfig : Config := ⟨"/srv/cdn".toList, "localhost".toList⟩

/-- A peer without proxy headers. -/
def localPeer : Peer := ⟨[], [], "127.0.0.1:4000".toList⟩

/-- An upload of `content` under the name `a.txt` into `directory`,
overwriting. -/
def uploadInto (directory : GoString) (content : List Nat) : UploadRequest :=
  ⟨localPeer, fun _ => .ok ⟨directory, "true".toList, some ("a.txt".toList, content)⟩⟩

/-- An upload of the bytes `hi` under the name `a..b.txt` into the directory
`docs`. -/
def dottedUpload : UploadRequest :=
  ⟨localPeer, fun _ => .ok ⟨"docs".toList, [], some ("a..b.txt".toList, [104, 105])⟩⟩

/-- Case tables holding the recorded ASCII-valued entries and leaving every
other rune unchanged. -/
def sampleTables : CaseTables where
  lower := fun c =>
    if c = Char.ofNat 0x130 then 'i' else if c = Char.ofNat 0x212A then 'k' else c
  foldReach := fun _ _ => false
  lower_0130 := by decide
  lower_212A := by decide
  lower_ascii := by
    intro c h1 h2
    by_cases h : c = Char.ofNat 0x130
    · exact Or.inl h
    · by_cases h' : c = Char.ofNat 0x212A
      · exact Or.inr h'
      · simp only [h, h', if_false] at h2; omega


/-! # Proofs -/

/-! ## Lemmas on `strings` and `filepath` -/

theorem contains_iff_segment (s sub : GoString) : Contains s sub = true ↔ sub <:+: s := by
  induction s with
  | nil =>
    cases sub <;> simp [Contains]
  | cons c cs ih =>
    simp only [Contains, Bool.or_eq_true, ih, List.infix_cons_iff, List.isPrefixOf_iff_prefix]

theorem split_ne_nil (s : GoString) (sep : Char) : Split s sep ≠ [] := by
  cases s with
  | nil => simp [Split]
  | cons c cs =>
    simp only [Split]
    split
    · simp
    · split <;> simp

theorem split_append (a b : GoString) (sep : Char) :
    Split (a ++ sep :: b) sep = Split a sep ++ Split b sep := by
  induction a with
  | nil => simp [Split]
  | cons c a ih =>
    rw [List.cons_append]
    by_cases h : c = sep
    · rw [Split, Split, if_pos h, if_pos h, ih]; rfl
    · rw [Split, Split, if_neg h, if_neg h, ih]
      cases hs : Split a sep with
      | nil => exact absurd hs (split_ne_nil a sep)
      | cons e es => rfl

theorem split_no_sep (s : GoString) (sep : Char) : ∀ e ∈ Split s sep, sep ∉ e := by
  induction s with
  | nil => simp [Split]
  | cons c cs ih =>
    intro e he
    simp only [Split] at he
    by_cases h : c = sep
    · simp only [h, if_true, List.mem_cons] at he
      rcases he with rfl | he
      · simp
      · exact ih e he
    · simp only [h, if_false] at he
      cases hs : Split cs sep with
      | nil => exact absurd hs (split_ne_nil cs sep)
      | cons e0 es =>
        rw [hs] at he ih
        simp only [List.mem_cons] at he
        rcases he with rfl | he
        · have := ih e0 (by simp)
          simp only [List.mem_cons, not_or]
          exact ⟨fun h' => h h'.symm, this⟩
        · exact ih e (by simp [he])

theorem split_of_not_mem (s : GoString) (sep : Char) (h : sep ∉ s) : Split s sep = [s] := by
  induction s with
  | nil => simp [Split]
  | cons c cs ih =>
    simp only [List.mem_cons, not_or] at h
    have hc : ¬ c = sep := fun h' => h.1 h'.symm
    simp [Split, ih h.2, hc]

theorem split_head_initial (s : GoString) (sep : Char) :
    ∀ e es, Split s sep = e :: es → e <+: s := by
  induction s with
  | nil =>
    intro e es h
    simp only [Split, List.cons.injEq] at h
    rw [← h.1]
  | cons c cs ih =>
    intro e es h
    simp only [Split] at h
    by_cases hc : c = sep
    · simp only [hc, if_true, List.cons.injEq] at h
      rw [← h.1]; exact List.nil_prefix
    · simp only [hc, if_false] at h
      cases hs : Split cs sep with
      | nil => exact absurd hs (split_ne_nil cs sep)
      | cons e0 es0 =>
        rw [hs] at h
        simp only [List.cons.injEq] at h
        rw [← h.1]
        exact (List.prefix_cons_inj c).mpr (ih e0 es0 hs)

theorem split_mem_segment (s : GoString) (sep : Char) : ∀ e ∈ Split s sep, e <:+: s := by
  intro e he
  induction s generalizing e with
  | nil =>
    simp only [Split, List.mem_singleton] at he
    subst he; exact List.infix_refl _
  | cons c cs ih =>
    simp only [Split] at he
    by_cases h : c = sep
    · simp only [h, if_true, List.mem_cons] at he
      rcases he with rfl | he
      · exact List.nil_infix
      · exact (ih e he).trans (List.suffix_cons c cs).isInfix
    · simp only [h, if_false] at he
      cases hs : Split cs sep with
      | nil => exact absurd hs (split_ne_nil cs sep)
      | cons e0 es =>
        rw [hs] at he
        simp only [List.mem_cons] at he
        rcases he with rfl | he
        · exact ((List.prefix_cons_inj c).mpr (split_head_initial cs sep e0 es hs)).isInfix
        · exact (ih e (by simp [hs, he])).trans (List.suffix_cons c cs).isInfix


theorem cleanStep_normal (r : Bool) (S : List GoString) (e : GoString) (h : NormalElem e) :
    cleanStep r S e = e :: S := by
  obtain ⟨h1, h2, h3, _⟩ := h
  simp [cleanStep, h1, h2, h3]

theorem foldl_cleanStep_normal (r : Bool) (xs : List GoString) :
    ∀ S, (∀ e ∈ xs, NormalElem e) → xs.foldl (cleanStep r) S = xs.reverse ++ S := by
  induction xs with
  | nil => intro S _; simp
  | cons x xs ih =>
    intro S h
    rw [List.foldl_cons, cleanStep_normal r S x (h x (by simp)), ih _ (fun e he => h e (by simp [he]))]
    simp

theorem joinSep_cons_cons (e e1 : GoString) (es : List GoString) :
    joinSep (e :: e1 :: es) = e ++ '/' :: joinSep (e1 :: es) := rfl

theorem joinSep_append (xs ys : List GoString) (hx : xs ≠ []) (hy : ys ≠ []) :
    joinSep (xs ++ ys) = joinSep xs ++ '/' :: joinSep ys := by
  induction xs with
  | nil => exact absurd rfl hx
  | cons x xs ih =>
    cases xs with
    | nil =>
      cases ys with
      | nil => exact absurd rfl hy
      | cons y ys => rfl
    | cons x1 xs =>
      rw [List.cons_append, List.cons_append, joinSep_cons_cons, ← List.cons_append,
        ih (by simp), joinSep_cons_cons]
      simp

theorem split_joinSep (xs : List GoString) (hx : xs ≠ []) (h : ∀ e ∈ xs, '/' ∉ e) :
    Split (joinSep xs) '/' = xs := by
  induction xs with
  | nil => exact absurd rfl hx
  | cons x xs ih =>
    cases xs with
    | nil => exact split_of_not_mem x '/' (h x (by simp))
    | cons x1 xs =>
      rw [joinSep_cons_cons, split_append, split_of_not_mem x '/' (h x (by simp)),
        ih (by simp) (fun e he => h e (by simp [he]))]
      rfl

theorem foldl_cleanStep_rooted_normal (xs : List GoString) :
    ∀ S, (∀ e ∈ xs, '/' ∉ e) → (∀ e ∈ S, NormalElem e) →
      ∀ e ∈ xs.foldl (cleanStep true) S, NormalElem e := by
  induction xs with
  | nil => intro S _ hS; simpa using hS
  | cons x xs ih =>
    intro S hx hS
    rw [List.foldl_cons]
    apply ih _ (fun e he => hx e (by simp [he]))
    intro e he
    unfold cleanStep at he
    split at he
    · exact hS e he
    · rename_i h1
      split at he
      · cases S with
        | nil => simp at he
        | cons t rest =>
          simp only at he
          split at he
          · simp only [if_true] at he; exact hS e he
          · exact hS e (by simp [he])
      · rename_i h2
        simp only [List.mem_cons] at he
        rcases he with rfl | he
        · simp only [not_or] at h1
          exact ⟨h1.1, h1.2, h2, hx _ (by simp)⟩
        · exact hS e he

theorem foldl_cleanStep_no_dotdot (r : Bool) (xs : List GoString) :
    ∀ S, (∀ e ∈ xs, e ≠ ['.', '.']) →
      ∃ R, xs.foldl (cleanStep r) S = R ++ S ∧ ∀ e ∈ R, e ∈ xs ∧ e ≠ [] ∧ e ≠ ['.'] := by
  induction xs with
  | nil => intro S _; exact ⟨[], by simp⟩
  | cons x xs ih =>
    intro S hx
    rw [List.foldl_cons]
    have hx' : ∀ e ∈ xs, e ≠ ['.', '.'] := fun e he => hx e (by simp [he])
    by_cases h1 : x = [] ∨ x = ['.']
    · obtain ⟨R, hR, hR'⟩ := ih S hx'
      refine ⟨R, ?_, fun e he => ⟨by simp [(hR' e he).1], (hR' e he).2⟩⟩
      simp [cleanStep, h1, hR]
    · obtain ⟨R, hR, hR'⟩ := ih (x :: S) hx'
      refine ⟨R ++ [x], ?_, ?_⟩
      · simp [cleanStep, h1, hx x (by simp), hR]
      · intro e he
        simp only [List.mem_append, List.mem_singleton] at he
        rcases he with he | rfl
        · exact ⟨by simp [(hR' e he).1], (hR' e he).2⟩
        · simp only [not_or] at h1
          exact ⟨by simp, h1.1, h1.2⟩

theorem isAbs_iff (p : GoString) : IsAbs p = true ↔ ∃ t, p = '/' :: t := by
  cases p with
  | nil => simp [IsAbs, HasPrefix, List.isPrefixOf]
  | cons c cs =>
    simp only [IsAbs, HasPrefix, List.isPrefixOf, Bool.and_true, beq_iff_eq, List.cons.injEq,
      exists_and_left, exists_eq', and_true]
    exact eq_comm


theorem clean_rooted (p : GoString) (h : IsAbs p = true) :
    Clean p = '/' :: joinSep (rootedStack p).reverse := by
  obtain ⟨t, rfl⟩ := (isAbs_iff _).mp h
  simp [Clean, h, rootedStack]

theorem rootedStack_normal (p : GoString) : ∀ e ∈ rootedStack p, NormalElem e :=
  foldl_cleanStep_rooted_normal _ [] (split_no_sep p '/') (by simp)

theorem cleanStep_nil (r : Bool) (S : List GoString) : cleanStep r S [] = S := by
  simp [cleanStep]

theorem rootedStack_cleanForm (S : List GoString) (hS : ∀ e ∈ S, NormalElem e) :
    rootedStack ('/' :: joinSep S.reverse) = S := by
  have hsplit : splitSep ('/' :: joinSep S.reverse) = [] :: Split (joinSep S.reverse) '/' := by
    simp [splitSep, Split]
  rw [rootedStack, hsplit, List.foldl_cons, cleanStep_nil]
  by_cases h : S = []
  · subst h; simp [joinSep, Split, cleanStep_nil]
  · rw [split_joinSep _ (by simpa using h) (fun e he => (hS e (by simpa using he)).2.2.2),
      foldl_cleanStep_normal _ _ _ (fun e he => hS e (by simpa using he))]
    simp

theorem isAbs_clean (p : GoString) (h : IsAbs p = true) : IsAbs (Clean p) = true := by
  rw [clean_rooted p h]; exact (isAbs_iff _).mpr ⟨_, rfl⟩

theorem clean_idem_rooted (p : GoString) (h : IsAbs p = true) : Clean (Clean p) = Clean p := by
  rw [clean_rooted (Clean p) (isAbs_clean p h)]
  rw [clean_rooted p h, rootedStack_cleanForm _ (rootedStack_normal p)]

theorem abs_rooted (E : Env) (base a : GoString) (h : Abs E base = .ok a) : IsAbs a = true := by
  unfold Abs at h
  split at h
  · rename_i hb
    cases h
    exact isAbs_clean _ hb
  · split at h
    · cases h
    · rename_i wd hwd
      cases h
      have hr := E.getwd_rooted wd hwd
      obtain ⟨t, rfl⟩ := (isAbs_iff _).mp hr
      simp only [Join, ne_eq, reduceCtorEq, not_false_eq_true, if_true]
      exact isAbs_clean _ ((isAbs_iff _).mpr ⟨_, rfl⟩)

/-- Joining a requested path without `..` elements to a cleaned rooted base
appends the kept elements of the request to those of the base. -/
theorem join_cleanForm (S : List GoString) (hS : ∀ e ∈ S, NormalElem e) (req : GoString)
    (hreq : Contains req ['.', '.'] = false) :
    ∃ R, (∀ e ∈ R, NormalElem e) ∧
      Join ('/' :: joinSep S.reverse) req = '/' :: joinSep (R ++ S).reverse := by
  have hno : ∀ e ∈ splitSep req, e ≠ ['.', '.'] := by
    intro e he h
    have := split_mem_segment req '/' e he
    rw [h, ← contains_iff_segment, hreq] at this
    cases this
  obtain ⟨R, hR, hR'⟩ := foldl_cleanStep_no_dotdot true (splitSep req) S hno
  refine ⟨R, ?_, ?_⟩
  · intro e he
    obtain ⟨h1, h2, h3⟩ := hR' e he
    exact ⟨h2, h3, hno e h1, split_no_sep req '/' e h1⟩
  · have habs : IsAbs (('/' :: joinSep S.reverse) ++ '/' :: req) = true :=
      (isAbs_iff _).mpr ⟨_, rfl⟩
    simp only [Join, ne_eq, reduceCtorEq, not_false_eq_true, if_true]
    rw [clean_rooted _ habs, rootedStack, splitSep, split_append, List.foldl_append]
    have := rootedStack_cleanForm S hS
    rw [rootedStack, splitSep] at this
    rw [this]
    rw [splitSep] at hR
    rw [hR]

theorem clean_cleanForm (S : List GoString) (hS : ∀ e ∈ S, NormalElem e) :
    Clean ('/' :: joinSep S.reverse) = '/' :: joinSep S.reverse := by
  rw [clean_rooted _ ((isAbs_iff _).mpr ⟨_, rfl⟩), rootedStack_cleanForm S hS]

theorem relElems_cleanForm (X : List GoString) (hX : ∀ e ∈ X, NormalElem e) :
    relElems ('/' :: joinSep X) = X := by
  have hsplit : splitSep ('/' :: joinSep X) = [] :: Split (joinSep X) '/' := by
    simp [splitSep, Split]
  rw [relElems, hsplit]
  by_cases h : X = []
  · subst h; simp [joinSep, Split]
  · rw [split_joinSep X h (fun e he => (hX e he).2.2.2)]
    simp only [ne_eq, decide_not, List.filter_cons, decide_True, Bool.not_true, Bool.false_eq_true,
      if_false]
    rw [List.filter_eq_self]
    intro e he
    simpa using (hX e he).1

/-- Shape of a path accepted by `ValidatePath`: the elements of the cleaned
absolute root followed by kept elements of the request. -/
theorem validatePath_shape (E : Env) (basePath requestedPath full : GoString)
    (h : ValidatePath E basePath requestedPath = (full, none)) :
    ∃ a S R, Abs E basePath = .ok a ∧ (∀ e ∈ S, NormalElem e) ∧ (∀ e ∈ R, NormalElem e) ∧
      Clean a = '/' :: joinSep S ∧ full = '/' :: joinSep (S ++ R) := by
  set req := (if requestedPath = [] then ['/'] else requestedPath) with hreq
  cases ha : Abs E basePath with
  | error e => simp [ValidatePath, ha] at h
  | ok a =>
    by_cases hc : Contains req ['.', '.'] = true
    · simp [ValidatePath, ha, ← hreq, hc] at h
    · by_cases hp : HasPrefix (Clean (Join (Clean a) req)) (Clean a) = true
      · simp only [ValidatePath, ha, ← hreq, hc, hp, Bool.not_true, Bool.false_eq_true, if_false,
          Prod.mk.injEq, and_true] at h
        have hroot := abs_rooted E basePath a ha
        have hS := rootedStack_normal a
        have hform := clean_rooted a hroot
        obtain ⟨R, hR, hJ⟩ := join_cleanForm (rootedStack a) hS req (by simpa using hc)
        have hRS : ∀ e ∈ R ++ rootedStack a, NormalElem e := by
          intro e he
          rcases List.mem_append.mp he with he | he
          · exact hR e he
          · exact hS e he
        refine ⟨a, (rootedStack a).reverse, R.reverse, rfl, by simpa using hS, by simpa using hR,
          hform, ?_⟩
        rw [← h, hform, hJ, clean_cleanForm _ hRS]
        simp
      · simp [ValidatePath, ha, ← hreq, hc, hp] at h


/-! ## `ValidatePath` -/

theorem joinSep_head (x : GoString) (xs : List GoString) (hx : x ≠ []) :
    joinSep (x :: xs) ≠ [] ∧ (joinSep (x :: xs)).head? = x.head? := by
  cases xs with
  | nil => exact ⟨hx, rfl⟩
  | cons y ys =>
    rw [joinSep_cons_cons]
    cases x with
    | nil => exact absurd rfl hx
    | cons c cs => simp

/-- What follows the root in a path accepted by `ValidatePath`. -/
theorem validatePath_tail (E : Env) (basePath requestedPath full : GoString)
    (h : ValidatePath E basePath requestedPath = (full, none)) :
    ∃ a t, Abs E basePath = .ok a ∧ full = Clean a ++ t ∧
      (t = [] ∨ (Clean a = ['/'] ∧ t ≠ [] ∧ t.head? ≠ some '/') ∨
        (Clean a ≠ ['/'] ∧ ∃ rest, t = '/' :: rest ∧ rest ≠ [] ∧ rest.head? ≠ some '/')) := by
  obtain ⟨a, S, R, ha, hS, hR, hroot, hfull⟩ := validatePath_shape E basePath requestedPath full h
  cases R with
  | nil => exact ⟨a, [], ha, by simp [hfull, hroot], Or.inl rfl⟩
  | cons r R =>
    have hr := hR r (by simp)
    have hj := joinSep_head r R hr.1
    have hhead : (joinSep (r :: R)).head? ≠ some '/' := by
      rw [hj.2]
      intro hh
      cases r with
      | nil => exact hr.1 rfl
      | cons c cs =>
        simp only [List.head?_cons, Option.some.injEq] at hh
        exact hr.2.2.2 (by simp [hh])
    cases S with
    | nil =>
      refine ⟨a, joinSep (r :: R), ha, by simp [hfull, hroot, joinSep], Or.inr (Or.inl ?_)⟩
      exact ⟨by simp [hroot, joinSep], hj.1, hhead⟩
    | cons x S =>
      refine ⟨a, '/' :: joinSep (r :: R), ha, ?_, Or.inr (Or.inr ⟨?_, _, rfl, hj.1, hhead⟩)⟩
      · rw [hfull, hroot, joinSep_append _ _ (by simp) (by simp)]
        simp
      · rw [hroot]
        have := (joinSep_head x S (hS x (by simp)).1).1
        simpa using this

/-- C1 (as amended): a requested path containing `..` is refused with the
empty path and `ErrPathTraversal` whenever the base directory can be made
absolute, that is when it is absolute or the working directory is known;
otherwise the empty path comes with `ErrInvalidPath`. -/
theorem validatePath_dotdot (E : Env) (basePath requestedPath : GoString)
    (h : Contains requestedPath ['.', '.'] = true) :
    ((IsAbs basePath = true ∨ E.getwd ≠ none) →
        ValidatePath E basePath requestedPath = ([], some GoError.ErrPathTraversal)) ∧
      ((IsAbs basePath = false ∧ E.getwd = none) →
        ValidatePath E basePath requestedPath = ([], some GoError.ErrInvalidPath)) := by
  have hne : requestedPath ≠ [] := by
    rintro rfl
    simp [Contains] at h
  constructor
  · intro hb
    have : ∃ a, Abs E basePath = .ok a := by
      unfold Abs
      rcases hb with hb | hb
      · simp [hb]
      · cases hw : E.getwd with
        | none => exact absurd hw hb
        | some wd => by_cases hb' : IsAbs basePath = true <;> simp [hb']
    obtain ⟨a, ha⟩ := this
    simp [ValidatePath, ha, hne, h]
  · rintro ⟨hb, hw⟩
    simp [ValidatePath, Abs, hb, hw]

/-- Witness of `validatePath_dotdot`: `..` inside a name, absolute base. -/
theorem validatePath_dotdot_witness :
    Contains "docs/a..b".toList ['.', '.'] = true ∧
      ValidatePath noCwdEnv "/srv/cdn".toList "docs/a..b".toList =
        ([], some GoError.ErrPathTraversal) :=
  ⟨by decide,
    (validatePath_dotdot noCwdEnv "/srv/cdn".toList "docs/a..b".toList (by decide)).1
      (Or.inl (by decide))⟩

/-- C1 (as stated) fails: with a relative base directory and no working
directory the answer to a `..` request is `ErrInvalidPath`. -/
theorem validatePath_dotdot_counterexample :
    Contains "..".toList ['.', '.'] = true ∧
      ValidatePath noCwdEnv "cdn".toList "..".toList = ([], some GoError.ErrInvalidPath) ∧
      ValidatePath noCwdEnv "cdn".toList "..".toList ≠ ([], some GoError.ErrPathTraversal) := by
  decide

/-- C2: a path accepted by `ValidatePath` is the cleaned absolute root or the
root, a separator and further elements (for the root `/` the separator is the
root itself); the root is a prefix of it, what follows the root starts at a
separator (no sibling such as root + "-evil"), and its elements are those of
the root followed by elements that are neither empty, `.`, `..` nor contain a
separator. -/
theorem validatePath_confined (E : Env) (basePath requestedPath full : GoString)
    (h : ValidatePath E basePath requestedPath = (full, none)) :
    ∃ a, Abs E basePath = .ok a ∧
      (full = Clean a ∨
        ∃ rest, rest ≠ [] ∧ rest.head? ≠ some '/' ∧ full = dirPrefix (Clean a) ++ rest) ∧
      HasPrefix full (Clean a) = true ∧
      (∀ s, full = Clean a ++ s → s = [] ∨ s.head? = some '/' ∨ Clean a = ['/']) ∧
      (∃ more, relElems full = relElems (Clean a) ++ more ∧
        ∀ e ∈ more, e ≠ [] ∧ e ≠ ['.'] ∧ e ≠ ['.', '.'] ∧ '/' ∉ e) := by
  obtain ⟨a, S, R, ha, hS, hR, hroot, hfull⟩ := validatePath_shape E basePath requestedPath full h
  have hSR : ∀ e ∈ S ++ R, NormalElem e := by
    intro e he
    rcases List.mem_append.mp he with he | he
    · exact hS e he
    · exact hR e he
  obtain ⟨a1, t, ha1, ht, hcase⟩ := validatePath_tail E basePath requestedPath full h
  have haa : a1 = a := by rw [ha] at ha1; cases ha1; rfl
  subst haa
  refine ⟨a1, ha, ?_, ?_, ?_, ?_⟩
  · rcases hcase with rfl | ⟨h1, h2, h3⟩ | ⟨h1, rest, rfl, h2, h3⟩
    · exact Or.inl (by simpa using ht)
    · exact Or.inr ⟨t, h2, h3, by simp [dirPrefix, h1, ht]⟩
    · exact Or.inr ⟨rest, h2, h3, by simp [dirPrefix, h1, ht]⟩
  · rw [HasPrefix, List.isPrefixOf_iff_prefix]
    exact ⟨t, ht.symm⟩
  · intro s hs
    have hst : s = t := List.append_cancel_left (hs.symm.trans ht)
    subst hst
    rcases hcase with rfl | ⟨h1, _, _⟩ | ⟨_, rest, rfl, _, _⟩
    · exact Or.inl rfl
    · exact Or.inr (Or.inr h1)
    · exact Or.inr (Or.inl rfl)
  · refine ⟨R, ?_, hR⟩
    rw [hfull, hroot, relElems_cleanForm _ hSR, relElems_cleanForm _ hS]

/-- Witness of `validatePath_confined`: an absolute-looking request stays
below the root. -/
theorem validatePath_confined_witness :
    ValidatePath noCwdEnv "/srv/cdn".toList "/etc/passwd".toList =
        ("/srv/cdn/etc/passwd".toList, none) ∧
      ∃ a, Abs noCwdEnv "/srv/cdn".toList = .ok a ∧
        ("/srv/cdn/etc/passwd".toList = Clean a ∨
          ∃ rest, rest ≠ [] ∧ rest.head? ≠ some '/' ∧
            "/srv/cdn/etc/passwd".toList = dirPrefix (Clean a) ++ rest) ∧
        HasPrefix "/srv/cdn/etc/passwd".toList (Clean a) = true ∧
        (∀ s, "/srv/cdn/etc/passwd".toList = Clean a ++ s →
          s = [] ∨ s.head? = some '/' ∨ Clean a = ['/']) ∧
        (∃ more, relElems "/srv/cdn/etc/passwd".toList = relElems (Clean a) ++ more ∧
          ∀ e ∈ more, e ≠ [] ∧ e ≠ ['.'] ∧ e ≠ ['.', '.'] ∧ '/' ∉ e) :=
  ⟨by decide,
    validatePath_confined noCwdEnv "/srv/cdn".toList "/etc/passwd".toList
      "/srv/cdn/etc/passwd".toList (by decide)⟩


/-! ## `ValidatePathExists` -/

/-- C3 fails on the code: below the root `/srv/cdn` the request `link/passwd`
is accepted although its ancestor `/srv/cdn/link` is a symbolic link, and the
accepted path names the file `/etc/passwd` outside the root. -/
theorem validatePathExists_ancestor_symlink :
    ValidatePathExists noCwdEnv linkedTree "/srv/cdn".toList "link/passwd".toList =
        ("/srv/cdn/link/passwd".toList, none) ∧
      Lstat noCwdEnv linkedTree "/srv/cdn/link".toList =
        .ok { name := "link".toList, isDir := false, isSymlink := true, size := 4 } ∧
      resolve noCwdEnv linkedTree false "/srv/cdn/link/passwd".toList =
        .ok (Resolved.found ["etc".toList, "passwd".toList] (Node.file [114, 111, 111, 116])) := by
  decide

/-- C4: when the path passes `ValidatePath` and `os.Lstat` reports a symbolic
link for it, `ValidatePathExists` answers `ErrSymlinkDetected` with the empty
path, whatever the link points to. -/
theorem validatePathExists_leaf_symlink (E : Env) (fs : FS)
    (basePath requestedPath full : GoString) (info : FileInfo)
    (hv : ValidatePath E basePath requestedPath = (full, none))
    (hl : Lstat E fs full = .ok info) (hs : info.isSymlink = true) :
    ValidatePathExists E fs basePath requestedPath = ([], some GoError.ErrSymlinkDetected) := by
  simp [ValidatePathExists, hv, hl, hs]

/-- Witness of `validatePathExists_leaf_symlink`: a link whose target does
not exist. -/
theorem validatePathExists_leaf_symlink_witness :
    ValidatePath noCwdEnv "/srv/cdn".toList "dangling".toList =
        ("/srv/cdn/dangling".toList, none) ∧
      Lstat noCwdEnv linkedTree "/srv/cdn/dangling".toList =
        .ok { name := "dangling".toList, isDir := false, isSymlink := true, size := 8 } ∧
      Stat noCwdEnv linkedTree "/srv/cdn/dangling".toList = .error Errno.ENOENT ∧
      ValidatePathExists noCwdEnv linkedTree "/srv/cdn".toList "dangling".toList =
        ([], some GoError.ErrSymlinkDetected) :=
  ⟨by decide, by decide, by decide,
    validatePathExists_leaf_symlink noCwdEnv linkedTree "/srv/cdn".toList "dangling".toList
      "/srv/cdn/dangling".toList
      { name := "dangling".toList, isDir := false, isSymlink := true, size := 8 }
      (by decide) (by decide) rfl⟩

/-! ## `RenameFile` -/

/-- C5 fails on the code: a rename request for the empty path (the root
itself) reaches `os.Rename` with the destination `/srv/evil`, which is not
below the root `/srv/cdn`; the whole root is moved there. -/
theorem renameFile_root_leaves_root :
    renameArgs noCwdEnv sampleTables defaultConfig ⟨cdnTree, cdnDB⟩
        ⟨localPeer, some ([], "evil".toList)⟩ =
        .ok ("/srv/cdn".toList, "/srv/cdn".toList, "/srv/evil".toList) ∧
      HasPrefix "/srv/evil".toList "/srv/cdn".toList = false ∧
      (RenameFile noCwdEnv sampleTables defaultConfig ⟨cdnTree, cdnDB⟩
        ⟨localPeer, some ([], "evil".toList)⟩).1.fs =
        ⟨[(["srv".toList], Node.dir),
          (["srv".toList, "evil".toList], Node.dir),
          (["srv".toList, "evil".toList, "a.txt".toList], Node.file [104, 105])]⟩ ∧
      (RenameFile noCwdEnv sampleTables defaultConfig ⟨cdnTree, cdnDB⟩
        ⟨localPeer, some ([], "evil".toList)⟩).2.status = 200 := by
  decide


/-! ## Runes -/

theorem char_eq_of_toNat {c d : Char} (h : c.toNat = d.toNat) : c = d := by
  have := congrArg Char.ofNat h
  simpa using this

theorem char_eq_iff_toNat (c d : Char) : c = d ↔ c.toNat = d.toNat :=
  ⟨fun h => by rw [h], char_eq_of_toNat⟩

theorem toNat_ofNat_upper (n : Nat) (h1 : 65 ≤ n) (h2 : n ≤ 90) :
    (Char.ofNat (n + 32)).toNat = n + 32 := by
  interval_cases n <;> rfl

/-- The cases of `unicode.ToLower`. -/
theorem unicodeToLower_cases (T : CaseTables) (c : Char) :
    (65 ≤ c.toNat ∧ c.toNat ≤ 90 ∧ (unicodeToLower T c).toNat = c.toNat + 32) ∨
      (c.toNat ≤ 127 ∧ ¬(65 ≤ c.toNat ∧ c.toNat ≤ 90) ∧ unicodeToLower T c = c) ∨
      (128 ≤ c.toNat ∧ 128 ≤ (unicodeToLower T c).toNat) ∨
      (c = Char.ofNat 0x130 ∧ unicodeToLower T c = 'i') ∨
      (c = Char.ofNat 0x212A ∧ unicodeToLower T c = 'k') := by
  unfold unicodeToLower
  have hA : 'A'.toNat = 65 := rfl
  have hZ : 'Z'.toNat = 90 := rfl
  rw [hA, hZ]
  by_cases h : c.toNat ≤ 127
  · rw [if_pos h]
    by_cases hu : 65 ≤ c.toNat ∧ c.toNat ≤ 90
    · rw [if_pos hu]
      exact Or.inl ⟨hu.1, hu.2, toNat_ofNat_upper _ hu.1 hu.2⟩
    · rw [if_neg hu]
      exact Or.inr (Or.inl ⟨h, hu, rfl⟩)
  · rw [if_neg h]
    by_cases hm : 128 ≤ (T.lower c).toNat
    · exact Or.inr (Or.inr (Or.inl ⟨by omega, hm⟩))
    · rcases T.lower_ascii c (by omega) (by omega) with rfl | rfl
      · exact Or.inr (Or.inr (Or.inr (Or.inl ⟨rfl, T.lower_0130⟩)))
      · exact Or.inr (Or.inr (Or.inr (Or.inr ⟨rfl, T.lower_212A⟩)))

theorem isAlnum_iff (c : Char) : isAlnum c = true ↔
    (97 ≤ c.toNat ∧ c.toNat ≤ 122) ∨ (65 ≤ c.toNat ∧ c.toNat ≤ 90) ∨
      (48 ≤ c.toNat ∧ c.toNat ≤ 57) := by
  simp [isAlnum]

theorem isLowerDigit_iff (c : Char) : isLowerDigit c = true ↔
    (97 ≤ c.toNat ∧ c.toNat ≤ 122) ∨ (48 ≤ c.toNat ∧ c.toNat ≤ 57) := by
  simp [isLowerDigit]

theorem isNameChar_iff (c : Char) : isNameChar c = true ↔
    (97 ≤ c.toNat ∧ c.toNat ≤ 122) ∨ (65 ≤ c.toNat ∧ c.toNat ≤ 90) ∨
      (48 ≤ c.toNat ∧ c.toNat ≤ 57) ∨ c.toNat = 46 ∨ c.toNat = 95 ∨ c.toNat = 45 := by
  have h1 : c = '.' ↔ c.toNat = 46 := char_eq_iff_toNat c '.'
  have h2 : c = '_' ↔ c.toNat = 95 := char_eq_iff_toNat c '_'
  have h3 : c = '-' ↔ c.toNat = 45 := char_eq_iff_toNat c '-'
  simp only [isNameChar, Bool.or_eq_true, decide_eq_true_eq, isAlnum_iff, h1, h2, h3]
  tauto

/-- The code point of a normalized rune, by cases on the source rune. -/
theorem normRune_cases (T : CaseTables) (c : Char) :
    (65 ≤ c.toNat ∧ c.toNat ≤ 90 ∧ (normRune T c).toNat = c.toNat + 32) ∨
      (c.toNat ≤ 127 ∧ ¬(65 ≤ c.toNat ∧ c.toNat ≤ 90) ∧ c.toNat ≠ 32 ∧ normRune T c = c) ∨
      (c.toNat = 32 ∧ (normRune T c).toNat = 45) ∨
      (128 ≤ c.toNat ∧ 128 ≤ (normRune T c).toNat) ∨
      (c = Char.ofNat 0x130 ∧ normRune T c = 'i') ∨
      (c = Char.ofNat 0x212A ∧ normRune T c = 'k') := by
  have hsp : ∀ d : Char, d = ' ' ↔ d.toNat = 32 := fun d => char_eq_iff_toNat d ' '
  unfold normRune
  rcases unicodeToLower_cases T c with ⟨h1, h2, h3⟩ | ⟨h1, h2, h3⟩ | ⟨h1, h2⟩ | ⟨h1, h2⟩ | ⟨h1, h2⟩
  · have : ¬ unicodeToLower T c = ' ' := by rw [hsp]; omega
    rw [if_neg this]
    exact Or.inl ⟨h1, h2, h3⟩
  · rw [h3]
    by_cases hs : c = ' '
    · rw [if_pos hs]
      exact Or.inr (Or.inr (Or.inl ⟨(hsp c).mp hs, rfl⟩))
    · rw [if_neg hs]
      exact Or.inr (Or.inl ⟨h1, h2, fun h => hs ((hsp c).mpr h), rfl⟩)
  · have : ¬ unicodeToLower T c = ' ' := by rw [hsp]; omega
    rw [if_neg this]
    exact Or.inr (Or.inr (Or.inr (Or.inl ⟨h1, h2⟩)))
  · rw [h2]
    exact Or.inr (Or.inr (Or.inr (Or.inr (Or.inl ⟨h1, by decide⟩))))
  · rw [h2]
    exact Or.inr (Or.inr (Or.inr (Or.inr (Or.inr ⟨h1, by decide⟩))))


/-! ## `ValidateFilename` -/

theorem normalized_eq_map (T : CaseTables) (s : GoString) :
    ReplaceAll (ToLower T s) ' ' '-' = s.map (normRune T) := by
  simp [ReplaceAll, ToLower, normRune, List.map_map, Function.comp_def]

theorem finalElem_nil : finalElem [] = [] := by decide

theorem base_eq (raw : GoString) :
    Base raw = if raw = [] then ['.'] else if finalElem raw = [] then ['/'] else finalElem raw :=
  rfl

/-- The two outcomes of `ValidateFilename`. -/
theorem validateFilename_eq (T : CaseTables) (raw : GoString) :
    ValidateFilename T raw =
      if Base raw ≠ [] ∧ Base raw ≠ ['.'] ∧ Base raw ≠ ['.', '.'] ∧
          filenameRegex ((Base raw).map (normRune T)) = true then
        ((Base raw).map (normRune T), none)
      else ([], some GoError.ErrInvalidFilename) := by
  unfold ValidateFilename
  simp only [normalized_eq_map]
  by_cases h : Base raw = [] ∨ Base raw = ['.'] ∨ Base raw = ['.', '.']
  · have hn : ¬(Base raw ≠ [] ∧ Base raw ≠ ['.'] ∧ Base raw ≠ ['.', '.'] ∧
        filenameRegex ((Base raw).map (normRune T)) = true) := by tauto
    rw [if_pos h, if_neg hn]
  · rw [if_neg h]
    by_cases hr : filenameRegex ((Base raw).map (normRune T)) = true
    · have hp : Base raw ≠ [] ∧ Base raw ≠ ['.'] ∧ Base raw ≠ ['.', '.'] ∧
          filenameRegex ((Base raw).map (normRune T)) = true := by tauto
      rw [if_pos hp, hr]
      rfl
    · have hn : ¬(Base raw ≠ [] ∧ Base raw ≠ ['.'] ∧ Base raw ≠ ['.', '.'] ∧
          filenameRegex ((Base raw).map (normRune T)) = true) := by tauto
      rw [if_neg hn]
      rw [Bool.not_eq_true] at hr
      rw [hr]
      rfl

theorem filenameRegex_iff (s : GoString) : filenameRegex s = true ↔
    ∃ c cs, s = c :: cs ∧ isAlnum c = true ∧ ∀ d ∈ cs, isNameChar d = true := by
  cases s with
  | nil => simp [filenameRegex]
  | cons c cs =>
    simp only [filenameRegex, Bool.and_eq_true, List.all_eq_true, List.cons.injEq]
    constructor
    · intro h
      exact ⟨c, cs, ⟨rfl, rfl⟩, h⟩
    · rintro ⟨c1, cs1, ⟨rfl, rfl⟩, h⟩
      exact h

theorem isNameChar_of_isAlnum (c : Char) (h : isAlnum c = true) : isNameChar c = true := by
  simp [isNameChar, h]

theorem toNat_0130 : (Char.ofNat 0x130).toNat = 304 := rfl

theorem toNat_212A : (Char.ofNat 0x212A).toNat = 8490 := rfl

theorem normRune_alnum (T : CaseTables) (x : Char) (h : isAlnum (normRune T x) = true) :
    isLowerDigit (normRune T x) = true := by
  rw [isAlnum_iff] at h
  rw [isLowerDigit_iff]
  rcases normRune_cases T x with ⟨h1, h2, h3⟩ | ⟨h1, h2, h3, h4⟩ | ⟨h1, h2⟩ | ⟨h1, h2⟩ | ⟨_, h2⟩ |
    ⟨_, h2⟩
  · omega
  · rw [h4] at h ⊢; omega
  · omega
  · omega
  · rw [h2]; decide
  · rw [h2]; decide

theorem normRune_nameChar (T : CaseTables) (x : Char) (h : isNameChar (normRune T x) = true) :
    isLowerDigit (normRune T x) = true ∨ normRune T x = '.' ∨ normRune T x = '-' ∨
      normRune T x = '_' := by
  rw [isNameChar_iff] at h
  rw [isLowerDigit_iff, char_eq_iff_toNat _ '.', char_eq_iff_toNat _ '-', char_eq_iff_toNat _ '_']
  have e1 : '.'.toNat = 46 := rfl
  have e2 : '-'.toNat = 45 := rfl
  have e3 : '_'.toNat = 95 := rfl
  rw [e1, e2, e3]
  rcases normRune_cases T x with ⟨h1, h2, h3⟩ | ⟨h1, h2, h3, h4⟩ | ⟨h1, h2⟩ | ⟨h1, h2⟩ | ⟨_, h2⟩ |
    ⟨_, h2⟩
  · omega
  · rw [h4] at h ⊢; omega
  · omega
  · omega
  · rw [h2]; decide
  · rw [h2]; decide

theorem normRune_fixed (T : CaseTables) (x : Char)
    (h : isLowerDigit x = true ∨ x = '.' ∨ x = '-' ∨ x = '_') : normRune T x = x := by
  rw [isLowerDigit_iff, char_eq_iff_toNat _ '.', char_eq_iff_toNat _ '-', char_eq_iff_toNat _ '_'] at h
  have e1 : '.'.toNat = 46 := rfl
  have e2 : '-'.toNat = 45 := rfl
  have e3 : '_'.toNat = 95 := rfl
  rw [e1, e2, e3] at h
  rcases normRune_cases T x with ⟨h1, h2, h3⟩ | ⟨h1, h2, h3, h4⟩ | ⟨h1, h2⟩ | ⟨h1, h2⟩ | ⟨h1, _⟩ |
    ⟨h1, _⟩
  · omega
  · exact h4
  · omega
  · omega
  · rw [h1, toNat_0130] at h; omega
  · rw [h1, toNat_212A] at h; omega

theorem normRune_not_nameChar (T : CaseTables) (x : Char) (h1 : isNameChar x = false)
    (h2 : x ≠ ' ') (h3 : x ≠ Char.ofNat 0x130) (h4 : x ≠ Char.ofNat 0x212A) :
    isNameChar (normRune T x) = false := by
  rw [← Bool.not_eq_true, isNameChar_iff] at h1 ⊢
  rw [Ne, char_eq_iff_toNat] at h2
  have e1 : ' '.toNat = 32 := rfl
  rw [e1] at h2
  rcases normRune_cases T x with ⟨a, b, c⟩ | ⟨a, b, c, d⟩ | ⟨a, b⟩ | ⟨a, b⟩ | ⟨a, _⟩ | ⟨a, _⟩
  · omega
  · rw [d]; exact h1
  · omega
  · omega
  · exact absurd a h3
  · exact absurd a h4

theorem normRune_not_alnum (T : CaseTables) (x : Char) (h1 : isAlnum x = false)
    (h3 : x ≠ Char.ofNat 0x130) (h4 : x ≠ Char.ofNat 0x212A) :
    isAlnum (normRune T x) = false := by
  rw [← Bool.not_eq_true, isAlnum_iff] at h1 ⊢
  rcases normRune_cases T x with ⟨a, b, c⟩ | ⟨a, b, c, d⟩ | ⟨a, b⟩ | ⟨a, b⟩ | ⟨a, _⟩ | ⟨a, _⟩
  · omega
  · rw [d]; exact h1
  · omega
  · omega
  · exact absurd a h3
  · exact absurd a h4


/-- A successful `ValidateFilename` normalizes the final element. -/
theorem validateFilename_ok_base (T : CaseTables) (raw n : GoString)
    (h : ValidateFilename T raw = (n, none)) :
    Base raw = finalElem raw ∧ n = (finalElem raw).map (normRune T) ∧ filenameRegex n = true := by
  rw [validateFilename_eq] at h
  split at h
  · rename_i hc
    obtain ⟨h1, h2, h3, h4⟩ := hc
    simp only [Prod.mk.injEq, and_true] at h
    have hb : Base raw = finalElem raw := by
      rw [base_eq] at h2 h4 ⊢
      by_cases hr : raw = []
      · rw [if_pos hr] at h2; exact absurd rfl h2
      · rw [if_neg hr] at h4 ⊢
        by_cases hf : finalElem raw = []
        · rw [if_pos hf] at h4
          rw [filenameRegex_iff] at h4
          obtain ⟨c, cs, e, ha, _⟩ := h4
          simp only [List.map_cons, List.map_nil, List.cons.injEq] at e
          rcases normRune_cases T '/' with ⟨a, _⟩ | ⟨_, _, _, d⟩ | ⟨a, _⟩ | ⟨a, _⟩ | ⟨a, _⟩ | ⟨a, _⟩
          · exact absurd a (by decide)
          · rw [d] at e; rw [← e.1] at ha; exact absurd ha (by decide)
          · exact absurd a (by decide)
          · exact absurd a (by decide)
          · exact absurd a (by decide)
          · exact absurd a (by decide)
        · rw [if_neg hf]
    rw [hb] at h
    exact ⟨hb, h.symm, by rw [← h, ← hb]; exact h4⟩
  · simp at h

/-- The runes of a name returned by `ValidateFilename`. -/
theorem validateFilename_ok_runes (T : CaseTables) (raw n : GoString)
    (h : ValidateFilename T raw = (n, none)) :
    (∃ c cs, n = c :: cs ∧ isLowerDigit c = true) ∧
      (∀ c ∈ n, isLowerDigit c = true ∨ c = '.' ∨ c = '-' ∨ c = '_') := by
  obtain ⟨_, hn, hre⟩ := validateFilename_ok_base T raw n h
  obtain ⟨c0, cs, e, ha, hcs⟩ := (filenameRegex_iff n).mp hre
  constructor
  · refine ⟨c0, cs, e, ?_⟩
    have hc0 : c0 ∈ n := by rw [e]; simp
    rw [hn] at hc0
    obtain ⟨x, _, rfl⟩ := List.mem_map.mp hc0
    exact normRune_alnum T x ha
  · intro c hc
    have hname : isNameChar c = true := by
      rw [e] at hc
      rcases List.mem_cons.mp hc with rfl | hc
      · exact isNameChar_of_isAlnum _ ha
      · exact hcs c hc
    rw [hn] at hc
    obtain ⟨x, _, rfl⟩ := List.mem_map.mp hc
    exact normRune_nameChar T x hname

/-- C6: a name returned by `ValidateFilename` is not empty, begins with a
lower-case ASCII letter or a digit, consists of lower-case ASCII letters,
digits, dot, dash and underscore only (no separator, no space, no upper-case
letter), and is the final path element of the raw name lower-cased with every
space replaced by a dash. -/
theorem validateFilename_ok (T : CaseTables) (raw n : GoString)
    (h : ValidateFilename T raw = (n, none)) :
    n ≠ [] ∧ (∃ c cs, n = c :: cs ∧ isLowerDigit c = true) ∧
      (∀ c ∈ n, isLowerDigit c = true ∨ c = '.' ∨ c = '-' ∨ c = '_') ∧
      '/' ∉ n ∧ ' ' ∉ n ∧ (∀ c ∈ n, ¬('A'.toNat ≤ c.toNat ∧ c.toNat ≤ 'Z'.toNat)) ∧
      n = ReplaceAll (ToLower T (finalElem raw)) ' ' '-' := by
  obtain ⟨_, hn, _⟩ := validateFilename_ok_base T raw n h
  obtain ⟨⟨c0, cs, e, hhead⟩, hall⟩ := validateFilename_ok_runes T raw n h
  have hnum : ∀ c ∈ n, (97 ≤ c.toNat ∧ c.toNat ≤ 122) ∨ (48 ≤ c.toNat ∧ c.toNat ≤ 57) ∨
      c.toNat = 46 ∨ c.toNat = 45 ∨ c.toNat = 95 := by
    intro c hc
    rcases hall c hc with h1 | rfl | rfl | rfl
    · rw [isLowerDigit_iff] at h1; omega
    · exact Or.inr (Or.inr (Or.inl rfl))
    · exact Or.inr (Or.inr (Or.inr (Or.inl rfl)))
    · exact Or.inr (Or.inr (Or.inr (Or.inr rfl)))
  refine ⟨by rw [e]; simp, ⟨c0, cs, e, hhead⟩, hall, ?_, ?_, ?_, ?_⟩
  · intro hm
    have := hnum '/' hm
    have e1 : '/'.toNat = 47 := rfl
    omega
  · intro hm
    have := hnum ' ' hm
    have e1 : ' '.toNat = 32 := rfl
    omega
  · intro c hc
    have := hnum c hc
    have e1 : 'A'.toNat = 65 := rfl
    have e2 : 'Z'.toNat = 90 := rfl
    omega
  · rw [normalized_eq_map]; exact hn

/-- Witness of `validateFilename_ok`: directory part, upper case and a space. -/
theorem validateFilename_ok_witness :
    ValidateFilename sampleTables "up/My File.TXT".toList = ("my-file.txt".toList, none) ∧
      "my-file.txt".toList ≠ [] ∧
      (∃ c cs, "my-file.txt".toList = c :: cs ∧ isLowerDigit c = true) ∧
      (∀ c ∈ "my-file.txt".toList, isLowerDigit c = true ∨ c = '.' ∨ c = '-' ∨ c = '_') ∧
      '/' ∉ "my-file.txt".toList ∧ ' ' ∉ "my-file.txt".toList ∧
      (∀ c ∈ "my-file.txt".toList, ¬('A'.toNat ≤ c.toNat ∧ c.toNat ≤ 'Z'.toNat)) ∧
      "my-file.txt".toList =
        ReplaceAll (ToLower sampleTables (finalElem "up/My File.TXT".toList)) ' ' '-' :=
  ⟨by decide,
    validateFilename_ok sampleTables "up/My File.TXT".toList "my-file.txt".toList (by decide)⟩


/-- C7 (as stated) fails: the name made of the one rune U+212A (Kelvin sign),
which is neither an ASCII letter, digit, dot, dash, underscore nor space, is
accepted and normalized to `k`. -/
theorem validateFilename_kelvin_counterexample :
    isNameChar (Char.ofNat 0x212A) = false ∧ Char.ofNat 0x212A ≠ ' ' ∧
      128 ≤ (Char.ofNat 0x212A).toNat ∧
      finalElem [Char.ofNat 0x212A] = [Char.ofNat 0x212A] ∧
      ValidateFilename sampleTables [Char.ofNat 0x212A] = (['k'], none) := by
  decide

/-- C7 (as amended): `ValidateFilename` answers `ErrInvalidFilename` when the
final path element of the raw name is empty, `.` or `..`, when it begins with
a rune that is neither an ASCII letter or digit nor U+0130 or U+212A, or when
it contains a rune other than ASCII letters, digits, dot, dash, underscore,
space, U+0130 and U+212A. -/
theorem validateFilename_rejects (T : CaseTables) (raw : GoString)
    (h : finalElem raw = [] ∨ finalElem raw = ['.'] ∨ finalElem raw = ['.', '.'] ∨
      (∃ c cs, finalElem raw = c :: cs ∧ isAlnum c = false ∧
        c ≠ Char.ofNat 0x130 ∧ c ≠ Char.ofNat 0x212A) ∨
      (∃ c ∈ finalElem raw, isNameChar c = false ∧ c ≠ ' ' ∧
        c ≠ Char.ofNat 0x130 ∧ c ≠ Char.ofNat 0x212A)) :
    ValidateFilename T raw = ([], some GoError.ErrInvalidFilename) := by
  cases hv : ValidateFilename T raw with
  | mk n err =>
    cases err with
    | some e =>
      rw [validateFilename_eq] at hv
      split at hv
      · simp at hv
      · exact hv.symm
    | none =>
      exfalso
      obtain ⟨_, hn, hre⟩ := validateFilename_ok_base T raw n hv
      obtain ⟨c0, cs0, e, ha, hcs⟩ := (filenameRegex_iff n).mp hre
      have hallname : ∀ d ∈ n, isNameChar d = true := by
        intro d hd
        rw [e] at hd
        rcases List.mem_cons.mp hd with rfl | hd
        · exact isNameChar_of_isAlnum _ ha
        · exact hcs d hd
      rcases h with h | h | h | ⟨c, cs, h, h1, h2, h3⟩ | ⟨c, hc, h1, h2, h3, h4⟩
      · rw [h] at hn; rw [hn] at e; simp at e
      · rw [h] at hn
        rw [hn] at e
        simp only [List.map_cons, List.map_nil, List.cons.injEq] at e
        have := normRune_fixed T '.' (Or.inr (Or.inl rfl))
        rw [this] at e
        rw [← e.1] at ha
        exact absurd ha (by decide)
      · rw [h] at hn
        rw [hn] at e
        simp only [List.map_cons, List.map_nil, List.cons.injEq] at e
        have := normRune_fixed T '.' (Or.inr (Or.inl rfl))
        rw [this] at e
        rw [← e.1] at ha
        exact absurd ha (by decide)
      · rw [h] at hn
        rw [hn] at e
        simp only [List.map_cons, List.cons.injEq] at e
        have := normRune_not_alnum T c h1 h2 h3
        rw [e.1, ha] at this
        cases this
      · have hm : normRune T c ∈ n := by rw [hn]; exact List.mem_map_of_mem _ hc
        have := normRune_not_nameChar T c h1 h2 h3 h4
        rw [hallname _ hm] at this
        cases this

/-- Witness of `validateFilename_rejects`: a non-ASCII rune inside the name. -/
theorem validateFilename_rejects_witness :
    (finalElem "up/café.txt".toList = [] ∨ finalElem "up/café.txt".toList = ['.'] ∨
        finalElem "up/café.txt".toList = ['.', '.'] ∨
        (∃ c cs, finalElem "up/café.txt".toList = c :: cs ∧ isAlnum c = false ∧
          c ≠ Char.ofNat 0x130 ∧ c ≠ Char.ofNat 0x212A) ∨
        (∃ c ∈ finalElem "up/café.txt".toList, isNameChar c = false ∧ c ≠ ' ' ∧
          c ≠ Char.ofNat 0x130 ∧ c ≠ Char.ofNat 0x212A)) ∧
      ValidateFilename sampleTables "up/café.txt".toList =
        ([], some GoError.ErrInvalidFilename) :=
  ⟨Or.inr (Or.inr (Or.inr (Or.inr ⟨Char.ofNat 0xe9, by decide, by decide, by decide, by decide,
      by decide⟩))),
    validateFilename_rejects sampleTables "up/café.txt".toList
      (Or.inr (Or.inr (Or.inr (Or.inr ⟨Char.ofNat 0xe9, by decide, by decide, by decide,
        by decide, by decide⟩))))⟩

/-- A name of the normalized form is returned unchanged. -/
theorem validateFilename_fixed (T : CaseTables) (n : GoString)
    (hhead : ∃ c cs, n = c :: cs ∧ isLowerDigit c = true)
    (hall : ∀ c ∈ n, isLowerDigit c = true ∨ c = '.' ∨ c = '-' ∨ c = '_') :
    ValidateFilename T n = (n, none) := by
  obtain ⟨c0, cs, e, h0⟩ := hhead
  have hslash : ∀ c ∈ n, c ≠ '/' := by
    intro c hc hs
    subst hs
    rcases hall _ hc with h | h | h | h
    · exact absurd h (by decide)
    · exact absurd h (by decide)
    · exact absurd h (by decide)
    · exact absurd h (by decide)
  have hstrip : stripTrailingSep n = n := by
    unfold stripTrailingSep
    have : n.reverse.dropWhile (fun x => decide (x = '/')) = n.reverse := by
      cases hr : n.reverse with
      | nil => rfl
      | cons x xs =>
        have hx : x ∈ n := by
          rw [← List.mem_reverse, hr]; simp
        simp [List.dropWhile, hslash x hx]
    rw [this, List.reverse_reverse]
  have hafter : afterLastSep n = n := by
    unfold afterLastSep
    have : n.reverse.takeWhile (fun x => decide (x ≠ '/')) = n.reverse := by
      rw [List.takeWhile_eq_self_iff]
      intro x hx
      simpa using hslash x (List.mem_reverse.mp hx)
    rw [this, List.reverse_reverse]
  have hbase : Base n = n := by
    rw [base_eq, finalElem, hstrip, hafter, e]
    simp
  have hmap : n.map (normRune T) = n := by
    conv_rhs => rw [← List.map_id n]
    apply List.map_congr_left
    intro c hc
    exact normRune_fixed T c (hall c hc)
  have hre : filenameRegex n = true := by
    rw [filenameRegex_iff]
    refine ⟨c0, cs, e, ?_, ?_⟩
    · rw [isLowerDigit_iff] at h0
      rw [isAlnum_iff]; omega
    · intro d hd
      have := hall d (by rw [e]; simp [hd])
      rw [isNameChar_iff]
      rcases this with h | rfl | rfl | rfl
      · rw [isLowerDigit_iff] at h; omega
      · exact Or.inr (Or.inr (Or.inr (Or.inl rfl)))
      · exact Or.inr (Or.inr (Or.inr (Or.inr (Or.inr rfl))))
      · exact Or.inr (Or.inr (Or.inr (Or.inr (Or.inl rfl))))
  rw [validateFilename_eq, hbase, hmap, if_pos]
  refine ⟨by rw [e]; simp, ?_, ?_, hre⟩
  · intro hd
    rw [hd] at e
    simp only [List.cons.injEq] at e
    rw [← e.1] at h0
    exact absurd h0 (by decide)
  · intro hd
    rw [hd] at e
    simp only [List.cons.injEq] at e
    rw [← e.1] at h0
    exact absurd h0 (by decide)

/-- C8: `ValidateFilename` is idempotent: a name it returns is accepted and
returned unchanged. -/
theorem validateFilename_idempotent (T : CaseTables) (raw n : GoString)
    (h : ValidateFilename T raw = (n, none)) : ValidateFilename T n = (n, none) := by
  obtain ⟨hhead, hall⟩ := validateFilename_ok_runes T raw n h
  exact validateFilename_fixed T n hhead hall

/-- Witness of `validateFilename_idempotent`. -/
theorem validateFilename_idempotent_witness :
    ValidateFilename sampleTables "up/My File.TXT".toList = ("my-file.txt".toList, none) ∧
      ValidateFilename sampleTables "my-file.txt".toList = ("my-file.txt".toList, none) :=
  ⟨by decide,
    validateFilename_idempotent sampleTables "up/My File.TXT".toList "my-file.txt".toList
      (by decide)⟩


/-! ## `ValidateExtension` -/

theorem extScan_eq (r : GoString) : ∀ acc : GoString,
    extScan r acc =
      if '.' ∈ r.takeWhile (· ≠ '/') then
        '.' :: ((r.takeWhile (· ≠ '/')).takeWhile (· ≠ '.')).reverse ++ acc
      else [] := by
  induction r with
  | nil => intro acc; simp [extScan]
  | cons c r ih =>
    intro acc
    by_cases h1 : c = '/'
    · subst h1; simp [extScan]
    · by_cases h2 : c = '.'
      · subst h2; simp [extScan]
      · have h2' : ¬ '.' = c := fun h => h2 h.symm
        simp only [extScan, h1, h2, if_false, ih, List.takeWhile_cons, ne_eq, not_false_eq_true,
          decide_True, if_true, List.mem_cons, h2', false_or, List.reverse_cons]
        split
        · simp
        · rfl

theorem trimPrefix_ext (name : GoString) : TrimPrefix (Ext name) ['.'] = extensionOf name := by
  unfold Ext extensionOf afterLastSep
  rw [extScan_eq]
  simp only [List.mem_reverse, List.reverse_reverse, List.append_nil]
  by_cases h : '.' ∈ name.reverse.takeWhile (· ≠ '/')
  · rw [if_pos h, if_pos h]
    simp [TrimPrefix, HasPrefix, List.isPrefixOf]
  · rw [if_neg h, if_neg h]
    simp [TrimPrefix, HasPrefix, List.isPrefixOf]

theorem blockedLoop_iff (T : CaseTables) (ext : GoString) (blocked : List GoString) :
    (blockedLoop T ext blocked = some GoError.ErrBlockedExtension ↔
      ∃ b ∈ blocked, EqualFold T ext b = true) ∧
    (blockedLoop T ext blocked = none ↔ ¬∃ b ∈ blocked, EqualFold T ext b = true) := by
  induction blocked with
  | nil => simp [blockedLoop]
  | cons b bs ih =>
    by_cases h : EqualFold T ext b = true
    · simp [blockedLoop, h]
    · simp only [blockedLoop, h, Bool.false_eq_true, if_false, List.mem_cons, exists_eq_or_imp,
        false_or]
      exact ih

/-- The blocked extensions as `ValidateExtension` decides them. -/
theorem validateExtension_blocked_iff (T : CaseTables) (name : GoString)
    (blocked : List GoString) :
    (ValidateExtension T name blocked = some GoError.ErrBlockedExtension ↔
      ∃ b ∈ blocked, EqualFold T (ToLower T (extensionOf name)) b = true) ∧
    (ValidateExtension T name blocked = none ↔
      ¬∃ b ∈ blocked, EqualFold T (ToLower T (extensionOf name)) b = true) := by
  unfold ValidateExtension
  simp only [trimPrefix_ext]
  exact blockedLoop_iff T _ blocked

theorem asciiLower_toNat (c : Char) :
    (65 ≤ c.toNat ∧ c.toNat ≤ 90 ∧ (asciiLower c).toNat = c.toNat + 32) ∨
      (¬(65 ≤ c.toNat ∧ c.toNat ≤ 90) ∧ asciiLower c = c) := by
  unfold asciiLower
  have hA : 'A'.toNat = 65 := rfl
  have hZ : 'Z'.toNat = 90 := rfl
  rw [hA, hZ]
  by_cases hu : 65 ≤ c.toNat ∧ c.toNat ≤ 90
  · rw [if_pos hu]
    exact Or.inl ⟨hu.1, hu.2, toNat_ofNat_upper _ hu.1 hu.2⟩
  · rw [if_neg hu]
    exact Or.inr ⟨hu, rfl⟩

theorem unicodeToLower_ascii (T : CaseTables) (c : Char) (h : c.toNat < 128) :
    unicodeToLower T c = asciiLower c := by
  unfold unicodeToLower asciiLower
  rw [if_pos (by omega)]

theorem foldEqRune_ascii (T : CaseTables) (x y : Char) (hx : x.toNat < 128)
    (hy : y.toNat < 128) :
    foldEqRune T (asciiLower x) y = true ↔ asciiLower x = asciiLower y := by
  have hA : 'A'.toNat = 65 := rfl
  have hZ : 'Z'.toNat = 90 := rfl
  rw [char_eq_iff_toNat (asciiLower x) (asciiLower y)]
  unfold foldEqRune
  by_cases he : y = asciiLower x
  · rw [if_pos he]
    simp only [true_iff]
    rw [he]
    rcases asciiLower_toNat x with ⟨a, b, c⟩ | ⟨a, b⟩
    · rcases asciiLower_toNat (asciiLower x) with ⟨a', b', c'⟩ | ⟨a', b'⟩
      · omega
      · rw [b']
    · rw [b, b]
  · rw [if_neg he]
    have he' : y.toNat ≠ (asciiLower x).toNat := fun h => he (char_eq_of_toNat h)
    simp only [hA, hZ]
    rcases asciiLower_toNat x with ⟨a, b, c⟩ | ⟨a, b⟩ <;>
      rcases asciiLower_toNat y with ⟨a', b', c'⟩ | ⟨a', b'⟩
    · by_cases hlt : y.toNat < (asciiLower x).toNat
      · simp only [hlt, if_true]
        rw [if_pos (by omega)]
        simp only [decide_eq_true_eq]
        omega
      · simp only [hlt, if_false]
        rw [if_pos (by omega)]
        simp only [decide_eq_true_eq]
        omega
    · rw [b']
      by_cases hlt : y.toNat < (asciiLower x).toNat
      · simp only [hlt, if_true]
        rw [if_pos (by omega)]
        simp only [decide_eq_true_eq]
        omega
      · simp only [hlt, if_false]
        rw [if_pos (by omega)]
        simp only [decide_eq_true_eq]
        omega
    · rw [b] at he' ⊢
      by_cases hlt : y.toNat < x.toNat
      · simp only [hlt, if_true]
        rw [if_pos (by omega)]
        simp only [decide_eq_true_eq]
        omega
      · simp only [hlt, if_false]
        rw [if_pos (by omega)]
        simp only [decide_eq_true_eq]
        omega
    · rw [b] at he' ⊢
      rw [b']
      by_cases hlt : y.toNat < x.toNat
      · simp only [hlt, if_true]
        rw [if_pos (by omega)]
        simp only [decide_eq_true_eq]
        omega
      · simp only [hlt, if_false]
        rw [if_pos (by omega)]
        simp only [decide_eq_true_eq]
        omega


theorem equalFold_ascii (T : CaseTables) : ∀ e b : GoString,
    (∀ c ∈ e, c.toNat < 128) → (∀ c ∈ b, c.toNat < 128) →
    (EqualFold T (ToLower T e) b = true ↔ e.map asciiLower = b.map asciiLower) := by
  intro e
  induction e with
  | nil =>
    intro b _ _
    cases b <;> simp [EqualFold, ToLower]
  | cons x xs ih =>
    intro b he hb
    cases b with
    | nil => simp [EqualFold, ToLower]
    | cons y ys =>
      have hx := he x (by simp)
      have hy := hb y (by simp)
      have := ih ys (fun c hc => he c (by simp [hc])) (fun c hc => hb c (by simp [hc]))
      simp only [ToLower, List.map_cons, EqualFold, Bool.and_eq_true, List.cons.injEq] at this ⊢
      rw [unicodeToLower_ascii T x hx, foldEqRune_ascii T x y hx hy, this]

/-- The extension of a name without separator. -/
theorem extensionOf_no_sep (s : GoString) (h : '/' ∉ s) :
    extensionOf s = if '.' ∈ s then (s.reverse.takeWhile (· ≠ '.')).reverse else [] := by
  have hafter : afterLastSep s = s := by
    unfold afterLastSep
    have : s.reverse.takeWhile (fun x => decide (x ≠ '/')) = s.reverse := by
      rw [List.takeWhile_eq_self_iff]
      intro x hx
      have hx' := List.mem_reverse.mp hx
      have : x ≠ '/' := fun e => h (e ▸ hx')
      simpa using this
    rw [this, List.reverse_reverse]
  unfold extensionOf
  simp only [hafter]

theorem afterLastSep_no_sep (s : GoString) : '/' ∉ afterLastSep s := by
  unfold afterLastSep
  intro h
  have := List.mem_takeWhile_imp (List.mem_reverse.mp h)
  simp at this

theorem finalElem_of_no_trailing_sep (name : GoString) (h : name.getLast? ≠ some '/') :
    finalElem name = afterLastSep name := by
  unfold finalElem stripTrailingSep
  have hd : name.reverse.dropWhile (fun x => decide (x = '/')) = name.reverse := by
    rw [List.getLast?_eq_head?_reverse] at h
    cases hr : name.reverse with
    | nil => rfl
    | cons x xs =>
      rw [hr] at h
      have hx : x ≠ '/' := fun e => h (by rw [e]; rfl)
      simp [List.dropWhile, hx]
  rw [hd, List.reverse_reverse]

/-- C9: `ValidateExtension` answers `ErrBlockedExtension` exactly when the
lower-cased extension of the name (the text after the last dot of the final
path element, without the dot, empty when there is no dot) equals an element
of the list under `strings.EqualFold`, and `nil` otherwise; for ASCII text
that comparison is equality of the lower-cased strings.  The final path
element is the text after the last separator, which for a name that does not
end with a separator is the element `filepath.Base` extracts.  Only the last
extension counts, and a name without a dot has the empty extension. -/
theorem validateExtension_spec (T : CaseTables) (name : GoString) (blocked : List GoString) :
    (ValidateExtension T name blocked = some GoError.ErrBlockedExtension ↔
      ∃ b ∈ blocked, EqualFold T (ToLower T (extensionOf name)) b = true) ∧
    (ValidateExtension T name blocked = none ↔
      ¬∃ b ∈ blocked, EqualFold T (ToLower T (extensionOf name)) b = true) ∧
    (∀ b : GoString, (∀ c ∈ extensionOf name, c.toNat < 128) → (∀ c ∈ b, c.toNat < 128) →
      (EqualFold T (ToLower T (extensionOf name)) b = true ↔
        (extensionOf name).map asciiLower = b.map asciiLower)) ∧
    (name.getLast? ≠ some '/' → extensionOf name = extensionOf (finalElem name)) ∧
    extensionOf "shell.php.jpg".toList = "jpg".toList ∧
    extensionOf "up.d/README".toList = [] := by
  refine ⟨(validateExtension_blocked_iff T name blocked).1,
    (validateExtension_blocked_iff T name blocked).2, ?_, ?_, by decide, by decide⟩
  · intro b he hb
    exact equalFold_ascii T _ b he hb
  · intro h
    rw [finalElem_of_no_trailing_sep name h, extensionOf_no_sep _ (afterLastSep_no_sep name)]
    rfl

/-- Witness of `validateExtension_spec`: an upper-case extension of the
default list is blocked, a double extension is judged on its last part. -/
theorem validateExtension_spec_witness :
    ValidateExtension sampleTables "shell.PHP".toList DefaultBlockedExtensions =
        some GoError.ErrBlockedExtension ∧
      ValidateExtension sampleTables "shell.php.jpg".toList DefaultBlockedExtensions = none :=
  ⟨((validateExtension_spec sampleTables "shell.PHP".toList DefaultBlockedExtensions).1).mpr
      ⟨"php".toList, by decide, by decide⟩,
    ((validateExtension_spec sampleTables "shell.php.jpg".toList
      DefaultBlockedExtensions).2.1).mpr (by decide)⟩


/-! ## `UploadFile` -/

theorem equalFold_refl (T : CaseTables) : ∀ s : GoString, EqualFold T s s = true := by
  intro s
  induction s with
  | nil => rfl
  | cons c cs ih => simp [EqualFold, foldEqRune, ih]

theorem normRune_dot_iff (T : CaseTables) (c : Char) : normRune T c = '.' ↔ c = '.' := by
  rw [char_eq_iff_toNat (normRune T c) '.', char_eq_iff_toNat c '.']
  have e1 : '.'.toNat = 46 := rfl
  rw [e1]
  rcases normRune_cases T c with ⟨a, b, d⟩ | ⟨a, b, d, e⟩ | ⟨a, b⟩ | ⟨a, b⟩ | ⟨a, b⟩ | ⟨a, b⟩
  · omega
  · rw [e]
  · omega
  · omega
  · rw [b, a, toNat_0130]; decide
  · rw [b, a, toNat_212A]; decide

theorem normRune_eq_asciiLower (T : CaseTables) (c : Char)
    (h : isLowerDigit (asciiLower c) = true) : normRune T c = asciiLower c := by
  rw [isLowerDigit_iff] at h
  rcases asciiLower_toNat c with ⟨a, b, d⟩ | ⟨a, b⟩
  · rcases normRune_cases T c with ⟨_, _, d'⟩ | ⟨_, b', _⟩ | ⟨a', _⟩ | ⟨a', _⟩ | ⟨a', _⟩ | ⟨a', _⟩
    · exact char_eq_of_toNat (by omega)
    · exact absurd ⟨a, b⟩ b'
    · omega
    · omega
    · rw [a', toNat_0130] at b; omega
    · rw [a', toNat_212A] at b; omega
  · rw [b] at h ⊢
    rcases normRune_cases T c with ⟨a', b', _⟩ | ⟨_, _, _, e⟩ | ⟨a', _⟩ | ⟨a', _⟩ | ⟨a', _⟩ | ⟨a', _⟩
    · omega
    · exact e
    · omega
    · omega
    · rw [a', toNat_0130] at h; omega
    · rw [a', toNat_212A] at h; omega

/-- Normalizing a name without separator normalizes its extension. -/
theorem extensionOf_map_normRune (T : CaseTables) (s : GoString) (h : '/' ∉ s)
    (h' : '/' ∉ s.map (normRune T)) :
    extensionOf (s.map (normRune T)) = (extensionOf s).map (normRune T) := by
  rw [extensionOf_no_sep _ h, extensionOf_no_sep _ h']
  have hmem : '.' ∈ s.map (normRune T) ↔ '.' ∈ s := by
    simp only [List.mem_map]
    constructor
    · rintro ⟨c, hc, e⟩
      rw [(normRune_dot_iff T c).mp e] at hc
      exact hc
    · intro hc
      exact ⟨'.', hc, (normRune_dot_iff T '.').mpr rfl⟩
  by_cases hd : '.' ∈ s
  · rw [if_pos hd, if_pos (hmem.mpr hd), ← List.map_reverse, List.takeWhile_map,
      ← List.map_reverse]
    have hfun : ((fun x => decide (x ≠ '.')) ∘ normRune T) = fun x => decide (x ≠ '.') := by
      funext c
      simp only [Function.comp_apply, ne_eq, decide_not, normRune_dot_iff]
    rw [hfun]
  · rw [if_neg hd, if_neg (fun hh => hd (hmem.mp hh))]
    rfl


theorem toLower_fixed (T : CaseTables) (b : GoString)
    (h : ∀ c ∈ b, isLowerDigit c = true) : ToLower T b = b := by
  unfold ToLower
  conv_rhs => rw [← List.map_id b]
  apply List.map_congr_left
  intro c hc
  have hl := h c hc
  rw [isLowerDigit_iff] at hl
  rw [unicodeToLower_ascii T c (by omega)]
  rcases asciiLower_toNat c with ⟨a, b', _⟩ | ⟨_, e⟩
  · omega
  · exact e

/-- An accepted name whose raw extension is, up to letter case, a blocked
lower-case extension is refused by `ValidateExtension`. -/
theorem validateExtension_of_raw (T : CaseTables) (raw n b : GoString)
    (blocked : List GoString) (hvf : ValidateFilename T raw = (n, none))
    (hext : (extensionOf (finalElem raw)).map asciiLower = b) (hb : b ∈ blocked)
    (hlow : ∀ c ∈ b, isLowerDigit c = true) :
    ValidateExtension T n blocked = some GoError.ErrBlockedExtension := by
  obtain ⟨_, hn, _⟩ := validateFilename_ok_base T raw n hvf
  obtain ⟨_, hall⟩ := validateFilename_ok_runes T raw n hvf
  have hsep : '/' ∉ n := by
    intro hm
    rcases hall _ hm with h | h | h | h
    · exact absurd h (by decide)
    · exact absurd h (by decide)
    · exact absurd h (by decide)
    · exact absurd h (by decide)
  have hextn : extensionOf n = b := by
    have hfin : '/' ∉ finalElem raw := afterLastSep_no_sep _
    rw [hn, extensionOf_map_normRune T (finalElem raw) hfin (by rw [← hn]; exact hsep), ← hext]
    apply List.map_congr_left
    intro c hc
    apply normRune_eq_asciiLower
    apply hlow
    rw [← hext]
    exact List.mem_map_of_mem _ hc
  rw [(validateExtension_blocked_iff T n blocked).1]
  refine ⟨b, hb, ?_⟩
  rw [hextn, toLower_fixed T b hlow]
  exact equalFold_refl T b

theorem default_blocked_lower :
    ∀ b ∈ DefaultBlockedExtensions, ∀ c ∈ b, isLowerDigit c = true := by
  decide

theorem getSettings_default_blocked (T : CaseTables) (cfg : Config) (db : DB)
    (h : (GetSetting db "blocked_extensions".toList).getD [] = []) :
    (getSettings T cfg db).blockedExts = DefaultBlockedExtensions := by
  unfold getSettings
  simp only [h, ParseBlockedExtensions, if_true]

theorem uploadTarget_blockedExts (E : Env) (T : CaseTables) (cfg : Config) (w : World)
    (r : UploadRequest) (u : UploadTarget) (h : uploadTarget E T cfg w r = .ok u) :
    u.blockedExts = (getSettings T cfg w.db).blockedExts := by
  unfold uploadTarget at h
  simp only at h
  split at h
  · cases h
  · split at h
    · cases h
    · split at h
      · cases h
      · split at h
        · cases h
        · split at h
          · cases h
          · split at h
            · cases h
            · cases h
              rfl

/-- C10: under the built-in default blocklist (setting `blocked_extensions`
unset or empty), an upload that comes to its file part with a name that
`ValidateFilename` accepts and whose extension is, in any letter case, one of
the default blocked extensions is answered with status 400 and the text of
`ErrBlockedExtension`, and the file tree, the hash cache and the activity log
are unchanged; this for every content (also the empty one), every content
sniffer and every extension table, none of which is consulted. -/
theorem uploadFile_blocked_extension (E : Env) (L : Lib) (T : CaseTables) (cfg : Config)
    (w : World) (r : UploadRequest) (u : UploadTarget) (n : GoString)
    (hdef : (GetSetting w.db "blocked_extensions".toList).getD [] = [])
    (hu : uploadTarget E T cfg w r = .ok u)
    (hvf : ValidateFilename T u.headerFilename = (n, none))
    (hext : (extensionOf (finalElem u.headerFilename)).map asciiLower ∈
      DefaultBlockedExtensions) :
    UploadFile E L T cfg w r =
      (w, writeError 400 ("File type not allowed: ".toList ++
        GoError.ErrBlockedExtension.Error)) := by
  have hbl : u.blockedExts = DefaultBlockedExtensions := by
    rw [uploadTarget_blockedExts E T cfg w r u hu, getSettings_default_blocked T cfg w.db hdef]
  have hve := validateExtension_of_raw T u.headerFilename n _ DefaultBlockedExtensions hvf rfl
    hext (default_blocked_lower _ hext)
  unfold UploadFile
  simp only [hu, hvf, hbl, hve]

/-- Witness of `uploadFile_blocked_extension`: `Shell.PHP` with the empty
content. -/
theorem uploadFile_blocked_extension_witness :
    (GetSetting cdnDB "blocked_extensions".toList).getD [] = [] ∧
      uploadTarget noCwdEnv sampleTables defaultConfig ⟨cdnTree, cdnDB⟩ (shellUpload localPeer) =
        .ok { blockedExts := DefaultBlockedExtensions, targetDir := ['/'], overwrite := false,
              targetPath := "/srv/cdn".toList, headerFilename := "Shell.PHP".toList,
              body := [] } ∧
      ValidateFilename sampleTables "Shell.PHP".toList = ("shell.php".toList, none) ∧
      (extensionOf (finalElem "Shell.PHP".toList)).map asciiLower ∈ DefaultBlockedExtensions ∧
      UploadFile noCwdEnv plainLib sampleTables defaultConfig ⟨cdnTree, cdnDB⟩
          (shellUpload localPeer) =
        (⟨cdnTree, cdnDB⟩, writeError 400 ("File type not allowed: ".toList ++
          GoError.ErrBlockedExtension.Error)) :=
  ⟨by decide, by decide, by decide, by decide,
    uploadFile_blocked_extension noCwdEnv plainLib sampleTables defaultConfig ⟨cdnTree, cdnDB⟩
      (shellUpload localPeer)
      { blockedExts := DefaultBlockedExtensions, targetDir := ['/'], overwrite := false,
        targetPath := "/srv/cdn".toList, headerFilename := "Shell.PHP".toList, body := [] }
      "shell.php".toList (by decide) (by decide) (by decide) (by decide)⟩


/-! ## `ValidateMIME` -/

theorem validateMIME_eq (L : Lib) (name : GoString) (content : List Nat) :
    ValidateMIME L name content =
      if L.typeByExtension (Ext name) ≠ [] ∧
          baseType (L.detectContentType content) ≠ baseType (L.typeByExtension (Ext name)) ∧
          baseType (L.detectContentType content) ≠ "application/octet-stream".toList ∧
          isAllowedMIMEMismatch (baseType (L.typeByExtension (Ext name)))
            (baseType (L.detectContentType content)) = false then
        some GoError.ErrMIMEMismatch
      else none := by
  unfold ValidateMIME baseType
  simp only
  by_cases h1 : L.typeByExtension (Ext name) ≠ []
  · by_cases h2 : (Split (L.detectContentType content) ';').headD [] ≠
        (Split (L.typeByExtension (Ext name)) ';').headD [] ∧
        (Split (L.detectContentType content) ';').headD [] ≠ "application/octet-stream".toList
    · cases h3 : isAllowedMIMEMismatch ((Split (L.typeByExtension (Ext name)) ';').headD [])
          ((Split (L.detectContentType content) ';').headD [])
      · simp [h1, h2, h3]
      · simp [h1, h2, h3]
    · rw [if_pos h1, if_neg h2, if_neg]
      tauto
  · rw [if_neg h1, if_neg]
    tauto

theorem baseType_ne_nil_imp (m : GoString) (h : baseType m ≠ []) : m ≠ [] := by
  rintro rfl
  exact h rfl

/-- C11: when the extension maps to the expected base type `image/png` and
the content is sniffed as `text/plain`, `ValidateMIME` answers
`ErrMIMEMismatch`. -/
theorem validateMIME_png_text (L : Lib) (name : GoString) (content : List Nat)
    (he : baseType (L.typeByExtension (Ext name)) = "image/png".toList)
    (hd : baseType (L.detectContentType content) = "text/plain".toList) :
    ValidateMIME L name content = some GoError.ErrMIMEMismatch := by
  rw [validateMIME_eq, he, hd, if_pos]
  refine ⟨baseType_ne_nil_imp _ (by rw [he]; decide), by decide, by decide, by decide⟩

/-- Witness of `validateMIME_png_text`: `image.png` holding a shell script. -/
theorem validateMIME_png_text_witness :
    baseType ((pngLib "text/plain; charset=utf-8".toList).typeByExtension
        (Ext "image.png".toList)) = "image/png".toList ∧
      baseType ((pngLib "text/plain; charset=utf-8".toList).detectContentType
        [35, 33, 47, 98, 105, 110, 47, 115, 104]) = "text/plain".toList ∧
      ValidateMIME (pngLib "text/plain; charset=utf-8".toList) "image.png".toList
        [35, 33, 47, 98, 105, 110, 47, 115, 104] = some GoError.ErrMIMEMismatch :=
  ⟨by decide, by decide,
    validateMIME_png_text (pngLib "text/plain; charset=utf-8".toList) "image.png".toList
      [35, 33, 47, 98, 105, 110, 47, 115, 104] (by decide) (by decide)⟩

/-- C12: when the extension maps to the expected base type `text/css` (with
or without parameters) and the content is sniffed as `text/plain`,
`ValidateMIME` answers `nil`. -/
theorem validateMIME_css_text (L : Lib) (name : GoString) (content : List Nat)
    (he : baseType (L.typeByExtension (Ext name)) = "text/css".toList)
    (hd : baseType (L.detectContentType content) = "text/plain".toList) :
    ValidateMIME L name content = none := by
  rw [validateMIME_eq, he, hd, if_neg]
  intro h
  exact absurd h.2.2.2 (by decide)

/-- Witness of `validateMIME_css_text`: `style.css` holding plain ASCII. -/
theorem validateMIME_css_text_witness :
    baseType (cssLib.typeByExtension (Ext "style.css".toList)) = "text/css".toList ∧
      baseType (cssLib.detectContentType [98, 111, 100, 121, 123, 125]) =
        "text/plain".toList ∧
      ValidateMIME cssLib "style.css".toList [98, 111, 100, 121, 123, 125] = none :=
  ⟨by decide, by decide,
    validateMIME_css_text cssLib "style.css".toList [98, 111, 100, 121, 123, 125]
      (by decide) (by decide)⟩


theorem isAllowedMIMEMismatch_iff (e d : GoString) :
    isAllowedMIMEMismatch e d = true ↔
      (HasPrefix e "text/".toList = true ∧ d = "application/octet-stream".toList) ∨
        inCompatTable e d := by
  unfold isAllowedMIMEMismatch inCompatTable
  by_cases h1 : HasPrefix e "text/".toList = true ∧ d = "application/octet-stream".toList
  · simp only [h1, and_self, if_true, true_or]
  · rw [if_neg h1]
    by_cases h2 : e = "image/svg+xml".toList ∧
        (d = "text/xml".toList ∨ d = "text/plain".toList ∨ d = "text/html".toList ∨
          d = "application/xml".toList)
    · rw [if_pos h2]
      simp only [true_iff]
      right; left
      tauto
    · rw [if_neg h2]
      by_cases h3 : (e = "application/javascript".toList ∨ e = "text/javascript".toList) ∧
          d = "text/plain".toList
      · rw [if_pos h3]
        simp only [true_iff]
        right; right
        tauto
      · rw [if_neg h3]
        by_cases h4 : e = "text/css".toList ∧ d = "text/plain".toList
        · rw [if_pos h4]
          simp only [true_iff]
          right; right
          tauto
        · rw [if_neg h4]
          by_cases h5 : e = "application/json".toList ∧ d = "text/plain".toList
          · rw [if_pos h5]
            simp only [true_iff]
            right; right
            tauto
          · rw [if_neg h5]
            simp only [Bool.false_eq_true, false_iff]
            tauto

/-- C13 (as stated) fails: the expectation `image/png` sniffed as
`application/octet-stream` is accepted. -/
theorem validateMIME_png_octet_counterexample :
    (pngLib "application/octet-stream".toList).typeByExtension (Ext "image.png".toList) ≠ [] ∧
      baseType ((pngLib "application/octet-stream".toList).detectContentType [0, 1, 2]) ≠
        baseType ((pngLib "application/octet-stream".toList).typeByExtension
          (Ext "image.png".toList)) ∧
      ¬inCompatTable "image/png".toList "application/octet-stream".toList ∧
      HasPrefix "image/png".toList "text/".toList = false ∧
      ValidateMIME (pngLib "application/octet-stream".toList) "image.png".toList [0, 1, 2] =
        none := by
  refine ⟨by decide, by decide, ?_, by decide, by decide⟩
  unfold inCompatTable
  decide

/-- C13 (as amended): for a known expected type whose base type `e` differs
from the sniffed base type `d`, `ValidateMIME` answers `nil` exactly when `d`
is `application/octet-stream` (accepted for every expectation) or the pair is
in the compatibility table (`image/svg+xml` sniffed as an XML, plain-text or
HTML type; a JavaScript, CSS or JSON type sniffed as `text/plain`); every
other mismatching pair gives `ErrMIMEMismatch`. -/
theorem validateMIME_mismatch (L : Lib) (name : GoString) (content : List Nat)
    (hk : L.typeByExtension (Ext name) ≠ [])
    (hne : baseType (L.detectContentType content) ≠ baseType (L.typeByExtension (Ext name))) :
    (ValidateMIME L name content = none ↔
      baseType (L.detectContentType content) = "application/octet-stream".toList ∨
        inCompatTable (baseType (L.typeByExtension (Ext name)))
          (baseType (L.detectContentType content))) ∧
    (ValidateMIME L name content ≠ none →
      ValidateMIME L name content = some GoError.ErrMIMEMismatch) := by
  rw [validateMIME_eq]
  by_cases ho : baseType (L.detectContentType content) = "application/octet-stream".toList
  · rw [if_neg (by tauto)]
    exact ⟨⟨fun _ => Or.inl ho, fun _ => rfl⟩, fun h => absurd rfl h⟩
  · cases ha : isAllowedMIMEMismatch (baseType (L.typeByExtension (Ext name)))
        (baseType (L.detectContentType content))
    · rw [if_pos ⟨hk, hne, ho, rfl⟩]
      have hn := (isAllowedMIMEMismatch_iff _ _).not.mp (by rw [ha]; simp)
      refine ⟨⟨fun h => (by cases h), fun h => ?_⟩, fun _ => rfl⟩
      rcases h with h | h
      · exact absurd h ho
      · exact absurd (Or.inr h) hn
    · rw [if_neg (by simp)]
      have hp := (isAllowedMIMEMismatch_iff _ _).mp ha
      refine ⟨⟨fun _ => ?_, fun _ => rfl⟩, fun h => absurd rfl h⟩
      rcases hp with hp | hp
      · exact Or.inl hp.2
      · exact Or.inr hp

/-- Witness of `validateMIME_mismatch`: `image/png` sniffed as `text/html`. -/
theorem validateMIME_mismatch_witness :
    (pngLib "text/html; charset=utf-8".toList).typeByExtension (Ext "image.png".toList) ≠ [] ∧
      baseType ((pngLib "text/html; charset=utf-8".toList).detectContentType [60, 98, 62]) ≠
        baseType ((pngLib "text/html; charset=utf-8".toList).typeByExtension
          (Ext "image.png".toList)) ∧
      ValidateMIME (pngLib "text/html; charset=utf-8".toList) "image.png".toList [60, 98, 62] =
        some GoError.ErrMIMEMismatch :=
  ⟨by decide, by decide,
    (validateMIME_mismatch (pngLib "text/html; charset=utf-8".toList) "image.png".toList
      [60, 98, 62] (by decide) (by decide)).2 (by decide)⟩

/-! ## `ValidateParentExists` -/

/-- C14 fails on the code: below the root `/srv/cdn` the parent
`/srv/cdn/link` of the request `link/new.txt` is a symbolic link (to the
directory `/etc`), and `ValidateParentExists` succeeds. -/
theorem validateParentExists_symlink_parent :
    ValidatePath noCwdEnv "/srv/cdn".toList "link/new.txt".toList =
        ("/srv/cdn/link/new.txt".toList, none) ∧
      Dir "/srv/cdn/link/new.txt".toList = "/srv/cdn/link".toList ∧
      Lstat noCwdEnv linkedTree "/srv/cdn/link".toList =
        .ok { name := "link".toList, isDir := false, isSymlink := true, size := 4 } ∧
      ValidateParentExists noCwdEnv linkedTree "/srv/cdn".toList "link/new.txt".toList =
        ("/srv/cdn/link/new.txt".toList, none) := by
  decide


/-! ## `RenameFile`: conflicts -/

/-- C15 fails on the code: in `/srv/cdn` the destination `old` of the rename
of `a.txt` exists, as `os.Lstat` shows: it is a link whose target is missing.
`os.Stat`, which the handler asks, follows the link and fails, so no conflict
is reported: `RenameFile` answers 200, the link is replaced by the file, the
source is gone and the activity log has a new row. -/
theorem renameFile_dangling_destination :
    ValidatePathExists noCwdEnv staleLinkTree "/srv/cdn".toList "a.txt".toList =
        ("/srv/cdn/a.txt".toList, none) ∧
      ValidateFilename sampleTables "old".toList = ("old".toList, none) ∧
      Join (Dir "/srv/cdn/a.txt".toList) "old".toList = "/srv/cdn/old".toList ∧
      Lstat noCwdEnv staleLinkTree "/srv/cdn/old".toList =
        .ok { name := "old".toList, isDir := false, isSymlink := true, size := 8 } ∧
      Stat noCwdEnv staleLinkTree "/srv/cdn/old".toList = .error Errno.ENOENT ∧
      RenameFile noCwdEnv sampleTables defaultConfig ⟨staleLinkTree, cdnDB⟩
          ⟨localPeer, some ("a.txt".toList, "old".toList)⟩ =
        (⟨⟨[(["srv".toList], Node.dir),
            (["srv".toList, "cdn".toList], Node.dir),
            (["srv".toList, "cdn".toList, "old".toList], Node.file [104, 105])]⟩,
          ⟨[("base_directory".toList, "/srv/cdn".toList)], [],
            [("rename".toList, "a.txt -> /old".toList, "127.0.0.1".toList)]⟩⟩,
          { status := 200,
            body := [("message".toList, "File renamed successfully".toList),
              ("old_path".toList, "a.txt".toList), ("new_path".toList, "/old".toList)] }) := by
  refine ⟨by decide, by decide, by decide, by decide, by decide, by decide⟩

/-- Renaming `a.txt` to the existing `b.php` is answered with 400 (blocked
extension), not with the conflict status: the extension check comes first. -/
theorem renameFile_blocked_before_conflict :
    ValidatePathExists noCwdEnv docsTree "/srv/cdn".toList "a.txt".toList =
        ("/srv/cdn/a.txt".toList, none) ∧
      ValidateFilename sampleTables "b.php".toList = ("b.php".toList, none) ∧
      Join (Dir "/srv/cdn/a.txt".toList) "b.php".toList = "/srv/cdn/b.php".toList ∧
      (Stat noCwdEnv docsTree "/srv/cdn/b.php".toList).toBool = true ∧
      RenameFile noCwdEnv sampleTables defaultConfig ⟨docsTree, cdnDB⟩
          ⟨localPeer, some ("a.txt".toList, "b.php".toList)⟩ =
        (⟨docsTree, cdnDB⟩, writeError 400 ("File type not allowed: ".toList ++
          GoError.ErrBlockedExtension.Error)) := by
  decide

/-- Where `os.Stat` finds the destination: when the settings load, the source
validates, the new name normalizes and `os.Stat` succeeds on the destination (the source's
parent directory joined with the normalized name), `RenameFile` answers with
409 if the new name passes the extension check and with 400 if it does not;
either way the file tree, the hash cache and the activity log are unchanged. -/
theorem renameFile_conflict (E : Env) (T : CaseTables) (cfg : Config) (w : World)
    (r : RenameRequest) (path newNameRaw srcPath newName : GoString)
    (hset : (getSettings T cfg w.db).err = false)
    (hbody : r.body = some (path, newNameRaw))
    (hsrc : ValidatePathExists E w.fs (getSettings T cfg w.db).basePath path = (srcPath, none))
    (hname : ValidateFilename T newNameRaw = (newName, none))
    (hdst : (Stat E w.fs (Join (Dir srcPath) newName)).toBool = true) :
    (ValidateExtension T newName (getSettings T cfg w.db).blockedExts = none →
      RenameFile E T cfg w r =
        (w, writeError 409 "A file with this name already exists".toList)) ∧
    (∀ err, ValidateExtension T newName (getSettings T cfg w.db).blockedExts = some err →
      RenameFile E T cfg w r =
        (w, writeError 400 ("File type not allowed: ".toList ++ err.Error))) := by
  constructor
  · intro hext
    simp [RenameFile, renameArgs, hset, hbody, hsrc, hname, hext, hdst]
  · intro err hext
    simp [RenameFile, renameArgs, hset, hbody, hsrc, hname, hext]

/-- An instance of `renameFile_conflict`: renaming `a.txt` to the name of the
existing directory `docs`. -/
theorem renameFile_conflict_docs :
    (getSettings sampleTables defaultConfig cdnDB).err = false ∧
      ValidatePathExists noCwdEnv docsTree
          (getSettings sampleTables defaultConfig cdnDB).basePath "a.txt".toList =
        ("/srv/cdn/a.txt".toList, none) ∧
      ValidateFilename sampleTables "Docs".toList = ("docs".toList, none) ∧
      (Stat noCwdEnv docsTree (Join (Dir "/srv/cdn/a.txt".toList) "docs".toList)).toBool = true ∧
      RenameFile noCwdEnv sampleTables defaultConfig ⟨docsTree, cdnDB⟩
          ⟨localPeer, some ("a.txt".toList, "Docs".toList)⟩ =
        (⟨docsTree, cdnDB⟩, writeError 409 "A file with this name already exists".toList) :=
  ⟨by decide, by decide, by decide, by decide,
    (renameFile_conflict noCwdEnv sampleTables defaultConfig ⟨docsTree, cdnDB⟩
      ⟨localPeer, some ("a.txt".toList, "Docs".toList)⟩ "a.txt".toList "Docs".toList
      "/srv/cdn/a.txt".toList "docs".toList (by decide) rfl (by decide) (by decide)
      (by decide)).1 (by decide)⟩


/-! ## `DeleteFile`: the confirmation -/

/-- Resolution that ends on a node other than a link follows no last link. -/
theorem walk_follow (fs : FS) : ∀ (fuel links : Nat) (cur todo : List GoString) (r : Resolved),
    walk fs false fuel links cur todo = .ok r →
    (∀ loc t, r ≠ Resolved.found loc (Node.symlink t)) →
    walk fs true fuel links cur todo = .ok r := by
  intro fuel
  induction fuel with
  | zero => intro links cur todo r h; simp [walk] at h
  | succ n ih =>
    intro links cur todo r h hr
    cases todo with
    | nil => simpa [walk] using h
    | cons e rest =>
      rw [walk] at h ⊢
      by_cases h1 : e = [] ∨ e = ['.']
      · rw [if_pos h1] at h ⊢
        exact ih _ _ _ _ h hr
      · rw [if_neg h1] at h ⊢
        by_cases h2 : e = ['.', '.']
        · rw [if_pos h2] at h ⊢
          exact ih _ _ _ _ h hr
        · rw [if_neg h2] at h ⊢
          cases hn : fs.node (cur ++ [e]) with
          | none => rw [hn] at h; simpa using h
          | some nd =>
            rw [hn] at h
            cases nd with
            | file c => simpa using h
            | dir => exact ih _ _ _ _ h hr
            | symlink t =>
              simp only at h ⊢
              by_cases h3 : rest = []
              · simp only [h3, and_self, if_true, Except.ok.injEq] at h
                exact absurd h.symm (hr _ _)
              · simp only [h3, false_and, if_false] at h ⊢
                by_cases h4 : links = 0
                · rw [if_pos h4] at h; cases h
                · rw [if_neg h4] at h ⊢
                  exact ih _ _ _ _ h hr

theorem resolve_follow (E : Env) (fs : FS) (path : GoString) (r : Resolved)
    (h : resolve E fs false path = .ok r)
    (hr : ∀ loc t, r ≠ Resolved.found loc (Node.symlink t)) :
    resolve E fs true path = .ok r := by
  unfold resolve at h ⊢
  by_cases h1 : path = []
  · rw [if_pos h1] at h; cases h
  · rw [if_neg h1] at h ⊢
    by_cases h2 : IsAbs path = true
    · rw [if_pos h2] at h ⊢
      exact walk_follow fs _ _ _ _ r h hr
    · rw [if_neg h2] at h ⊢
      cases hw : E.getwd with
      | none => rw [hw] at h; cases h
      | some wd =>
        rw [hw] at h
        exact walk_follow fs _ _ _ _ r h hr

/-- On a path that is not a link `os.Stat` reports what `os.Lstat` reports. -/
theorem stat_of_lstat (E : Env) (fs : FS) (path : GoString) (info : FileInfo)
    (h : Lstat E fs path = .ok info) (hs : info.isSymlink = false) :
    Stat E fs path = .ok info := by
  unfold Lstat at h
  unfold Stat
  cases hr : resolve E fs false path with
  | error e => rw [hr] at h; cases h
  | ok r =>
    rw [hr] at h
    cases r with
    | absent p n => cases h
    | found loc n =>
      simp only [Except.ok.injEq] at h
      have hn : ∀ loc' t, Resolved.found loc n ≠ Resolved.found loc' (Node.symlink t) := by
        intro loc' t he
        simp only [Resolved.found.injEq] at he
        rw [he.2] at h
        rw [← h] at hs
        simp [fileInfo] at hs
      rw [resolve_follow E fs path _ hr hn]
      simp [h]

theorem lstat_name (E : Env) (fs : FS) (path : GoString) (info : FileInfo)
    (h : Lstat E fs path = .ok info) : info.name = Base path := by
  unfold Lstat at h
  cases hr : resolve E fs false path with
  | error e => rw [hr] at h; cases h
  | ok r =>
    rw [hr] at h
    cases r with
    | absent p n => cases h
    | found loc n =>
      simp only [Except.ok.injEq] at h
      rw [← h]
      cases n <;> rfl

/-- C16: a delete request for an existing target (the path validates and
`os.Lstat` finds it) whose `confirm_filename` differs from the target's base
name, the empty confirmation included, is answered with status 400 and the
file tree, the hash cache and the activity log are unchanged; when the target
is not a link the answer is the confirmation mismatch. -/
theorem deleteFile_confirmation_mismatch (E : Env) (T : CaseTables) (cfg : Config) (w : World)
    (r : DeleteRequest) (path confirm full : GoString) (info : FileInfo)
    (hset : (getSettings T cfg w.db).err = false)
    (hbody : r.body = some (path, confirm))
    (hv : ValidatePath E (getSettings T cfg w.db).basePath path = (full, none))
    (hl : Lstat E w.fs full = .ok info)
    (hc : confirm ≠ Base full) :
    (DeleteFile E T cfg w r).1 = w ∧ (DeleteFile E T cfg w r).2.status = 400 ∧
      (info.isSymlink = false →
        DeleteFile E T cfg w r =
          (w, writeError 400 "Filename confirmation does not match".toList)) ∧
      Base full ≠ [] := by
  have hbase : Base full ≠ [] := by
    rw [base_eq]
    split
    · simp
    · split
      · simp
      · assumption
  cases hsym : info.isSymlink
  · have hst := stat_of_lstat E w.fs full info hl hsym
    have hname := lstat_name E w.fs full info hl
    have hvpe : ValidatePathExists E w.fs (getSettings T cfg w.db).basePath path =
        (full, none) := by
      simp [ValidatePathExists, hv, hl, hsym]
    have hc' : confirm ≠ info.name := by rw [hname]; exact hc
    have hd : DeleteFile E T cfg w r =
        (w, writeError 400 "Filename confirmation does not match".toList) := by
      simp [DeleteFile, deleteTarget, hset, hbody, hvpe, hst, hc']
    exact ⟨by rw [hd], by rw [hd]; rfl, fun _ => hd, hbase⟩
  · have hvpe : ValidatePathExists E w.fs (getSettings T cfg w.db).basePath path =
        ([], some GoError.ErrSymlinkDetected) := by
      simp [ValidatePathExists, hv, hl, hsym]
    have hd : DeleteFile E T cfg w r =
        (w, writeError 400 ("Invalid path: ".toList ++ GoError.ErrSymlinkDetected.Error)) := by
      simp [DeleteFile, deleteTarget, hset, hbody, hvpe]
    exact ⟨by rw [hd], by rw [hd]; rfl, fun h => (by cases h), hbase⟩

/-- Witness of `deleteFile_confirmation_mismatch`: the confirmation differs
from the name `a.txt` in the case of one letter. -/
theorem deleteFile_confirmation_mismatch_witness :
    (getSettings sampleTables defaultConfig cdnDB).err = false ∧
      ValidatePath noCwdEnv (getSettings sampleTables defaultConfig cdnDB).basePath
          "a.txt".toList = ("/srv/cdn/a.txt".toList, none) ∧
      Lstat noCwdEnv docsTree "/srv/cdn/a.txt".toList =
        .ok { name := "a.txt".toList, isDir := false, isSymlink := false, size := 2 } ∧
      "A.txt".toList ≠ Base "/srv/cdn/a.txt".toList ∧
      DeleteFile noCwdEnv sampleTables defaultConfig ⟨docsTree, cdnDB⟩
          ⟨localPeer, some ("a.txt".toList, "A.txt".toList)⟩ =
        (⟨docsTree, cdnDB⟩, writeError 400 "Filename confirmation does not match".toList) :=
  ⟨by decide, by decide, by decide, by decide,
    (deleteFile_confirmation_mismatch noCwdEnv sampleTables defaultConfig ⟨docsTree, cdnDB⟩
      ⟨localPeer, some ("a.txt".toList, "A.txt".toList)⟩ "a.txt".toList "A.txt".toList
      "/srv/cdn/a.txt".toList
      { name := "a.txt".toList, isDir := false, isSymlink := false, size := 2 }
      (by decide) rfl (by decide) (by decide) (by decide)).2.2.1 rfl⟩


/-! ## The hash cache -/

/-- C17 fails on the code: with a cache entry under the key `/docs/a.txt`,
an upload of `a.txt` into the directory `docs` succeeds and stores the digest
under the key `docs/a.txt`; the metadata fetch for `/docs/a.txt` that follows
returns the old entry, not the digest of the uploaded bytes. -/
theorem upload_then_metadata_stale :
    (UploadFile noCwdEnv tagLib sampleTables defaultConfig ⟨docsTree, staleDB⟩
        (uploadInto "docs".toList [110, 101, 119])).2 =
      { status := 201,
        body := [("message".toList, "File uploaded successfully".toList),
          ("path".toList, "docs/a.txt".toList),
          ("sha256".toList, tagLib.sha256Hex [110, 101, 119])] } ∧
    ((GetMetadata noCwdEnv tagLib sampleTables (fun _ => 0) defaultConfig
        (UploadFile noCwdEnv tagLib sampleTables defaultConfig ⟨docsTree, staleDB⟩
          (uploadInto "docs".toList [110, 101, 119])).1 "/docs/a.txt".toList).2.toOption.map
      fun m => (m.FullPath, m.Size, m.SHA256)) =
      some ("/srv/cdn/docs/a.txt".toList, 3, "stale".toList) ∧
    "stale".toList ≠ tagLib.sha256Hex [110, 101, 119] := by
  decide

/-- C18 fails on the code, from an empty cache.  Two uploads of `a.txt`, into
`/docs` and then with other bytes into `docs`, leave the first digest under
the key `/docs/a.txt`, and `GetMetadata` serves it for the file that now
holds the second content.  An upload into `docs` followed by the deletion of
the directory `docs` leaves the entry `docs/a.txt` for a file that is gone. -/
theorem cache_keeps_stale_entries :
    Open noCwdEnv
        (UploadFile noCwdEnv tagLib sampleTables defaultConfig
          (UploadFile noCwdEnv tagLib sampleTables defaultConfig ⟨docsTree, cdnDB⟩
            (uploadInto "/docs".toList [111, 108, 100])).1
          (uploadInto "docs".toList [110, 101, 119])).1.fs "/srv/cdn/docs/a.txt".toList =
      .ok (Node.file [110, 101, 119]) ∧
    ((GetMetadata noCwdEnv tagLib sampleTables (fun _ => 0) defaultConfig
        (UploadFile noCwdEnv tagLib sampleTables defaultConfig
          (UploadFile noCwdEnv tagLib sampleTables defaultConfig ⟨docsTree, cdnDB⟩
            (uploadInto "/docs".toList [111, 108, 100])).1
          (uploadInto "docs".toList [110, 101, 119])).1 "/docs/a.txt".toList).2.toOption.map
      fun m => m.SHA256) = some (tagLib.sha256Hex [111, 108, 100]) ∧
    tagLib.sha256Hex [111, 108, 100] ≠ tagLib.sha256Hex [110, 101, 119] ∧
    (DeleteFile noCwdEnv sampleTables defaultConfig
        (UploadFile noCwdEnv tagLib sampleTables defaultConfig ⟨docsTree, cdnDB⟩
          (uploadInto "docs".toList [111, 108, 100])).1
        ⟨localPeer, some ("docs".toList, "docs".toList)⟩).2.status = 200 ∧
    Lstat noCwdEnv
        (DeleteFile noCwdEnv sampleTables defaultConfig
          (UploadFile noCwdEnv tagLib sampleTables defaultConfig ⟨docsTree, cdnDB⟩
            (uploadInto "docs".toList [111, 108, 100])).1
          ⟨localPeer, some ("docs".toList, "docs".toList)⟩).1.fs
        "/srv/cdn/docs/a.txt".toList = .error Errno.ENOENT ∧
    GetFileHash
        (DeleteFile noCwdEnv sampleTables defaultConfig
          (UploadFile noCwdEnv tagLib sampleTables defaultConfig ⟨docsTree, cdnDB⟩
            (uploadInto "docs".toList [111, 108, 100])).1
          ⟨localPeer, some ("docs".toList, "docs".toList)⟩).1.db "docs/a.txt".toList =
      some (tagLib.sha256Hex [111, 108, 100]) := by
  decide

/-! ## Paths that do not exist -/

/-- C19 fails on the code: for the path `missing.txt`, which stays inside the
root `/srv/cdn` and names no entry, the listing, metadata, rename, move,
replace and delete handlers all answer with status 400 and the text of
`ErrInvalidPath`. -/
theorem handlers_missing_path_status :
    ValidatePath noCwdEnv "/srv/cdn".toList "missing.txt".toList =
        ("/srv/cdn/missing.txt".toList, none) ∧
      Lstat noCwdEnv docsTree "/srv/cdn/missing.txt".toList = .error Errno.ENOENT ∧
      ListFiles noCwdEnv (insertionSortLib Handlers.FileInfo) sampleTables (fun _ => 0)
          (fun _ => 4096) (fun _ => false) defaultConfig ⟨docsTree, cdnDB⟩
          ⟨"missing.txt".toList, [], []⟩ =
        .error (writeError 400 "invalid path".toList) ∧
      GetMetadata noCwdEnv tagLib sampleTables (fun _ => 0) defaultConfig ⟨docsTree, cdnDB⟩
          "missing.txt".toList =
        (⟨docsTree, cdnDB⟩, .error (writeError 400 "invalid path".toList)) ∧
      RenameFile noCwdEnv sampleTables defaultConfig ⟨docsTree, cdnDB⟩
          ⟨localPeer, some ("missing.txt".toList, "new.txt".toList)⟩ =
        (⟨docsTree, cdnDB⟩, writeError 400 "Invalid source path: invalid path".toList) ∧
      MoveFile noCwdEnv sampleTables defaultConfig ⟨docsTree, cdnDB⟩
          ⟨localPeer, some ("missing.txt".toList, "docs".toList)⟩ =
        (⟨docsTree, cdnDB⟩, writeError 400 "Invalid source path: invalid path".toList) ∧
      ReplaceFile noCwdEnv tagLib sampleTables defaultConfig ⟨docsTree, cdnDB⟩
          ⟨localPeer, fun _ => .ok ⟨"missing.txt".toList, some ("x.txt".toList, [120])⟩⟩ =
        (⟨docsTree, cdnDB⟩, writeError 400 "Invalid path: invalid path".toList) ∧
      DeleteFile noCwdEnv sampleTables defaultConfig ⟨docsTree, cdnDB⟩
          ⟨localPeer, some ("missing.txt".toList, "missing.txt".toList)⟩ =
        (⟨docsTree, cdnDB⟩, writeError 400 "Invalid path: invalid path".toList) := by
  decide


/-! ## `sortFiles` -/

theorem strLess_irrefl : ∀ a : GoString, strLess a a = false := by
  intro a
  induction a with
  | nil => rfl
  | cons x xs ih => simp [strLess, ih]

theorem strLess_trans : ∀ a b c : GoString,
    strLess a b = true → strLess b c = true → strLess a c = true := by
  intro a
  induction a with
  | nil =>
    intro b c h1 h2
    cases b with
    | nil => simp [strLess] at h1
    | cons y ys =>
      cases c with
      | nil => simp [strLess] at h2
      | cons z zs => rfl
  | cons x xs ih =>
    intro b c h1 h2
    cases b with
    | nil => simp [strLess] at h1
    | cons y ys =>
      cases c with
      | nil => simp [strLess] at h2
      | cons z zs =>
        simp only [strLess] at h1 h2 ⊢
        by_cases hxy : x.toNat < y.toNat
        · by_cases hyz : y.toNat < z.toNat
          · rw [if_pos (by omega)]
          · rw [if_neg hyz] at h2
            by_cases hzy : z.toNat < y.toNat
            · rw [if_pos hzy] at h2; cases h2
            · rw [if_pos (by omega)]
        · rw [if_neg hxy] at h1
          by_cases hyx : y.toNat < x.toNat
          · rw [if_pos hyx] at h1; cases h1
          · rw [if_neg hyx] at h1
            by_cases hyz : y.toNat < z.toNat
            · rw [if_pos (by omega)]
            · rw [if_neg hyz] at h2
              by_cases hzy : z.toNat < y.toNat
              · rw [if_pos hzy] at h2; cases h2
              · rw [if_neg hzy] at h2
                rw [if_neg (by omega), if_neg (by omega)]
                exact ih ys zs h1 h2

theorem strLess_negtrans : ∀ a b c : GoString,
    strLess a b = false → strLess b c = false → strLess a c = false := by
  intro a
  induction a with
  | nil =>
    intro b c h1 h2
    cases b with
    | nil => exact h2
    | cons y ys => simp [strLess] at h1
  | cons x xs ih =>
    intro b c h1 h2
    cases c with
    | nil => rfl
    | cons z zs =>
      cases b with
      | nil => simp [strLess] at h2
      | cons y ys =>
        simp only [strLess] at h1 h2 ⊢
        by_cases hxy : x.toNat < y.toNat
        · rw [if_pos hxy] at h1; cases h1
        · rw [if_neg hxy] at h1
          by_cases hyz : y.toNat < z.toNat
          · rw [if_pos hyz] at h2; cases h2
          · rw [if_neg hyz] at h2
            rw [if_neg (by omega)]
            by_cases hyx : y.toNat < x.toNat
            · rw [if_pos (by omega)]
            · rw [if_neg hyx] at h1
              by_cases hzy : z.toNat < y.toNat
              · rw [if_pos (by omega)]
              · rw [if_neg hzy] at h2
                rw [if_neg (by omega)]
                exact ih ys zs h1 h2

theorem keyLess_trans (T : CaseTables) (sortBy : GoString) (a b c : Handlers.FileInfo)
    (h1 : keyLess T sortBy a b = true) (h2 : keyLess T sortBy b c = true) :
    keyLess T sortBy a c = true := by
  unfold keyLess at *
  split
  · rename_i h; simp only [h, if_true, decide_eq_true_eq] at h1 h2 ⊢; omega
  · rename_i h
    split
    · rename_i h'
      rw [if_neg h, if_pos h'] at h1 h2
      simp only [decide_eq_true_eq] at h1 h2 ⊢; omega
    · rename_i h'
      rw [if_neg h, if_neg h'] at h1 h2
      exact strLess_trans _ _ _ h1 h2

theorem keyLess_negtrans (T : CaseTables) (sortBy : GoString) (a b c : Handlers.FileInfo)
    (h1 : keyLess T sortBy a b = false) (h2 : keyLess T sortBy b c = false) :
    keyLess T sortBy a c = false := by
  unfold keyLess at *
  split
  · rename_i h; simp only [h, if_true, decide_eq_false_iff_not] at h1 h2 ⊢; omega
  · rename_i h
    split
    · rename_i h'
      rw [if_neg h, if_pos h'] at h1 h2
      simp only [decide_eq_false_iff_not] at h1 h2 ⊢; omega
    · rename_i h'
      rw [if_neg h, if_neg h'] at h1 h2
      exact strLess_negtrans _ _ _ h1 h2

theorem sortLess_eq (T : CaseTables) (sortBy : GoString) (desc : Bool)
    (a b : Handlers.FileInfo) :
    sortLess T sortBy desc a b =
      if a.IsDir ≠ b.IsDir then a.IsDir
      else if desc then !keyLess T sortBy a b else keyLess T sortBy a b := rfl

theorem sortLess_trans (T : CaseTables) (sortBy : GoString) (desc : Bool)
    (a b c : Handlers.FileInfo) (h1 : sortLess T sortBy desc a b = true)
    (h2 : sortLess T sortBy desc b c = true) : sortLess T sortBy desc a c = true := by
  rw [sortLess_eq] at h1 h2 ⊢
  have ht := keyLess_trans T sortBy a b c
  have hn := keyLess_negtrans T sortBy a b c
  cases ha : a.IsDir <;> cases hb : b.IsDir <;> cases hc : c.IsDir <;>
    cases desc <;> simp_all

theorem sortLess_negtrans (T : CaseTables) (sortBy : GoString) (desc : Bool)
    (a b c : Handlers.FileInfo) (h1 : sortLess T sortBy desc a b = false)
    (h2 : sortLess T sortBy desc b c = false) : sortLess T sortBy desc a c = false := by
  rw [sortLess_eq] at h1 h2 ⊢
  have ht := keyLess_trans T sortBy a b c
  have hn := keyLess_negtrans T sortBy a b c
  cases ha : a.IsDir <;> cases hb : b.IsDir <;> cases hc : c.IsDir <;>
    cases desc <;> simp_all

/-- What the contract of `sort.Slice` gives for `sortFiles`. -/
theorem sortFiles_sorted (S : SortLib Handlers.FileInfo) (T : CaseTables)
    (files : List Handlers.FileInfo) (sortBy : GoString) (desc : Bool) :
    (sortFiles S T files sortBy desc).Pairwise fun a b =>
      sortLess T sortBy desc a b = true ∨ sortLess T sortBy desc b a = false :=
  S.sorted _ files (sortLess_trans T sortBy desc) (sortLess_negtrans T sortBy desc)

/-- C20: for every list of entries, every sort key and both directions, in
the result of `sortFiles` (a rearrangement of the entries) no entry that is
not a directory stands before a directory. -/
theorem sortFiles_dirs_first (S : SortLib Handlers.FileInfo) (T : CaseTables)
    (files : List Handlers.FileInfo) (sortBy : GoString) (desc : Bool) :
    (sortFiles S T files sortBy desc).Perm files ∧
      (sortFiles S T files sortBy desc).Pairwise fun a b => b.IsDir = true → a.IsDir = true := by
  refine ⟨S.perm _ files, ?_⟩
  refine (sortFiles_sorted S T files sortBy desc).imp ?_
  intro a b h hb
  rw [sortLess_eq, sortLess_eq] at h
  cases ha : a.IsDir
  · rw [ha, hb] at h
    simp at h
  · rfl

/-- An instance of `sortFiles_dirs_first`: sorting by name, descending, with
insertion sort puts `Docs` first. -/
theorem sortFiles_dirs_first_witness :
    (sortFiles (insertionSortLib Handlers.FileInfo) sampleTables sampleEntries "name".toList
        true).map (fun e => e.Name) = ["Docs".toList, "b.txt".toList, "a.txt".toList] ∧
      (sortFiles (insertionSortLib Handlers.FileInfo) sampleTables sampleEntries "name".toList
        true).Pairwise fun a b => b.IsDir = true → a.IsDir = true :=
  ⟨by decide,
    (sortFiles_dirs_first (insertionSortLib Handlers.FileInfo) sampleTables sampleEntries
      "name".toList true).2⟩


/-! ## `sortFiles`: the order of the keys -/

theorem strLess_total : ∀ a b : GoString,
    strLess a b = false → strLess b a = false → a = b := by
  intro a
  induction a with
  | nil =>
    intro b h1 _
    cases b with
    | nil => rfl
    | cons y ys => simp [strLess] at h1
  | cons x xs ih =>
    intro b h1 h2
    cases b with
    | nil => simp [strLess] at h2
    | cons y ys =>
      simp only [strLess] at h1 h2
      by_cases hxy : x.toNat < y.toNat
      · rw [if_pos hxy] at h1; cases h1
      · rw [if_neg hxy] at h1
        by_cases hyx : y.toNat < x.toNat
        · rw [if_pos hyx] at h2; cases h2
        · rw [if_neg hyx] at h1 h2
          rw [if_neg hxy] at h2
          have hc : x = y := char_eq_of_toNat (by omega)
          rw [hc, ih ys h1 h2]

theorem strLess_asymm (a b : GoString) (h : strLess a b = true) : strLess b a = false := by
  cases hb : strLess b a
  · rfl
  · have := strLess_trans a b a h hb
    rw [strLess_irrefl] at this
    cases this

theorem keyLess_false_iff (T : CaseTables) (sortBy : GoString) (a b : Handlers.FileInfo) :
    keyLess T sortBy b a = false ↔ keyLe T sortBy a b := by
  unfold keyLess keyLe
  by_cases h1 : sortBy = "size".toList
  · rw [if_pos h1, if_pos h1]
    simp only [decide_eq_false_iff_not]
    omega
  · rw [if_neg h1, if_neg h1]
    by_cases h2 : sortBy = "modified".toList
    · rw [if_pos h2, if_pos h2]
      simp only [decide_eq_false_iff_not]
      omega
    · rw [if_neg h2, if_neg h2]
      constructor
      · intro h
        cases hab : strLess (ToLower T a.Name) (ToLower T b.Name)
        · exact Or.inr (strLess_total _ _ hab h)
        · exact Or.inl rfl
      · rintro (h | h)
        · exact strLess_asymm _ _ h
        · rw [h]; exact strLess_irrefl _

theorem keyLess_true_imp (T : CaseTables) (sortBy : GoString) (a b : Handlers.FileInfo)
    (h : keyLess T sortBy a b = true) : keyLe T sortBy a b := by
  rw [← keyLess_false_iff]
  cases hb : keyLess T sortBy b a
  · rfl
  · have h1 := keyLess_trans T sortBy a b a h hb
    have h2 : keyLess T sortBy a a = false := by
      unfold keyLess
      split
      · simp
      · split
        · simp
        · exact strLess_irrefl _
    rw [h2] at h1
    cases h1

/-- The order of two entries of one kind, the first before the second in the
result of `sortFiles`. -/
theorem sortFiles_pairwise_key (S : SortLib Handlers.FileInfo) (T : CaseTables)
    (files : List Handlers.FileInfo) (sortBy : GoString) (desc : Bool) :
    (sortFiles S T files sortBy desc).Pairwise fun a b =>
      a.IsDir = b.IsDir → if desc = true then keyLe T sortBy b a else keyLe T sortBy a b := by
  refine (sortFiles_sorted S T files sortBy desc).imp ?_
  intro a b h hk
  rw [sortLess_eq, sortLess_eq] at h
  have hk' : ¬ a.IsDir ≠ b.IsDir := fun hn => hn hk
  have hk'' : ¬ b.IsDir ≠ a.IsDir := fun hn => hn hk.symm
  rw [if_neg hk', if_neg hk''] at h
  cases desc
  · simp only [Bool.false_eq_true, if_false] at h ⊢
    rcases h with h | h
    · exact keyLess_true_imp T sortBy a b h
    · exact (keyLess_false_iff T sortBy a b).mp h
  · simp only [if_true, Bool.not_eq_true', Bool.not_eq_false'] at h ⊢
    rcases h with h | h
    · exact (keyLess_false_iff T sortBy b a).mp h
    · exact keyLess_true_imp T sortBy b a h


/-- A directory that `os.ReadDir` reads is a directory for `os.Stat`. -/
theorem stat_of_readDir (E : Env) (fs : FS) (path : GoString)
    (entries : List (GoString × Node)) (h : ReadDir E fs path = .ok entries) :
    Stat E fs path = .ok (fileInfo path Node.dir) := by
  unfold ReadDir at h
  unfold Stat
  cases hr : resolve E fs true path with
  | error e => rw [hr] at h; cases h
  | ok res =>
    rw [hr] at h
    cases res with
    | absent parent name => cases h
    | found loc n =>
      cases n with
      | dir => rfl
      | file c => cases h
      | symlink t => cases h

/-- The answer of `ListFiles` for a path that validates and names a directory
that can be read: the entries of the loop, sorted for the query parameters
`sort` and `dir`, descending exactly for `dir=desc`. -/
theorem listFiles_of_readDir (E : Env) (S : SortLib Handlers.FileInfo) (T : CaseTables)
    (modTime dirSize : GoString → Int) (infoFails : GoString → Bool) (cfg : Config) (w : World)
    (r : ListRequest) (fullPath : GoString) (entries : List (GoString × Node))
    (hset : (getSettings T cfg w.db).err = false)
    (hv : ValidatePathExists E w.fs (getSettings T cfg w.db).basePath
      (if r.path = [] then ['/'] else r.path) = (fullPath, none))
    (hread : ReadDir E w.fs fullPath = .ok entries) :
    ListFiles E S T modTime dirSize infoFails cfg w r =
      .ok { Path := if r.path = [] then ['/'] else r.path,
            Files := sortFiles S T
              (listEntries T modTime dirSize infoFails fullPath
                (if r.path = [] then ['/'] else r.path) entries)
              r.sort (decide (r.dir = "desc".toList)) } := by
  simp [ListFiles, hset, hv, stat_of_readDir E w.fs fullPath entries hread, fileInfo, hread]

/-- C21: the result of `sortFiles` is a rearrangement of the entries in which
any two entries of one kind, the first before the second (adjacent ones in
particular), have keys in non-decreasing order when `desc` is false and in
non-increasing order when it is true; the key is `Size` for `size`,
`Modified` for `modified` and the lower-cased `Name` otherwise (the empty key
included).  For a path that validates and names a readable directory
`ListFiles` answers with the entries of its loop sorted so, descending exactly
when the query parameter `dir` is `desc`; without parameters the listing is
ascending by lower-cased name. -/
theorem sortFiles_key_order (S : SortLib Handlers.FileInfo) (T : CaseTables)
    (files : List Handlers.FileInfo) (sortBy : GoString) (desc : Bool) :
    (sortFiles S T files sortBy desc).Perm files ∧
      ((sortFiles S T files sortBy desc).Pairwise fun a b =>
        a.IsDir = b.IsDir →
          if desc = true then keyLe T sortBy b a else keyLe T sortBy a b) ∧
      ((sortFiles S T files sortBy desc).Chain' fun a b =>
        a.IsDir = b.IsDir →
          if desc = true then keyLe T sortBy b a else keyLe T sortBy a b) ∧
      (∀ (E : Env) (modTime dirSize : GoString → Int) (infoFails : GoString → Bool)
        (cfg : Config) (w : World) (r : ListRequest) (fullPath : GoString)
        (entries : List (GoString × Node)),
        (getSettings T cfg w.db).err = false →
        ValidatePathExists E w.fs (getSettings T cfg w.db).basePath
          (if r.path = [] then ['/'] else r.path) = (fullPath, none) →
        ReadDir E w.fs fullPath = .ok entries →
        ∃ listed : List Handlers.FileInfo,
          ListFiles E S T modTime dirSize infoFails cfg w r =
            .ok { Path := if r.path = [] then ['/'] else r.path, Files := listed } ∧
          listed = sortFiles S T
            (listEntries T modTime dirSize infoFails fullPath
              (if r.path = [] then ['/'] else r.path) entries)
            r.sort (decide (r.dir = "desc".toList)) ∧
          listed.Perm (listEntries T modTime dirSize infoFails fullPath
            (if r.path = [] then ['/'] else r.path) entries) ∧
          (listed.Chain' fun a b =>
            a.IsDir = b.IsDir →
              if r.dir = "desc".toList then keyLe T r.sort b a else keyLe T r.sort a b)) ∧
      (∀ a b : Handlers.FileInfo, keyLe T [] a b ↔
        (strLess (ToLower T a.Name) (ToLower T b.Name) = true ∨
          ToLower T a.Name = ToLower T b.Name)) := by
  refine ⟨S.perm _ _, sortFiles_pairwise_key S T files sortBy desc,
    (sortFiles_pairwise_key S T files sortBy desc).chain', ?_, ?_⟩
  · intro E modTime dirSize infoFails cfg w r fullPath entries hset hv hread
    refine ⟨_, listFiles_of_readDir E S T modTime dirSize infoFails cfg w r fullPath entries
      hset hv hread, rfl, S.perm _ _, ?_⟩
    have := (sortFiles_pairwise_key S T
      (listEntries T modTime dirSize infoFails fullPath
        (if r.path = [] then ['/'] else r.path) entries)
      r.sort (decide (r.dir = "desc".toList))).chain'
    simpa using this
  · intro a b
    unfold keyLe
    rw [if_neg (by decide), if_neg (by decide)]

/-- An instance of `sortFiles_key_order`: the listing of the root of
`namesTree` without query parameters and with `dir=desc` (directories first,
then the files by lower-cased name; the link is left out), and the sample
entries sorted by modification time, descending, with insertion sort. -/
theorem sortFiles_key_order_witness :
    (getSettings sampleTables defaultConfig cdnDB).err = false ∧
      ValidatePathExists noCwdEnv namesTree (getSettings sampleTables defaultConfig cdnDB).basePath
        ['/'] = ("/srv/cdn".toList, none) ∧
      (ReadDir noCwdEnv namesTree "/srv/cdn".toList).toBool = true ∧
      (ListFiles noCwdEnv (insertionSortLib Handlers.FileInfo) sampleTables (fun _ => 0)
        (fun _ => 4096) (fun _ => false) defaultConfig ⟨namesTree, cdnDB⟩ ⟨[], [], []⟩).map
          (fun resp => (resp.Path, resp.Files.map fun e => (e.Name, e.IsDir, e.Size))) =
        .ok ("/".toList, [("docs".toList, true, 4096), ("a.txt".toList, false, 2),
          ("B.txt".toList, false, 3), ("c.txt".toList, false, 0)]) ∧
      (ListFiles noCwdEnv (insertionSortLib Handlers.FileInfo) sampleTables (fun _ => 0)
        (fun _ => 4096) (fun _ => false) defaultConfig ⟨namesTree, cdnDB⟩
          ⟨[], [], "desc".toList⟩).map
          (fun resp => resp.Files.map fun e => e.Name) =
        .ok ["docs".toList, "c.txt".toList, "B.txt".toList, "a.txt".toList] ∧
      (sortFiles (insertionSortLib Handlers.FileInfo) sampleTables sampleEntries "modified".toList
        true).map (fun e => e.Name) = ["Docs".toList, "b.txt".toList, "a.txt".toList] ∧
      (∃ listed : List Handlers.FileInfo,
        ListFiles noCwdEnv (insertionSortLib Handlers.FileInfo) sampleTables (fun _ => 0)
            (fun _ => 4096) (fun _ => false) defaultConfig ⟨namesTree, cdnDB⟩ ⟨[], [], []⟩ =
          .ok { Path := ['/'], Files := listed } ∧
        (listed.Chain' fun a b =>
          a.IsDir = b.IsDir → keyLe sampleTables [] a b)) := by
  refine ⟨by decide, by decide, by decide, by decide, by decide, by decide, ?_⟩
  obtain ⟨listed, h1, _, _, h4⟩ :=
    (sortFiles_key_order (insertionSortLib Handlers.FileInfo) sampleTables sampleEntries
      "modified".toList true).2.2.2.1 noCwdEnv (fun _ => 0) (fun _ => 4096) (fun _ => false)
      defaultConfig ⟨namesTree, cdnDB⟩ ⟨[], [], []⟩ "/srv/cdn".toList
      ((ReadDir noCwdEnv namesTree "/srv/cdn".toList).toOption.getD [])
      (by decide) (by decide) (by decide)
  exact ⟨listed, h1, by simpa using h4⟩


/-! ## `ParseBlockedExtensions` -/

theorem parseLoop_eq (T : CaseTables) (fields : List GoString) :
    parseLoop T fields = ((fields.map TrimSpace).filter fun p => p ≠ []).map (ToLower T) := by
  induction fields with
  | nil => rfl
  | cons p rest ih =>
    by_cases h : TrimSpace p = []
    · simp [parseLoop, h, ih]
    · simp [parseLoop, h, ih]

theorem unicodeToLower_not_upper (T : CaseTables) (c : Char) :
    ¬(65 ≤ (unicodeToLower T c).toNat ∧ (unicodeToLower T c).toNat ≤ 90) := by
  rcases unicodeToLower_cases T c with ⟨h1, h2, h3⟩ | ⟨h1, h2, h3⟩ | ⟨h1, h2⟩ | ⟨_, h2⟩ | ⟨_, h2⟩
  · omega
  · rw [h3]; exact h2
  · omega
  · rw [h2]; decide
  · rw [h2]; decide

theorem default_blocked_ne_nil : ∀ e ∈ DefaultBlockedExtensions, e ≠ [] := by
  decide

/-- Lower-casing a rune twice gives what lower-casing it once gives, when the
table of `unicode.ToLower` has that property. -/
theorem unicodeToLower_idem (T : CaseTables) (hT : ∀ c, T.lower (T.lower c) = T.lower c)
    (c : Char) : unicodeToLower T (unicodeToLower T c) = unicodeToLower T c := by
  have hnu := unicodeToLower_not_upper T c
  by_cases hd : (unicodeToLower T c).toNat ≤ 127
  · generalize unicodeToLower T c = d at hnu hd
    have hA : 'A'.toNat = 65 := rfl
    have hZ : 'Z'.toNat = 90 := rfl
    unfold unicodeToLower
    rw [if_pos hd, if_neg (by rw [hA, hZ]; exact hnu)]
  · have hc : ¬ c.toNat ≤ 127 := by
      intro hc
      rcases unicodeToLower_cases T c with ⟨_, _, h3⟩ | ⟨_, _, h3⟩ | ⟨h1, _⟩ | ⟨_, h2⟩ | ⟨_, h2⟩
      · omega
      · rw [h3] at hd; exact hd hc
      · omega
      · rw [h2] at hd; exact hd (by decide)
      · rw [h2] at hd; exact hd (by decide)
    have e : unicodeToLower T c = T.lower c := by
      unfold unicodeToLower
      rw [if_neg hc]
    rw [e] at hd ⊢
    unfold unicodeToLower
    rw [if_neg hd]
    exact hT c

theorem toLower_idem (T : CaseTables) (hT : ∀ c, T.lower (T.lower c) = T.lower c)
    (p : GoString) : ToLower T (ToLower T p) = ToLower T p := by
  unfold ToLower
  rw [List.map_map]
  apply List.map_congr_left
  intro c _
  exact unicodeToLower_idem T hT c

theorem sampleTables_lower_idem (c : Char) :
    sampleTables.lower (sampleTables.lower c) = sampleTables.lower c := by
  show (if (if c = Char.ofNat 0x130 then 'i' else if c = Char.ofNat 0x212A then 'k' else c) =
      Char.ofNat 0x130 then 'i'
    else if (if c = Char.ofNat 0x130 then 'i' else if c = Char.ofNat 0x212A then 'k' else c) =
      Char.ofNat 0x212A then 'k'
    else (if c = Char.ofNat 0x130 then 'i' else if c = Char.ofNat 0x212A then 'k' else c)) =
    (if c = Char.ofNat 0x130 then 'i' else if c = Char.ofNat 0x212A then 'k' else c)
  by_cases h1 : c = Char.ofNat 0x130
  · rw [if_pos h1]; decide
  · rw [if_neg h1]
    by_cases h2 : c = Char.ofNat 0x212A
    · rw [if_pos h2]; decide
    · rw [if_neg h2, if_neg h1, if_neg h2]

/-- C22: `ParseBlockedExtensions` returns the built-in default blocklist for
the empty input, and for every non-empty input the comma-separated fields in
input order, surrounding whitespace trimmed, empty fields dropped,
lower-cased.  So every element of the result is non-empty and lower-case: it
is a value of `strings.ToLower`, it has no upper-case ASCII letter, and
`strings.ToLower` leaves it as it is (the table of `unicode.ToLower` mapping
its own values to themselves).  The input `,` gives the empty list, not the
default. -/
theorem parseBlockedExtensions_spec (T : CaseTables) (s : GoString) :
    ParseBlockedExtensions T [] = DefaultBlockedExtensions ∧
      (s ≠ [] → ParseBlockedExtensions T s = parsedFields T s) ∧
      (∀ e ∈ ParseBlockedExtensions T s,
        e ≠ [] ∧ (∃ x, ToLower T x = e) ∧
          (∀ c ∈ e, ¬('A'.toNat ≤ c.toNat ∧ c.toNat ≤ 'Z'.toNat)) ∧
          ((∀ c, T.lower (T.lower c) = T.lower c) → ToLower T e = e)) ∧
      ParseBlockedExtensions T [','] = [] ∧
      ParseBlockedExtensions T [','] ≠ DefaultBlockedExtensions := by
  have hne : s ≠ [] → ParseBlockedExtensions T s = parsedFields T s := by
    intro h
    unfold ParseBlockedExtensions parsedFields
    rw [if_neg h, parseLoop_eq]
  have hcomma : ParseBlockedExtensions T [','] = [] := by
    unfold ParseBlockedExtensions
    rw [if_neg (by decide), parseLoop_eq]
    rfl
  refine ⟨rfl, hne, ?_, hcomma, ?_⟩
  · intro e he
    by_cases h : s = []
    · subst h
      have he' : e ∈ DefaultBlockedExtensions := he
      have hl := default_blocked_lower e he'
      refine ⟨default_blocked_ne_nil e he', ⟨e, toLower_fixed T e hl⟩, ?_,
        fun _ => toLower_fixed T e hl⟩
      intro c hc
      have := hl c hc
      rw [isLowerDigit_iff] at this
      have e1 : 'A'.toNat = 65 := rfl
      have e2 : 'Z'.toNat = 90 := rfl
      omega
    · rw [hne h] at he
      unfold parsedFields at he
      obtain ⟨p, hp, rfl⟩ := List.mem_map.mp he
      have hp' := (List.mem_filter.mp hp).2
      refine ⟨?_, ⟨p, rfl⟩, ?_, fun hT => toLower_idem T hT p⟩
      · intro hnil
        have : p = [] := by
          unfold ToLower at hnil
          exact List.map_eq_nil_iff.mp hnil
        simp [this] at hp'
      · intro c hc
        unfold ToLower at hc
        obtain ⟨x, _, rfl⟩ := List.mem_map.mp hc
        exact unicodeToLower_not_upper T x
  · rw [hcomma]
    decide

/-- An instance of `parseBlockedExtensions_spec`: a setting with blanks,
capitals and empty fields. -/
theorem parseBlockedExtensions_spec_witness :
    " PHP, ,Exe ,".toList ≠ [] ∧
      ParseBlockedExtensions sampleTables " PHP, ,Exe ,".toList =
        ["php".toList, "exe".toList] ∧
      parsedFields sampleTables " PHP, ,Exe ,".toList = ["php".toList, "exe".toList] ∧
      (∀ c, sampleTables.lower (sampleTables.lower c) = sampleTables.lower c) ∧
      ToLower sampleTables "exe".toList = "exe".toList :=
  ⟨by decide, by decide,
    ((parseBlockedExtensions_spec sampleTables " PHP, ,Exe ,".toList).2.1 (by decide)).symm.trans
      (by decide),
    sampleTables_lower_idem,
    ((parseBlockedExtensions_spec sampleTables " PHP, ,Exe ,".toList).2.2.1 "exe".toList
      (by decide)).2.2.2 sampleTables_lower_idem⟩


/-! ## Names with `..` inside -/

theorem joinSep_append_singleton (xs : List GoString) (n : GoString) :
    ∃ pre, joinSep (xs ++ [n]) = pre ++ n := by
  by_cases h : xs = []
  · subst h; exact ⟨[], rfl⟩
  · exact ⟨joinSep xs ++ ['/'], by rw [joinSep_append xs [n] h (by simp)]; simp [joinSep]⟩

/-- A path whose last element is kept by `filepath.Clean` is cleaned to a path
that ends with this element. -/
theorem clean_last_elem (p n : GoString) (xs : List GoString) (hp : p ≠ [])
    (hs : splitSep p = xs ++ [n]) (hn : NormalElem n) : ∃ pre, Clean p = pre ++ n := by
  unfold Clean
  rw [if_neg hp]
  simp only
  rw [hs, List.foldl_append, List.foldl_cons, List.foldl_nil, cleanStep_normal _ _ _ hn,
    List.reverse_cons]
  obtain ⟨pre, hpre⟩ := joinSep_append_singleton
    (List.foldl (cleanStep (IsAbs p)) [] xs).reverse n
  rw [hpre]
  by_cases hr : IsAbs p = true
  · rw [if_pos hr]
    exact ⟨'/' :: pre, rfl⟩
  · rw [if_neg hr, if_neg]
    · exact ⟨pre, rfl⟩
    · intro h
      have := List.append_eq_nil.mp h
      exact hn.1 this.2

theorem join_last_elem (dir n : GoString) (hn : NormalElem n) : ∃ pre, Join dir n = pre ++ n := by
  unfold Join
  by_cases hd : dir = []
  · have hd' : ¬ dir ≠ [] := fun h => h hd
    rw [if_neg hd', if_pos hn.1]
    exact clean_last_elem n n [] hn.1 (split_of_not_mem n '/' hn.2.2.2) hn
  · rw [if_pos hd]
    refine clean_last_elem _ n (Split dir '/') (by simp) ?_ hn
    rw [splitSep, split_append, split_of_not_mem n '/' hn.2.2.2]

/-- The path an upload gives a file whose name has `..` inside contains `..`. -/
theorem join_contains_dotdot (dir n : GoString) (hn : NormalElem n)
    (hd : Contains n ['.', '.'] = true) : Contains (Join dir n) ['.', '.'] = true := by
  obtain ⟨pre, hpre⟩ := join_last_elem dir n hn
  rw [contains_iff_segment] at hd ⊢
  rw [hpre]
  exact hd.trans (List.suffix_append pre n).isInfix

theorem validatePath_of_abs_error (E : Env) (basePath requestedPath : GoString)
    (h : IsAbs basePath = false ∧ E.getwd = none) :
    ValidatePath E basePath requestedPath = ([], some GoError.ErrInvalidPath) := by
  simp [ValidatePath, Abs, h.1, h.2]

theorem validatePath_of_contains (E : Env) (basePath requestedPath : GoString)
    (hb : IsAbs basePath = true ∨ E.getwd ≠ none)
    (h : Contains requestedPath ['.', '.'] = true) :
    ValidatePath E basePath requestedPath = ([], some GoError.ErrPathTraversal) := by
  have hne : requestedPath ≠ [] := by
    rintro rfl
    simp [Contains] at h
  have : ∃ a, Abs E basePath = .ok a := by
    unfold Abs
    rcases hb with hb | hb
    · simp [hb]
    · cases hw : E.getwd with
      | none => exact absurd hw hb
      | some wd => by_cases hb' : IsAbs basePath = true <;> simp [hb']
  obtain ⟨a, ha⟩ := this
  simp [ValidatePath, ha, hne, h]

theorem validatePathExists_of_error (E : Env) (fs : FS) (basePath requestedPath : GoString)
    (err : GoError) (h : ValidatePath E basePath requestedPath = ([], some err)) :
    ValidatePathExists E fs basePath requestedPath = ([], some err) := by
  simp [ValidatePathExists, h]


/-! ## Uploaded names that cannot be addressed -/

/-- C23 (as stated) fails: with the relative base directory `cdn` and no
working directory, `ValidatePath` answers `ErrInvalidPath` for the path of the
uploaded `a..b.txt`, and for every other path, so no file name is refused
with `ErrPathTraversal` for every base directory. -/
theorem upload_name_counterexample :
    ValidateFilename sampleTables "a..b.txt".toList = ("a..b.txt".toList, none) ∧
      ValidatePath noCwdEnv "cdn".toList (Join "docs".toList "a..b.txt".toList) =
        ([], some GoError.ErrInvalidPath) ∧
      (∀ path : GoString,
        ValidatePath noCwdEnv "cdn".toList path ≠ ([], some GoError.ErrPathTraversal)) := by
  refine ⟨by decide, by decide, ?_⟩
  intro path
  rw [validatePath_of_abs_error noCwdEnv "cdn".toList path ⟨by decide, rfl⟩]
  decide

/-- C23 (as amended): `ValidateFilename` accepts the name `a..b.txt`
unchanged, and the virtual path an upload gives the file stored under it (the
upload directory joined with the name) is refused by `ValidatePath`: with
`ErrPathTraversal` for every base directory that can be made absolute, with
`ErrInvalidPath` for the others.  So where the settings load, the metadata,
rename, move, replace and delete handlers answer a request for that path with
status 400 and leave the state as it is. -/
theorem upload_name_unreachable (E : Env) (L : Lib) (T : CaseTables) (modTime : GoString → Int)
    (cfg : Config) (w : World) (dir other : GoString) (peer : Peer)
    (file : Option (GoString × List Nat)) :
    ValidateFilename T "a..b.txt".toList = ("a..b.txt".toList, none) ∧
      (∀ base, (IsAbs base = true ∨ E.getwd ≠ none) →
        ValidatePath E base (Join dir "a..b.txt".toList) =
          ([], some GoError.ErrPathTraversal)) ∧
      (∀ base, (IsAbs base = false ∧ E.getwd = none) →
        ValidatePath E base (Join dir "a..b.txt".toList) =
          ([], some GoError.ErrInvalidPath)) ∧
      ((getSettings T cfg w.db).err = false →
        (IsAbs (getSettings T cfg w.db).basePath = true ∨ E.getwd ≠ none) →
        GetMetadata E L T modTime cfg w (Join dir "a..b.txt".toList) =
            (w, .error (writeError 400 GoError.ErrPathTraversal.Error)) ∧
          RenameFile E T cfg w ⟨peer, some (Join dir "a..b.txt".toList, other)⟩ =
            (w, writeError 400 ("Invalid source path: ".toList ++
              GoError.ErrPathTraversal.Error)) ∧
          MoveFile E T cfg w ⟨peer, some (Join dir "a..b.txt".toList, other)⟩ =
            (w, writeError 400 ("Invalid source path: ".toList ++
              GoError.ErrPathTraversal.Error)) ∧
          ReplaceFile E L T cfg w ⟨peer, fun _ => .ok ⟨Join dir "a..b.txt".toList, file⟩⟩ =
            (w, writeError 400 ("Invalid path: ".toList ++ GoError.ErrPathTraversal.Error)) ∧
          DeleteFile E T cfg w ⟨peer, some (Join dir "a..b.txt".toList, other)⟩ =
            (w, writeError 400 ("Invalid path: ".toList ++
              GoError.ErrPathTraversal.Error))) := by
  have hn : NormalElem "a..b.txt".toList := by
    unfold NormalElem
    decide
  have hc := join_contains_dotdot dir "a..b.txt".toList hn (by decide)
  have hne : Join dir "a..b.txt".toList ≠ [] := by
    intro h
    rw [h] at hc
    simp [Contains] at hc
  refine ⟨validateFilename_fixed T _ ⟨'a', "..b.txt".toList, by decide, by decide⟩ (by decide),
    fun base hb => validatePath_of_contains E base _ hb hc,
    fun base hb => validatePath_of_abs_error E base _ hb, ?_⟩
  intro hset hb
  have hv := validatePathExists_of_error E w.fs _ _ _
    (validatePath_of_contains E (getSettings T cfg w.db).basePath _ hb hc)
  generalize Join dir "a..b.txt".toList = p at hne hv
  refine ⟨?_, ?_, ?_, ?_, ?_⟩
  · simp [GetMetadata, hset, hne, hv]
  · simp [RenameFile, renameArgs, hset, hv]
  · simp [MoveFile, moveArgs, hset, hv]
  · simp [ReplaceFile, hset, hne, hv]
  · simp [DeleteFile, deleteTarget, hset, hv]

/-- An instance of `upload_name_unreachable`: the upload of `a..b.txt` into
`docs` succeeds and stores the file; the metadata request for its path
`docs/a..b.txt` is refused. -/
theorem upload_name_unreachable_witness :
    (UploadFile noCwdEnv tagLib sampleTables defaultConfig ⟨docsTree, cdnDB⟩ dottedUpload).2 =
        { status := 201,
          body := [("message".toList, "File uploaded successfully".toList),
            ("path".toList, "docs/a..b.txt".toList),
            ("sha256".toList, tagLib.sha256Hex [104, 105])] } ∧
      Open noCwdEnv
          (UploadFile noCwdEnv tagLib sampleTables defaultConfig ⟨docsTree, cdnDB⟩
            dottedUpload).1.fs "/srv/cdn/docs/a..b.txt".toList = .ok (Node.file [104, 105]) ∧
      Join "docs".toList "a..b.txt".toList = "docs/a..b.txt".toList ∧
      GetMetadata noCwdEnv tagLib sampleTables (fun _ => 0) defaultConfig
          (UploadFile noCwdEnv tagLib sampleTables defaultConfig ⟨docsTree, cdnDB⟩
            dottedUpload).1 (Join "docs".toList "a..b.txt".toList) =
        ((UploadFile noCwdEnv tagLib sampleTables defaultConfig ⟨docsTree, cdnDB⟩
            dottedUpload).1, .error (writeError 400 GoError.ErrPathTraversal.Error)) :=
  ⟨by decide, by decide, by decide,
    ((upload_name_unreachable noCwdEnv tagLib sampleTables (fun _ => 0) defaultConfig
      (UploadFile noCwdEnv tagLib sampleTables defaultConfig ⟨docsTree, cdnDB⟩ dottedUpload).1
      "docs".toList [] localPeer none).2.2.2 (by decide) (Or.inl (by decide))).1⟩


/-! ## `DeleteFile`: the root -/

/-- The empty path and `/` are validated to the cleaned absolute root. -/
theorem validatePath_root (E : Env) (basePath path a : GoString)
    (habs : Abs E basePath = .ok a) (hpath : path = [] ∨ path = ['/']) :
    ValidatePath E basePath path = (Clean a, none) := by
  have hreq : (if path = [] then ['/'] else path) = ['/'] := by
    rcases hpath with rfl | rfl
    · rfl
    · rfl
  have hroot := abs_rooted E basePath a habs
  have hS := rootedStack_normal a
  have hform := clean_rooted a hroot
  have hjoin : Join (Clean a) ['/'] = Clean a := by
    rw [hform]
    simp only [Join, ne_eq, reduceCtorEq, not_false_eq_true, if_true]
    have habs' : IsAbs (('/' :: joinSep (rootedStack a).reverse) ++ '/' :: ['/']) = true :=
      (isAbs_iff _).mpr ⟨_, rfl⟩
    rw [clean_rooted _ habs', rootedStack, splitSep, split_append, List.foldl_append]
    have h1 := rootedStack_cleanForm (rootedStack a) hS
    rw [rootedStack, splitSep] at h1
    rw [h1]
    have h2 : Split ['/'] '/' = [[], []] := by decide
    rw [h2]
    simp [cleanStep_nil]
  have hclean : Clean (Clean a) = Clean a := clean_idem_rooted a hroot
  have hpre : HasPrefix (Clean a) (Clean a) = true := by
    rw [HasPrefix, List.isPrefixOf_iff_prefix]
  unfold ValidatePath
  simp only [hreq, habs]
  rw [if_neg (by decide), hjoin, hclean, hpre]
  rfl

/-- After `FS.erase` no entry at or below the erased location is left. -/
theorem erase_entries (fs : FS) (loc : List GoString) :
    ∀ p ∈ (fs.erase loc).entries, loc.isPrefixOf p.1 = false := by
  intro p hp
  unfold FS.erase at hp
  have := (List.mem_filter.mp hp).2
  simpa using this

/-- C24: for a delete request whose path is empty or `/` and whose
confirmation is the base name of the root, the root being an existing
directory, `ValidatePathExists` returns the root itself and `DeleteFile`
removes the root with all it contains: no entry at or below the root is left
in the file tree, and (the root not being `/`) the answer is 200. -/
theorem deleteFile_root (E : Env) (T : CaseTables) (cfg : Config) (w : World)
    (r : DeleteRequest) (path a : GoString) (loc : List GoString)
    (hset : (getSettings T cfg w.db).err = false)
    (hpath : path = [] ∨ path = ['/'])
    (habs : Abs E (getSettings T cfg w.db).basePath = .ok a)
    (hroot : resolve E w.fs false (Clean a) = .ok (Resolved.found loc Node.dir))
    (hbody : r.body = some (path, Base (Clean a))) :
    ValidatePathExists E w.fs (getSettings T cfg w.db).basePath path = (Clean a, none) ∧
      (DeleteFile E T cfg w r).1.fs = w.fs.erase loc ∧
      (∀ p ∈ (DeleteFile E T cfg w r).1.fs.entries, loc.isPrefixOf p.1 = false) ∧
      (loc ≠ [] →
        DeleteFile E T cfg w r =
          ({ fs := w.fs.erase loc,
             db := LogActivity (DeleteFileHash w.db path) "delete".toList path
               (getClientIP r.peer) },
            { status := 200,
              body := [("message".toList, "File deleted successfully".toList),
                ("path".toList, path)] })) := by
  have hv := validatePath_root E _ path a habs hpath
  have hl : Lstat E w.fs (Clean a) =
      .ok { name := Base (Clean a), isDir := true, isSymlink := false, size := 0 } := by
    simp [Lstat, hroot, fileInfo]
  have hst := stat_of_lstat E w.fs (Clean a) _ hl rfl
  have hvpe : ValidatePathExists E w.fs (getSettings T cfg w.db).basePath path =
      (Clean a, none) := by
    simp [ValidatePathExists, hv, hl]
  have htarget : deleteTarget E T cfg w r =
      .ok (Clean a, { name := Base (Clean a), isDir := true, isSymlink := false, size := 0 }) := by
    simp [deleteTarget, hset, hbody, hvpe, hst]
  by_cases hloc : loc = []
  · have hrm : RemoveAll E w.fs (Clean a) = (w.fs.erase loc, some Errno.EBUSY) := by
      simp [RemoveAll, hroot, hloc]
    have hd : DeleteFile E T cfg w r =
        ({ w with fs := w.fs.erase loc }, writeError 500 "Failed to delete directory".toList) := by
      simp [DeleteFile, htarget, hrm]
    refine ⟨hvpe, by rw [hd], ?_, fun h => absurd hloc h⟩
    rw [hd]
    exact erase_entries w.fs loc
  · have hrm : RemoveAll E w.fs (Clean a) = (w.fs.erase loc, none) := by
      simp [RemoveAll, hroot, hloc]
    have hd : DeleteFile E T cfg w r =
        ({ fs := w.fs.erase loc,
           db := LogActivity (DeleteFileHash w.db path) "delete".toList path
             (getClientIP r.peer) },
          { status := 200,
            body := [("message".toList, "File deleted successfully".toList),
              ("path".toList, path)] }) := by
      simp [DeleteFile, htarget, hrm, hbody]
    refine ⟨hvpe, by rw [hd], ?_, fun _ => hd⟩
    rw [hd]
    exact erase_entries w.fs loc

/-- Witness of `deleteFile_root`: the root `/srv/cdn` with its directory and
files is removed on the request `path = ""`, `confirm_filename = "cdn"`. -/
theorem deleteFile_root_witness :
    (getSettings sampleTables defaultConfig cdnDB).err = false ∧
      Abs noCwdEnv (getSettings sampleTables defaultConfig cdnDB).basePath =
        .ok "/srv/cdn".toList ∧
      resolve noCwdEnv docsTree false (Clean "/srv/cdn".toList) =
        .ok (Resolved.found ["srv".toList, "cdn".toList] Node.dir) ∧
      Base (Clean "/srv/cdn".toList) = "cdn".toList ∧
      (DeleteFile noCwdEnv sampleTables defaultConfig ⟨docsTree, cdnDB⟩
        ⟨localPeer, some ([], "cdn".toList)⟩).1.fs = ⟨[(["srv".toList], Node.dir)]⟩ ∧
      (DeleteFile noCwdEnv sampleTables defaultConfig ⟨docsTree, cdnDB⟩
        ⟨localPeer, some ([], "cdn".toList)⟩).1.fs =
        docsTree.erase ["srv".toList, "cdn".toList] :=
  ⟨by decide, by decide, by decide, by decide, by decide,
    (deleteFile_root noCwdEnv sampleTables defaultConfig ⟨docsTree, cdnDB⟩
      ⟨localPeer, some ([], "cdn".toList)⟩ [] "/srv/cdn".toList ["srv".toList, "cdn".toList]
      (by decide) (Or.inl rfl) (by decide) (by decide) (by decide)).2.1⟩


end Hextech
